import Mathlib

/-!
# PHIP offline report queue

A shallow embedding of the offline-first report submission code of the PHIP
dashboard:

* `src/frontend/src/utils/offlineStorage.js` (the `offlineStorage` object over
  an IndexedDB object store created with `keyPath: 'id', autoIncrement: true`),
* `src/frontend/src/components/OfflineStatus.jsx` (`syncReports`,
  `checkPending`, `handleOnline`, `handleOffline`),
* `src/frontend/src/pages/FacilityDashboard.jsx` (`handleSubmit`).

JavaScript objects are association lists in property order, promises that
reject are `Except.error`, and everything the browser decides (network
outcomes, storage availability, the clock, `navigator.onLine`) is an explicit
environment argument.
-/

namespace PHIP

/-! ## JavaScript values and objects -/

/-- JSON-like property values. Numbers are integers: the queue never computes
with a payload number, it only copies it. -/
inductive JsVal where
  | null
  | bool (b : Bool)
  | num (n : Int)
  | str (s : String)
  deriving DecidableEq, Repr

/-- A JavaScript object: its own enumerable properties, in property order. -/
abbrev JsObj := List (String × JsVal)

/-- Property read `o[k]`; `none` is `undefined`. -/
def objGet : JsObj → String → Option JsVal
  | [], _ => none
  | (k', v) :: rest, k => if k' = k then some v else objGet rest k

/-- Property write `o[k] = v` on a fresh copy: an existing property keeps its
place and takes the new value, a new property goes last. -/
def objSet : JsObj → String → JsVal → JsObj
  | [], k, v => [(k, v)]
  | (k', v') :: rest, k, v =>
    if k' = k then (k', v) :: rest else (k', v') :: objSet rest k v

/-- Rest destructuring `const { k1, ..., kn, ...rest } = o`: the properties of
`o` whose name is not among `ks`, in order. -/
def objOmit (ks : List String) (o : JsObj) : JsObj :=
  o.filter (fun kv => !ks.contains kv.1)

/-! ## The IndexedDB object store `pending-reports` -/

/-- The valid IndexedDB keys that a `JsVal` can denote. -/
inductive IDBKey where
  | num (n : Int)
  | str (s : String)
  deriving DecidableEq, Repr

/-- Conversion of a value to a key; `none` is an invalid key. -/
def toKey : JsVal → Option IDBKey
  | .num n => some (.num n)
  | .str s => some (.str s)
  | _ => none

/-- The value a key is stored as. -/
def IDBKey.toVal : IDBKey → JsVal
  | .num n => .num n
  | .str s => .str s

/-- The UTF-16 code units of a character: one unit in the basic plane, a
surrogate pair above it. -/
def charUnits (c : Char) : List Nat :=
  if c.toNat < 0x10000 then [c.toNat]
  else [0xD800 + (c.toNat - 0x10000) / 0x400, 0xDC00 + (c.toNat - 0x10000) % 0x400]

/-- The UTF-16 code units of a list of characters. -/
def utf16Units : List Char → List Nat
  | [] => []
  | c :: cs => charUnits c ++ utf16Units cs

/-- Lexicographic order on code-unit sequences; a proper prefix comes first. -/
def unitsLt : List Nat → List Nat → Bool
  | _, [] => false
  | [], _ :: _ => true
  | a :: as, b :: bs => decide (a < b) || (decide (a = b) && unitsLt as bs)

/-- Key order of IndexedDB: numbers before strings, numbers by value, strings
by their UTF-16 code units (a JavaScript string is a sequence of code units,
so a supplementary-plane character, stored as a surrogate pair `D800`..`DFFF`,
sorts before the characters `E000`..`FFFF`). -/
def keyLt : IDBKey → IDBKey → Bool
  | .num a, .num b => decide (a < b)
  | .num _, .str _ => true
  | .str _, .num _ => false
  | .str a, .str b => unitsLt (utf16Units a.toList) (utf16Units b.toList)

/-- The key of a stored record: the store has `keyPath: 'id'`. -/
def recKey (r : JsObj) : Option IDBKey :=
  (objGet r "id").bind toKey

/-- Errors with which a store request rejects. -/
inductive IDBError where
  | dataError
  | constraintError
  | unavailable
  deriving DecidableEq, Repr

/-- The object store: its records in ascending key order and the current
number of its key generator (`autoIncrement: true`). -/
structure ObjectStore where
  records : List JsObj
  keyGen : Nat
  deriving DecidableEq, Repr

/-- The store right after `upgrade` created it. -/
def ObjectStore.empty : ObjectStore := { records := [], keyGen := 1 }

/-- Largest number the key generator can hand out. -/
def maxGeneratedKey : Nat := 2 ^ 53

/-- Whether a record with key `k` is in the store. -/
def ObjectStore.hasKey (s : ObjectStore) (k : IDBKey) : Bool :=
  s.records.any (fun r => recKey r == some k)

/-- Insertion of a record at its place in key order. -/
def insertRecord (k : IDBKey) (r : JsObj) : List JsObj → List JsObj
  | [] => [r]
  | x :: xs =>
    match recKey x with
    | some kx => if keyLt k kx then r :: x :: xs else x :: insertRecord k r xs
    | none => x :: insertRecord k r xs

/-- The key generator after a record with an explicit key was stored: a number
key at or above the current number moves the generator past it. -/
def bumpKeyGen (gen : Nat) : IDBKey → Nat
  | .num n =>
    let value := min n (maxGeneratedKey : Int)
    if (gen : Int) ≤ value then (value + 1).toNat else gen
  | .str _ => gen

/-- The request `db.add(STORE_NAME, value)` on a store with in-line key `id`
and a key generator. A value without `id` gets the generator's number, which
is also written into the stored value; a value with `id` uses it as key. An
existing key is never overwritten. -/
def ObjectStore.add (s : ObjectStore) (value : JsObj) : Except IDBError (IDBKey × ObjectStore) :=
  match objGet value "id" with
  | none =>
    if maxGeneratedKey < s.keyGen then .error .constraintError
    else
      let k := IDBKey.num s.keyGen
      if s.hasKey k then .error .constraintError
      else .ok (k, { records := insertRecord k (objSet value "id" (.num s.keyGen)) s.records,
                     keyGen := s.keyGen + 1 })
  | some v =>
    match toKey v with
    | none => .error .dataError
    | some k =>
      if s.hasKey k then .error .constraintError
      else .ok (k, { records := insertRecord k value s.records,
                     keyGen := bumpKeyGen s.keyGen k })

/-- The request `db.getAll(STORE_NAME)`: every record, in key order. -/
def ObjectStore.getAll (s : ObjectStore) : List JsObj := s.records

/-- The request `db.delete(STORE_NAME, id)`; `id` is the JavaScript argument
(`none` for `undefined`). An argument that is not a valid key is a
`DataError`; a valid key that is absent deletes nothing. -/
def ObjectStore.delete (s : ObjectStore) (id : Option JsVal) : Except IDBError ObjectStore :=
  match id.bind toKey with
  | none => .error .dataError
  | some k => .ok { s with records := s.records.filter (fun r => recKey r != some k) }

/-- The request `db.clear(STORE_NAME)`; the key generator is not reset. -/
def ObjectStore.clear (s : ObjectStore) : ObjectStore := { s with records := [] }

/-- Ascending keys: both records have a key and the first key is smaller. -/
def recLt (a b : JsObj) : Bool :=
  match recKey a, recKey b with
  | some ka, some kb => keyLt ka kb
  | _, _ => false

/-- The record has a key, and a number key is below the key generator unless
the generator is exhausted (an explicit key above `maxGeneratedKey` leaves
the generator at `maxGeneratedKey + 1`). -/
def belowGen (gen : Nat) (r : JsObj) : Bool :=
  match recKey r with
  | some (.num n) => decide (n < (gen : Int)) || decide (maxGeneratedKey < gen)
  | some (.str _) => true
  | none => false

/-- The states an object store can be in: records in strictly ascending key
order, every number key below the key generator (or the generator
exhausted), and the generator at 1 or more. -/
def ObjectStore.WF (s : ObjectStore) : Prop :=
  s.records.Pairwise (fun a b => recLt a b = true) ∧
    (∀ r ∈ s.records, belowGen s.keyGen r = true) ∧ 1 ≤ s.keyGen

instance (s : ObjectStore) : Decidable s.WF :=
  inferInstanceAs (Decidable (_ ∧ _ ∧ _))

/-! ## `offlineStorage` (offlineStorage.js)

Each function first awaits `dbPromise`; `avail = false` stands for a database
that cannot be opened or a transaction the browser aborts. Each returns the
settled promise and the store afterwards. -/

/-- `offlineStorage.saveReport(report)`, lines 13-20; `now` is
`new Date().toISOString()`. -/
def saveReport (avail : Bool) (now : String) (s : ObjectStore) (report : JsObj) :
    Except IDBError IDBKey × ObjectStore :=
  if avail then
    match s.add (objSet (objSet report "createdAt" (.str now)) "status" (.str "pending")) with
    | .ok (k, s') => (.ok k, s')
    | .error e => (.error e, s)
  else (.error .unavailable, s)

/-- `offlineStorage.getPendingReports()`, lines 22-25. -/
def getPendingReports (avail : Bool) (s : ObjectStore) : Except IDBError (List JsObj) :=
  if avail then .ok s.getAll else .error .unavailable

/-- `offlineStorage.deleteReport(id)`, lines 27-30. -/
def deleteReport (avail : Bool) (s : ObjectStore) (id : Option JsVal) :
    Except IDBError Unit × ObjectStore :=
  if avail then
    match s.delete id with
    | .ok s' => (.ok (), s')
    | .error e => (.error e, s)
  else (.error .unavailable, s)

/-- `offlineStorage.clearReports()`, lines 32-35. -/
def clearReports (avail : Bool) (s : ObjectStore) : Except IDBError Unit × ObjectStore :=
  if avail then (.ok (), s.clear) else (.error .unavailable, s)

/-! ## Effects at the network and persistence boundaries -/

/-- How `axios.post` settles: it resolves on a 2xx response and rejects
otherwise, either without a response or with a non-2xx status. -/
inductive PostOutcome where
  | ack
  | networkError
  | httpError (status : Nat)
  deriving DecidableEq, Repr

/-- Whether the promise of `axios.post` resolves (the service acknowledged). -/
def PostOutcome.isAck : PostOutcome → Bool
  | .ack => true
  | _ => false

/-- One settled request, as seen at the boundary. -/
inductive Effect where
  | listed (ok : Bool)
  | posted (body : JsObj) (outcome : PostOutcome)
  | deleted (id : Option JsVal) (ok : Bool)
  | saved (report : JsObj) (key : Option IDBKey)
  | feedbackRequested
  deriving DecidableEq, Repr

/-- The `{ type, msg }` object held in `submitStatus`. -/
structure SubmitStatus where
  type : String
  msg : String
  deriving DecidableEq, Repr

/-- The browser store, the React state of `OfflineStatus` and of
`FacilityDashboard`, and the requests settled so far (oldest first). -/
structure AppState where
  store : ObjectStore
  isOnline : Bool
  pendingCount : Nat
  syncing : Bool
  loading : Bool
  submitStatus : SubmitStatus
  activeTab : String
  trace : List Effect
  deriving DecidableEq, Repr

/-- The state of a freshly mounted dashboard over a given store. -/
def AppState.init (s : ObjectStore) (online : Bool) : AppState :=
  { store := s, isOnline := online, pendingCount := 0, syncing := false, loading := false,
    submitStatus := ⟨"", ""⟩, activeTab := "report", trace := [] }

/-- The bodies handed to `axios.post`, in the order the calls were issued. -/
def postedBodies : List Effect → List JsObj
  | [] => []
  | .posted body _ :: rest => body :: postedBodies rest
  | _ :: rest => postedBodies rest

/-- The bodies the remote service acknowledged. -/
def ackedBodies : List Effect → List JsObj
  | [] => []
  | .posted body .ack :: rest => body :: ackedBodies rest
  | _ :: rest => ackedBodies rest

/-! ## `OfflineStatus.jsx` -/

/-- What the browser decides during one run of `syncReports`: whether the
snapshot read (line 38) and the read in `checkPending` (line 62) resolve, and
for the i-th snapshot record how the POST settles and whether the store is
available to the delete. -/
structure DrainEnv where
  snapOk : Bool
  post : Nat → PostOutcome
  delOk : Nat → Bool
  checkOk : Bool

/-- The queue-management fields stripped at line 48. -/
def queueFields : List String := ["id", "createdAt", "status"]

/-- The `for (const report of reports)` loop, lines 45-60, from the i-th
snapshot record on. A rejected POST or delete is caught and the loop goes on
with the next record. -/
def syncLoop (env : DrainEnv) : Nat → List JsObj → AppState → AppState
  | _, [], st => st
  | i, report :: rest, st =>
    let id := objGet report "id"
    let payload := objOmit queueFields report
    let st1 := { st with trace := st.trace ++ [.posted payload (env.post i)] }
    if (env.post i).isAck then
      let del := deleteReport (env.delOk i) st1.store id
      syncLoop env (i + 1) rest
        { st1 with store := del.2, trace := st1.trace ++ [.deleted id del.1.isOk] }
    else
      syncLoop env (i + 1) rest st1

/-- The function `checkPending`, lines 32-35; `none` when its promise rejects. -/
def checkPending (avail : Bool) (st : AppState) : Option AppState :=
  match getPendingReports avail st.store with
  | .ok reports =>
    some { st with pendingCount := reports.length, trace := st.trace ++ [.listed true] }
  | .error _ => none

/-- One uninterrupted run of `syncReports`, lines 37-64. When a read of the
store rejects, the run ends there with the state reached so far. -/
def syncReports (env : DrainEnv) (st : AppState) : AppState :=
  match getPendingReports env.snapOk st.store with
  | .error _ => { st with trace := st.trace ++ [.listed false] }
  | .ok reports =>
    let st0 := { st with trace := st.trace ++ [.listed true] }
    if reports.length = 0 then st0
    else
      let st1 := syncLoop env 0 reports { st0 with syncing := true }
      match checkPending env.checkOk st1 with
      | some st2 => { st2 with syncing := false }
      | none => { st1 with trace := st1.trace ++ [.listed false] }

/-- The listener `handleOnline`, lines 14-17, with the run it starts taken to
completion. -/
def handleOnline (env : DrainEnv) (st : AppState) : AppState :=
  syncReports env { st with isOnline := true }

/-- The listener `handleOffline`, line 18. -/
def handleOffline (st : AppState) : AppState :=
  { st with isOnline := false }

/-! ## `FacilityDashboard.jsx` -/

/-- What the browser decides during one run of `handleSubmit`:
`navigator.onLine` at line 89 and at line 103, how the POST of line 90
settles, and clock and store availability for the `saveReport` of line 97 and
of line 111. -/
structure CaptureEnv where
  onLine : Bool
  post : PostOutcome
  saveAvail : Bool
  now : String
  onLineCatch : Bool
  saveAvailCatch : Bool
  nowCatch : String

/-- The `catch (err)` block of `handleSubmit`, lines 101-118. -/
def handleSubmitCatch (env : CaptureEnv) (payload : JsObj) (st : AppState) : AppState :=
  if !env.onLineCatch then
    match saveReport env.saveAvailCatch env.nowCatch st.store payload with
    | (.ok k, store') =>
      { st with store := store', trace := st.trace ++ [.saved payload (some k)],
                submitStatus := ⟨"success", "Network lost. Report saved offline."⟩ }
    | (.error _, store') =>
      { st with store := store', trace := st.trace ++ [.saved payload none],
                submitStatus := ⟨"error", "Failed to save offline."⟩ }
  else
    { st with submitStatus := ⟨"error", "Failed to submit report."⟩ }

/-- One uninterrupted run of `handleSubmit`, lines 76-122, for the payload
built at lines 83-87 (the block at lines 106-110 rebuilds the same object). -/
def handleSubmit (env : CaptureEnv) (payload : JsObj) (st : AppState) : AppState :=
  let st0 := { st with loading := true, submitStatus := ⟨"", ""⟩ }
  let st3 :=
    if env.onLine then
      let st1 := { st0 with trace := st0.trace ++ [.posted payload env.post] }
      if env.post.isAck then
        { st1 with submitStatus := ⟨"success", "Report submitted successfully!"⟩,
                   trace := st1.trace ++ [.feedbackRequested],
                   activeTab := "feedback" }
      else handleSubmitCatch env payload st1
    else
      match saveReport env.saveAvail env.now st0.store payload with
      | (.ok k, store') =>
        { st0 with store := store', trace := st0.trace ++ [.saved payload (some k)],
                   submitStatus := ⟨"success", "Report saved offline. Will sync when online."⟩ }
      | (.error _, store') =>
        handleSubmitCatch env payload
          { st0 with store := store', trace := st0.trace ++ [.saved payload none] }
  { st3 with loading := false }

/-! ## Traces of the drain loop -/

/-- The requests one loop iteration settles for the i-th snapshot record: the
POST, and the delete when the POST was acknowledged. -/
def recordEffects (env : DrainEnv) (i : Nat) (report : JsObj) : List Effect :=
  Effect.posted (objOmit queueFields report) (env.post i) ::
    (if (env.post i).isAck then
      [Effect.deleted (objGet report "id")
        (env.delOk i && ((objGet report "id").bind toKey).isSome)]
    else [])

/-- The requests the loop settles from the i-th snapshot record on. -/
def loopEffects (env : DrainEnv) : Nat → List JsObj → List Effect
  | _, [] => []
  | i, report :: rest => recordEffects env i report ++ loopEffects env (i + 1) rest

/-! ## Sequences of complete operations -/

/-- One operation of the dashboard, run to completion: a run of
`handleSubmit`, a run of `syncReports` started by the Sync Now button, an
`online` event (with the drain it starts) or an `offline` event. -/
inductive Operation where
  | capture (env : CaptureEnv) (payload : JsObj)
  | drain (env : DrainEnv)
  | online (env : DrainEnv)
  | offline

/-- The state after one operation. -/
def Operation.apply : Operation → AppState → AppState
  | .capture env payload, st => handleSubmit env payload st
  | .drain env, st => syncReports env st
  | .online env, st => handleOnline env st
  | .offline, st => handleOffline st

/-- The state after a sequence of operations, one after the other. -/
def runOps : List Operation → AppState → AppState
  | [], st => st
  | op :: ops, st => runOps ops (op.apply st)

/-- The payloads of all captures of a sequence of operations. -/
def captured : List Operation → List JsObj
  | [] => []
  | .capture _ payload :: ops => payload :: captured ops
  | _ :: ops => captured ops

/-- The payloads of the captures that ended with the status `success`. -/
def capturedOk : List Operation → AppState → List JsObj
  | [], _ => []
  | .capture env payload :: ops, st =>
    (if (handleSubmit env payload st).submitStatus.type = "success" then [payload] else []) ++
      capturedOk ops (handleSubmit env payload st)
  | .drain env :: ops, st => capturedOk ops (syncReports env st)
  | .online env :: ops, st => capturedOk ops (handleOnline env st)
  | .offline :: ops, st => capturedOk ops (handleOffline st)

/-- The payload is accounted for: the remote service acknowledged it, as
`handleSubmit` posts it or as `syncReports` posts it (without queue fields),
or the store holds a record of it. -/
def accountedFor (p : JsObj) (st : AppState) : Prop :=
  p ∈ ackedBodies st.trace ∨ objOmit queueFields p ∈ ackedBodies st.trace ∨
    objOmit queueFields p ∈ st.store.records.map (objOmit queueFields)

instance (p : JsObj) (st : AppState) : Decidable (accountedFor p st) :=
  inferInstanceAs (Decidable (_ ∨ _ ∨ _))

/-! ## Runs of `syncReports` that overlap

JavaScript runs one piece of code at a time and an `async` function gives up
control at each `await`. A call of `syncReports` is therefore a task that is
suspended at one of its four `await`s, and the event loop resumes one task at
a time when the request it waits for settles. -/

/-- One call of `syncReports`, suspended at an `await`: the snapshot read
(line 38), the POST for `report` (line 50) or its delete (line 55) with the
records still to be looped over, the read in `checkPending` (line 62), or
returned. -/
inductive DrainTask where
  | fetching
  | posting (report : JsObj) (rest : List JsObj)
  | deleting (report : JsObj) (rest : List JsObj)
  | checking
  | finished
  deriving DecidableEq, Repr

/-- The head of the `for` loop: the next record, or the code after the loop. -/
def DrainTask.next : List JsObj → DrainTask
  | [] => .checking
  | report :: rest => .posting report rest

/-- The awaited request settles (`storeOk` for a store request, `post` for the
POST) and the task runs on to its next `await`. -/
def DrainTask.resume (storeOk : Bool) (post : PostOutcome) :
    DrainTask → AppState → DrainTask × AppState
  | .fetching, st =>
    match getPendingReports storeOk st.store with
    | .error _ => (.finished, { st with trace := st.trace ++ [.listed false] })
    | .ok reports =>
      let st0 := { st with trace := st.trace ++ [.listed true] }
      if reports.length = 0 then (.finished, st0)
      else (DrainTask.next reports, { st0 with syncing := true })
  | .posting report rest, st =>
    let st1 := { st with trace := st.trace ++ [.posted (objOmit queueFields report) post] }
    if post.isAck then (.deleting report rest, st1) else (DrainTask.next rest, st1)
  | .deleting report rest, st =>
    let id := objGet report "id"
    let del := deleteReport storeOk st.store id
    (DrainTask.next rest,
      { st with store := del.2, trace := st.trace ++ [.deleted id del.1.isOk] })
  | .checking, st =>
    match checkPending storeOk st with
    | some st2 => (.finished, { st2 with syncing := false })
    | none => (.finished, { st with trace := st.trace ++ [.listed false] })
  | .finished, st => (.finished, st)

/-- A task resumed with one settlement after the other. -/
def resumeAll : List (Bool × PostOutcome) → DrainTask × AppState → DrainTask × AppState
  | [], x => x
  | (storeOk, post) :: rest, (t, st) => resumeAll rest (t.resume storeOk post st)

/-- The settlements that the loop of a run on its own receives under `env`,
from the i-th snapshot record on. -/
def loopSettlements (env : DrainEnv) : Nat → List JsObj → List (Bool × PostOutcome)
  | _, [] => []
  | i, _ :: rest =>
    (true, env.post i) ::
      ((if (env.post i).isAck then [(env.delOk i, PostOutcome.ack)] else []) ++
        loopSettlements env (i + 1) rest)

/-- What the browser's event loop does next: deliver an `online` or `offline`
event, a click on the Sync Now button, or the settlement of the request that
the task with the given number awaits. -/
inductive LoopEvent where
  | online
  | offline
  | clickSync
  | settle (task : Nat) (storeOk : Bool) (post : PostOutcome)
  deriving DecidableEq, Repr

/-- The application state and the calls of `syncReports` made so far. -/
structure EventLoop where
  app : AppState
  tasks : List DrainTask
  deriving DecidableEq, Repr

/-- One turn of the event loop. `handleOnline` (lines 14-17) sets `isOnline`
and calls `syncReports`. The Sync Now button (lines 77-88) is rendered when
`pendingCount > 0` and `isOnline`, and is disabled while `syncing`. -/
def EventLoop.step (w : EventLoop) : LoopEvent → EventLoop
  | .online => { app := { w.app with isOnline := true }, tasks := w.tasks ++ [.fetching] }
  | .offline => { w with app := handleOffline w.app }
  | .clickSync =>
    if w.app.isOnline && decide (0 < w.app.pendingCount) && !w.app.syncing then
      { w with tasks := w.tasks ++ [.fetching] }
    else w
  | .settle i storeOk post =>
    match w.tasks[i]? with
    | none => w
    | some t =>
      let r := t.resume storeOk post w.app
      { app := r.2, tasks := w.tasks.set i r.1 }

/-- The event loop after a sequence of turns. -/
def EventLoop.run : List LoopEvent → EventLoop → EventLoop
  | [], w => w
  | e :: es, w => EventLoop.run es (w.step e)

/-- The component right after mounting: the effect of lines 13-30 has called
`checkPending` (a rejected read leaves the count at 0). -/
def mount (avail : Bool) (s : ObjectStore) (online : Bool) : EventLoop :=
  { app := (checkPending avail (AppState.init s online)).getD (AppState.init s online),
    tasks := [] }

/-- The snapshot records a suspended run still has a request to make for:
the record it is posting or deleting and the records still to be looped
over. -/
def DrainTask.held : DrainTask → List JsObj
  | .posting report rest => report :: rest
  | .deleting report rest => report :: rest
  | _ => []

/-- The snapshot records a suspended run has still to post. -/
def DrainTask.toPost : DrainTask → List JsObj
  | .posting report rest => report :: rest
  | .deleting _ rest => rest
  | _ => []

/-! ## Sequences of calls of `offlineStorage` -/

/-- One call of `offlineStorage`: `saveReport(report)` at clock `now`,
`deleteReport(id)` or `clearReports()`, each with the availability of the
store at that moment. -/
inductive StoreCall where
  | save (avail : Bool) (now : String) (report : JsObj)
  | delete (avail : Bool) (id : Option JsVal)
  | clear (avail : Bool)
  deriving DecidableEq, Repr

/-- The call saves a report that has no `id` property of its own (or saves
nothing). -/
def StoreCall.idFree : StoreCall → Bool
  | .save _ _ report => (objGet report "id").isNone
  | _ => true

/-- The id a call resolves with (only `saveReport` returns one) and the store
afterwards. -/
def StoreCall.run : StoreCall → ObjectStore → Option IDBKey × ObjectStore
  | .save avail now report, s =>
    ((saveReport avail now s report).1.toOption, (saveReport avail now s report).2)
  | .delete avail id, s => (none, (deleteReport avail s id).2)
  | .clear avail, s => (none, (clearReports avail s).2)

/-- The store after a sequence of calls. -/
def runCalls : List StoreCall → ObjectStore → ObjectStore
  | [], s => s
  | c :: cs, s => runCalls cs (c.run s).2

/-- The ids that the `saveReport` calls of a sequence returned, in call
order. -/
def returnedIds : List StoreCall → ObjectStore → List IDBKey
  | [], _ => []
  | c :: cs, s => (c.run s).1.toList ++ returnedIds cs (c.run s).2

/-- The record that a resolved `saveReport(report)` put in the store under the
key `k`: the report with `createdAt`, `status` and `id` set. -/
def storedRecord (now : String) (report : JsObj) (k : IDBKey) : JsObj :=
  objSet (objSet (objSet report "createdAt" (.str now)) "status" (.str "pending")) "id" k.toVal

/-- The list that `listPending` is specified to return, kept next to the
store: a resolved `saveReport` puts its record at the end, a resolved
`deleteReport` takes the record with that id out, a resolved `clearReports`
empties it. These are the records saved and not yet deleted, in the order in
which they were saved. -/
def savedNotDeleted : List StoreCall → ObjectStore → List JsObj → List JsObj
  | [], _, pending => pending
  | .save avail now report :: cs, s, pending =>
    match saveReport avail now s report with
    | (.ok k, s') => savedNotDeleted cs s' (pending ++ [storedRecord now report k])
    | (.error _, s') => savedNotDeleted cs s' pending
  | .delete avail id :: cs, s, pending =>
    match deleteReport avail s id, id.bind toKey with
    | (.ok _, s'), some k =>
      savedNotDeleted cs s' (pending.filter (fun r => recKey r != some k))
    | (_, s'), _ => savedNotDeleted cs s' pending
  | .clear avail :: cs, s, pending =>
    match clearReports avail s with
    | (.ok _, s') => savedNotDeleted cs s' []
    | (.error _, s') => savedNotDeleted cs s' pending

/-! ## The report form -/

/-- The form state `formData` of `FacilityDashboard`, lines 23-35: the number
inputs hold integers (`handleInputChange` applies `parseInt`), the selects and
the text area hold strings. Every input of the form is named after one of
these fields. -/
structure FormData where
  fever_cases : Int
  diarrhea_cases : Int
  vomiting_cases : Int
  respiratory_cases : Int
  hospital_admissions : Int
  severe_dehydration_cases : Int
  unexplained_deaths : Int
  bed_occupancy_rate : Int
  ors_stock_level : String
  antibiotics_stock_level : String
  notes : String
  deriving DecidableEq, Repr

/-- The payload that `handleSubmit` builds at lines 83-87 (and again at lines
106-110): `{ report_date: reportDate, ...formData, bed_occupancy_rate:
parseFloat(formData.bed_occupancy_rate) }`. -/
def buildPayload (reportDate : String) (formData : FormData) : JsObj :=
  [("report_date", .str reportDate),
   ("fever_cases", .num formData.fever_cases),
   ("diarrhea_cases", .num formData.diarrhea_cases),
   ("vomiting_cases", .num formData.vomiting_cases),
   ("respiratory_cases", .num formData.respiratory_cases),
   ("hospital_admissions", .num formData.hospital_admissions),
   ("severe_dehydration_cases", .num formData.severe_dehydration_cases),
   ("unexplained_deaths", .num formData.unexplained_deaths),
   ("bed_occupancy_rate", .num formData.bed_occupancy_rate),
   ("ors_stock_level", .str formData.ors_stock_level),
   ("antibiotics_stock_level", .str formData.antibiotics_stock_level),
   ("notes", .str formData.notes)]

/-- The status tells the user that the report was submitted. -/
def SubmitStatus.saysSubmitted (s : SubmitStatus) : Bool :=
  s.type == "success" && s.msg == "Report submitted successfully!"

/-- The status tells the user that the report was saved offline. -/
def SubmitStatus.saysSavedOffline (s : SubmitStatus) : Bool :=
  s.type == "success" &&
    (s.msg == "Report saved offline. Will sync when online." ||
      s.msg == "Network lost. Report saved offline.")

/-! ## What a drain reports -/

/-- What a run of `syncReports` leaves for its caller and for the interface:
the call returns nothing, and the component state it sets is `pendingCount`
and `syncing`. (A failed submission is only written to the console, lines
56-59.) -/
def drainReport (st : AppState) : Nat × Bool :=
  (st.pendingCount, st.syncing)

/-- The state without the record of the settled requests: the store and the
component state, which is all that the code itself can look at. -/
def forgetTrace (st : AppState) : AppState :=
  { st with trace := [] }

/-! ## Sample data -/

/-- A stored record with key `n` and report date `date`. -/
def sampleRecord (n : Int) (date : String) : JsObj :=
  [("report_date", .str date), ("fever_cases", .num 3),
   ("createdAt", .str "2024-05-01T08:00:00.000Z"), ("status", .str "pending"), ("id", .num n)]

/-- A backlog of three records. -/
def backlog3 : ObjectStore :=
  { records := [sampleRecord 1 "2024-05-01", sampleRecord 2 "2024-05-02",
                sampleRecord 3 "2024-05-03"],
    keyGen := 4 }

/-- A drain in which only the second submission fails, without a response. -/
def secondFails : DrainEnv :=
  { snapOk := true, post := fun i => if i = 1 then .networkError else .ack,
    delOk := fun _ => true, checkOk := true }

/-- A report payload as the form builds it. -/
def samplePayload : JsObj :=
  [("report_date", .str "2024-05-04"), ("fever_cases", .num 7), ("notes", .str "")]

/-- A payload that has a property named `status` of its own. -/
def statusPayload : JsObj :=
  [("report_date", .str "2024-05-04"), ("status", .str "draft")]

/-- A payload that brings an `id` of its own, equal to a key of `backlog3`. -/
def idPayload : JsObj :=
  [("id", .num 2), ("report_date", .str "2024-05-04")]

/-- A capture that starts online, whose POST fails without a response, and
that still reads `navigator.onLine` as true when it handles the failure. -/
def stillOnline : CaptureEnv :=
  { onLine := true, post := .networkError, saveAvail := true,
    now := "2024-05-04T08:00:00.000Z", onLineCatch := true, saveAvailCatch := true,
    nowCatch := "2024-05-04T08:00:01.000Z" }

/-- A capture that starts online, whose POST fails without a response, and
that reads `navigator.onLine` as false when it handles the failure. -/
def lostNetwork : CaptureEnv :=
  { stillOnline with onLineCatch := false }

/-- A drain in which every request succeeds. -/
def allSucceed : DrainEnv :=
  { snapOk := true, post := fun _ => .ack, delOk := fun _ => true, checkOk := true }

/-- A capture made while the browser is offline. -/
def offlineCapture : CaptureEnv :=
  { stillOnline with onLine := false, onLineCatch := false }

/-- A capture made offline, then the browser comes back online and the drain
it starts succeeds. -/
def captureThenDrain : List Operation :=
  [.capture offlineCapture samplePayload, .online allSucceed]

/-- A store with one pending record. -/
def backlog1 : ObjectStore :=
  { records := [sampleRecord 1 "2024-05-01"], keyGen := 2 }

/-- A manual sync is started; while its POST is in flight the browser goes
offline and online again, and the `online` event starts a second run. Both
runs then go through: snapshot, POST acknowledged, delete, final read. -/
def onlineDuringSync : List LoopEvent :=
  [.clickSync, .settle 0 true .ack, .offline, .online, .settle 1 true .ack,
   .settle 0 true .ack, .settle 1 true .ack, .settle 0 true .ack, .settle 1 true .ack,
   .settle 0 true .ack, .settle 1 true .ack]

/-- A payload that brings the `id` 1 of its own. -/
def earlyIdPayload : JsObj :=
  [("id", .num 1), ("report_date", .str "2024-05-05")]

/-- A report is saved under its own id 2, deleted, and saved again. -/
def saveDeleteSave : List StoreCall :=
  [.save true "2024-05-04T08:00:00.000Z" idPayload, .delete true (some (.num 2)),
   .save true "2024-05-04T09:00:00.000Z" idPayload]

/-- A report with its own id 2 is saved, then one with its own id 1. -/
def saveLaterIdFirst : List StoreCall :=
  [.save true "2024-05-04T08:00:00.000Z" idPayload,
   .save true "2024-05-05T08:00:00.000Z" earlyIdPayload]

/-- Two form payloads are saved, the first is deleted, a third is saved. -/
def saveSaveDeleteSave : List StoreCall :=
  [.save true "2024-05-04T08:00:00.000Z" samplePayload,
   .save true "2024-05-04T09:00:00.000Z" samplePayload,
   .delete true (some (.num 1)),
   .save true "2024-05-04T10:00:00.000Z" samplePayload]

/-- The form as it is first shown (lines 23-35), with seven fever cases. -/
def sampleForm : FormData :=
  { fever_cases := 7, diarrhea_cases := 0, vomiting_cases := 0, respiratory_cases := 0,
    hospital_admissions := 0, severe_dehydration_cases := 0, unexplained_deaths := 0,
    bed_occupancy_rate := 0, ors_stock_level := "Normal",
    antibiotics_stock_level := "Normal", notes := "" }

/-- A capture made online whose POST is acknowledged. -/
def onlineSuccess : CaptureEnv :=
  { stillOnline with post := .ack }

/-- A capture made offline while the store cannot be opened. -/
def offlineNoStore : CaptureEnv :=
  { offlineCapture with saveAvail := false, saveAvailCatch := false }

/-- A drain in which only the second submission fails, rejected by the
service as invalid (status 422). -/
def secondRejected : DrainEnv :=
  { secondFails with post := fun i => if i = 1 then .httpError 422 else .ack }

/-- A drain in which every submission is rejected by the service as invalid
(status 422). -/
def allRejected : DrainEnv :=
  { allSucceed with post := fun _ => .httpError 422 }

/-- A drain in which every POST is acknowledged but the store is not
available to the delete of the first record. -/
def firstDeleteFails : DrainEnv :=
  { allSucceed with delOk := fun i => decide (i ≠ 0) }

/-! ## Store lemmas -/

theorem unitsLt_irrefl : ∀ l : List Nat, unitsLt l l = false
  | [] => rfl
  | a :: as => by simp [unitsLt, unitsLt_irrefl as]

theorem unitsLt_trans : ∀ {a b c : List Nat}, unitsLt a b = true → unitsLt b c = true →
    unitsLt a c = true
  | _, [], _, hab, _ => by cases ‹List Nat› <;> simp [unitsLt] at hab
  | _, _ :: _, [], _, hbc => by simp [unitsLt] at hbc
  | [], _ :: _, _ :: _, _, _ => by simp [unitsLt]
  | x :: xs, y :: ys, z :: zs, hab, hbc => by
    simp only [unitsLt, Bool.or_eq_true, Bool.and_eq_true, decide_eq_true_eq] at hab hbc ⊢
    rcases hab with hab | ⟨hxy, hab⟩
    · rcases hbc with hbc | ⟨hyz, _⟩
      · exact Or.inl (by omega)
      · exact Or.inl (by omega)
    · rcases hbc with hbc | ⟨hyz, hbc⟩
      · exact Or.inl (by omega)
      · exact Or.inr ⟨by omega, unitsLt_trans hab hbc⟩

theorem unitsLt_of_not : ∀ {a b : List Nat}, unitsLt a b = false → a ≠ b →
    unitsLt b a = true
  | [], [], _, hne => absurd rfl hne
  | [], _ :: _, h, _ => by simp [unitsLt] at h
  | _ :: _, [], _, _ => by simp [unitsLt]
  | x :: xs, y :: ys, h, hne => by
    simp only [unitsLt, Bool.or_eq_false_iff, Bool.and_eq_false_imp, decide_eq_false_iff_not,
      decide_eq_true_eq, Bool.or_eq_true, Bool.and_eq_true] at h ⊢
    by_cases hxy : x = y
    · subst hxy
      exact Or.inr ⟨rfl, unitsLt_of_not (h.2 rfl) (fun e => hne (by rw [e]))⟩
    · exact Or.inl (by omega)

theorem charUnits_ne_nil (c : Char) : charUnits c ≠ [] := by
  unfold charUnits
  split <;> simp

theorem char_valid (c : Char) : c.toNat < 0xD800 ∨ (0xDFFF < c.toNat ∧ c.toNat < 0x110000) :=
  c.valid

theorem char_eq_of_toNat {c d : Char} (h : c.toNat = d.toNat) : c = d :=
  Char.ext (UInt32.eq_of_val_eq (Fin.ext h))

/-- Distinct strings have distinct code-unit sequences. -/
theorem utf16Units_injective : ∀ {a b : List Char}, utf16Units a = utf16Units b → a = b
  | [], [], _ => rfl
  | [], d :: ds, h => by
    have := charUnits_ne_nil d
    cases hd : charUnits d with
    | nil => exact absurd hd this
    | cons u us => simp [utf16Units, hd] at h
  | c :: cs, [], h => by
    have := charUnits_ne_nil c
    cases hc : charUnits c with
    | nil => exact absurd hc this
    | cons u us => simp [utf16Units, hc] at h
  | c :: cs, d :: ds, h => by
    have hc := char_valid c
    have hd := char_valid d
    simp only [utf16Units, charUnits] at h
    by_cases h1 : c.toNat < 0x10000 <;> by_cases h2 : d.toNat < 0x10000 <;>
      simp only [h1, h2, if_true, if_false, List.cons_append, List.nil_append,
        List.cons.injEq] at h
    · rw [char_eq_of_toNat h.1, utf16Units_injective h.2]
    · omega
    · omega
    · obtain ⟨ha, hb, ht⟩ := h
      have hcd : c.toNat = d.toNat := by omega
      rw [char_eq_of_toNat hcd, utf16Units_injective ht]

/-- The key order at work: a supplementary-plane character (U+1F600, stored as
the surrogate pair D83D DE00) sorts before U+FF5E, a proper prefix sorts
first, and every number sorts before every string. -/
theorem keyLt_surrogate_pair_first :
    keyLt (.str (String.mk [Char.ofNat 0x1F600])) (.str (String.mk [Char.ofNat 0xFF5E])) = true ∧
      keyLt (.str (String.mk [Char.ofNat 0xFF5E])) (.str (String.mk [Char.ofNat 0x1F600])) =
        false ∧
      keyLt (.str "ab") (.str "abc") = true ∧ keyLt (.num 10) (.str "1") = true := by
  decide

theorem keyLt_irrefl (k : IDBKey) : keyLt k k = false := by
  cases k <;> simp [keyLt, unitsLt_irrefl]

theorem recLt_ne {a b : JsObj} (h : recLt a b = true) : recKey a ≠ recKey b := by
  unfold recLt at h
  intro hab
  cases ha : recKey a with
  | none => simp [ha] at h
  | some ka =>
    rw [ha] at hab
    rw [ha, ← hab] at h
    simp [keyLt_irrefl] at h

theorem belowGen_isSome {gen : Nat} {r : JsObj} (h : belowGen gen r = true) :
    ∃ k, recKey r = some k := by
  unfold belowGen at h
  cases hk : recKey r with
  | none => simp [hk] at h
  | some k => exact ⟨k, rfl⟩

/-- Deleting the key of one record of a store in key order removes that record
and nothing else. -/
theorem filter_key_of_pairwise (kept rest : List JsObj) (r : JsObj) (k : IDBKey)
    (hk : recKey r = some k)
    (hp : (kept ++ r :: rest).Pairwise (fun a b => recLt a b = true)) :
    (kept ++ r :: rest).filter (fun x => recKey x != some k) = kept ++ rest := by
  rw [List.pairwise_append] at hp
  obtain ⟨_, hr, hkr⟩ := hp
  rw [List.pairwise_cons] at hr
  have h1 : kept.filter (fun x => recKey x != some k) = kept := by
    rw [List.filter_eq_self]
    intro x hx
    have := recLt_ne (hkr x hx r (List.mem_cons_self _ _))
    rw [hk] at this
    simpa using this
  have h2 : rest.filter (fun x => recKey x != some k) = rest := by
    rw [List.filter_eq_self]
    intro x hx
    have := recLt_ne (hr.1 x hx)
    rw [hk] at this
    simpa using fun h => this h.symm
  rw [List.filter_append, List.filter_cons, h1, h2]
  simp [hk]

/-! ## The drain loop and the store -/

theorem deleteReport_of_key (s : ObjectStore) (r : JsObj) (k : IDBKey) (hk : recKey r = some k) :
    (deleteReport true s (objGet r "id")).2 =
      { s with records := s.records.filter (fun x => recKey x != some k) } := by
  unfold recKey at hk
  simp [deleteReport, ObjectStore.delete, hk]

theorem syncLoop_records (env : DrainEnv) (hdel : ∀ i, env.delOk i = true) :
    ∀ (rest : List JsObj) (i : Nat) (st : AppState) (kept : List JsObj),
      st.store.records = kept ++ rest →
      (kept ++ rest).Pairwise (fun a b => recLt a b = true) →
      (∀ r ∈ rest, ∃ k, recKey r = some k) →
      (syncLoop env i rest st).store.records =
        kept ++ ((rest.enumFrom i).filter (fun ir => !(env.post ir.1).isAck)).map Prod.snd := by
  intro rest
  induction rest with
  | nil => intro i st kept h _ _; simpa [syncLoop] using h
  | cons r rest ih =>
    intro i st kept h hp hkey
    obtain ⟨k, hk⟩ := hkey r (List.mem_cons_self _ _)
    have hkey' : ∀ x ∈ rest, ∃ k, recKey x = some k :=
      fun x hx => hkey x (List.mem_cons_of_mem _ hx)
    unfold syncLoop
    cases hack : (env.post i).isAck with
    | true =>
      have hp' : (kept ++ rest).Pairwise (fun a b => recLt a b = true) :=
        hp.sublist (List.Sublist.append_left (List.sublist_cons_self r rest) kept)
      simp only [if_true, hdel]
      rw [ih (i + 1) _ kept _ hp' hkey']
      · simp [List.enumFrom_cons, hack]
      · simp only [deleteReport_of_key _ r k hk, h]
        exact filter_key_of_pairwise kept rest r k hk hp
    | false =>
      simp only [Bool.false_eq_true, if_false]
      have hp' : ((kept ++ [r]) ++ rest).Pairwise (fun a b => recLt a b = true) := by
        simpa using hp
      rw [ih (i + 1) _ (kept ++ [r]) _ hp' hkey']
      · simp [List.enumFrom_cons, hack]
      · simpa using h

theorem pairwise_recLt_unique {l : List JsObj} (hp : l.Pairwise (fun a b => recLt a b = true))
    {i j : Nat} {r : JsObj} (hi : l[i]? = some r) (hj : l[j]? = some r) : i = j := by
  rw [List.pairwise_iff_getElem] at hp
  obtain ⟨hi', hir⟩ := List.getElem?_eq_some.mp hi
  obtain ⟨hj', hjr⟩ := List.getElem?_eq_some.mp hj
  rcases Nat.lt_trichotomy i j with h | h | h
  · have := hp i j hi' hj' h
    rw [hir, hjr] at this
    exact absurd rfl (recLt_ne this)
  · exact h
  · have := hp j i hj' hi' h
    rw [hir, hjr] at this
    exact absurd rfl (recLt_ne this)

/-- C1 (partial failure isolation). After one uninterrupted run of
`syncReports` over a backlog, with the store reads and deletes succeeding,
the store holds exactly the snapshot records whose submission was not
acknowledged, in their original order, and none of the acknowledged ones. -/
theorem syncReports_partial_failure (env : DrainEnv) (st : AppState)
    (hwf : st.store.WF) (hsnap : env.snapOk = true) (hdel : ∀ i, env.delOk i = true) :
    (syncReports env st).store.records =
        (st.store.records.enum.filter (fun ir => !(env.post ir.1).isAck)).map Prod.snd ∧
      ∀ i r, st.store.records[i]? = some r → (env.post i).isAck = true →
        r ∉ (syncReports env st).store.records := by
  have hrec : (syncReports env st).store.records =
      (st.store.records.enum.filter (fun ir => !(env.post ir.1).isAck)).map Prod.snd := by
    unfold syncReports
    simp only [getPendingReports, hsnap, if_true, ObjectStore.getAll]
    by_cases hlen : st.store.records.length = 0
    · have : st.store.records = [] := List.length_eq_zero.mp hlen
      simp [this]
    · have hloop := syncLoop_records env hdel st.store.records 0
        { st with trace := st.trace ++ [.listed true], syncing := true } [] rfl
        (by simpa using hwf.1) (fun r hr => belowGen_isSome (hwf.2.1 r hr))
      simp only [List.nil_append] at hloop
      simp only [hlen, if_false]
      cases hc : env.checkOk <;>
        simp [checkPending, getPendingReports, hc, hloop, List.enum]
  refine ⟨hrec, ?_⟩
  intro i r hi hack hmem
  rw [hrec] at hmem
  simp only [List.mem_map, List.mem_filter] at hmem
  obtain ⟨⟨j, r'⟩, ⟨hjr, hnack⟩, rfl⟩ := hmem
  have hj := List.mk_mem_enum_iff_getElem?.mp hjr
  have := pairwise_recLt_unique hwf.1 hi hj
  subst this
  simp [hack] at hnack

/-! ## The requests of a drain -/

theorem deleteReport_isOk (avail : Bool) (s : ObjectStore) (id : Option JsVal) :
    (deleteReport avail s id).1.isOk = (avail && (id.bind toKey).isSome) := by
  unfold deleteReport ObjectStore.delete
  cases avail <;> cases h : id.bind toKey <;> simp [Except.isOk, Except.toBool]

theorem syncLoop_trace (env : DrainEnv) :
    ∀ (rest : List JsObj) (i : Nat) (st : AppState),
      (syncLoop env i rest st).trace = st.trace ++ loopEffects env i rest := by
  intro rest
  induction rest with
  | nil => intro i st; simp [syncLoop, loopEffects]
  | cons r rest ih =>
    intro i st
    unfold syncLoop
    cases hack : (env.post i).isAck <;>
      simp [ih, loopEffects, recordEffects, hack, deleteReport_isOk]

theorem postedBodies_append (a b : List Effect) :
    postedBodies (a ++ b) = postedBodies a ++ postedBodies b := by
  induction a with
  | nil => rfl
  | cons e a ih => cases e <;> simp [postedBodies, ih]

theorem postedBodies_loopEffects (env : DrainEnv) :
    ∀ (rest : List JsObj) (i : Nat),
      postedBodies (loopEffects env i rest) = rest.map (objOmit queueFields) := by
  intro rest
  induction rest with
  | nil => intro i; rfl
  | cons r rest ih =>
    intro i
    cases hack : (env.post i).isAck <;>
      simp [loopEffects, recordEffects, hack, postedBodies_append, postedBodies, ih]

/-- The trace of a run whose snapshot read resolved: the read, then the loop
over the snapshot, then the read of `checkPending`. -/
theorem syncReports_trace (env : DrainEnv) (st : AppState) (hsnap : env.snapOk = true) :
    (syncReports env st).trace =
      st.trace ++ [Effect.listed true] ++ loopEffects env 0 st.store.records ++
        (if st.store.records.length = 0 then [] else [Effect.listed env.checkOk]) := by
  unfold syncReports
  simp only [getPendingReports, hsnap, if_true, ObjectStore.getAll]
  by_cases hlen : st.store.records.length = 0
  · have : st.store.records = [] := List.length_eq_zero.mp hlen
    simp [this, loopEffects]
  · simp only [hlen, if_false]
    cases hc : env.checkOk <;>
      simp [checkPending, getPendingReports, hc, syncLoop_trace]

theorem syncReports_postedBodies (env : DrainEnv) (st : AppState) (hsnap : env.snapOk = true) :
    postedBodies (syncReports env st).trace =
      postedBodies st.trace ++ st.store.records.map (objOmit queueFields) := by
  rw [syncReports_trace env st hsnap]
  by_cases hlen : st.store.records.length = 0 <;>
    simp [postedBodies_append, postedBodies_loopEffects, postedBodies, hlen]

/-- C8 (one failure never aborts the drain). Whatever the outcomes of the
submissions and of the deletes, one run of `syncReports` over a snapshot of
n records issues exactly n POSTs, the i-th one carrying the i-th snapshot
record stripped of its queue fields. -/
theorem syncReports_submits_each_once (env : DrainEnv) (st : AppState)
    (hsnap : env.snapOk = true) :
    postedBodies (syncReports env st).trace =
        postedBodies st.trace ++ st.store.records.map (objOmit queueFields) ∧
      (postedBodies (syncReports env st).trace).length =
        (postedBodies st.trace).length + st.store.records.length := by
  have h := syncReports_postedBodies env st hsnap
  exact ⟨h, by rw [h]; simp⟩

theorem objGet_eq_none_iff (o : JsObj) (k : String) :
    objGet o k = none ↔ ∀ kv ∈ o, kv.1 ≠ k := by
  induction o with
  | nil => simp [objGet]
  | cons kv o ih =>
    obtain ⟨k', v⟩ := kv
    by_cases h : k' = k
    · simp [objGet, h]
    · simp [objGet, h, ih]

theorem mem_objOmit {ks : List String} {o : JsObj} {kv : String × JsVal} :
    kv ∈ objOmit ks o ↔ kv ∈ o ∧ kv.1 ∉ ks := by
  unfold objOmit
  rw [List.mem_filter]
  simp

theorem objGet_objOmit (ks : List String) (k : String) (hk : k ∈ ks) (o : JsObj) :
    objGet (objOmit ks o) k = none := by
  rw [objGet_eq_none_iff]
  intro kv hkv heq
  exact (mem_objOmit.mp hkv).2 (heq ▸ hk)

/-- C4 (field stripping). Every request body that a run of `syncReports`
hands to `axios.post` has no property named `id`, `createdAt` or `status`. -/
theorem syncReports_strips_queue_fields (env : DrainEnv) (st : AppState) :
    ∀ body ∈ (postedBodies (syncReports env st).trace).drop (postedBodies st.trace).length,
      objGet body "id" = none ∧ objGet body "createdAt" = none ∧
        objGet body "status" = none := by
  intro body hbody
  cases hsnap : env.snapOk with
  | false =>
    have : (syncReports env st).trace = st.trace ++ [Effect.listed false] := by
      simp [syncReports, getPendingReports, hsnap]
    simp [this, postedBodies_append, postedBodies] at hbody
  | true =>
    rw [syncReports_postedBodies env st hsnap, List.drop_left] at hbody
    obtain ⟨r, _, rfl⟩ := List.mem_map.mp hbody
    exact ⟨objGet_objOmit _ _ (by simp [queueFields]) r,
      objGet_objOmit _ _ (by simp [queueFields]) r,
      objGet_objOmit _ _ (by simp [queueFields]) r⟩

theorem loopEffects_posted_at (env : DrainEnv) :
    ∀ (l : List JsObj) (n i : Nat) (A : JsObj), l[i]? = some A →
      ∃ pre post, loopEffects env n l =
        pre ++ [Effect.posted (objOmit queueFields A) (env.post (n + i))] ++ post := by
  intro l
  induction l with
  | nil => intro n i A h; simp at h
  | cons x xs ih =>
    intro n i A h
    cases i with
    | zero =>
      simp only [List.getElem?_cons_zero, Option.some.injEq] at h
      subst h
      exact ⟨[], (recordEffects env n x).tail ++ loopEffects env (n + 1) xs,
        by simp [loopEffects, recordEffects]⟩
    | succ i =>
      simp only [List.getElem?_cons_succ] at h
      obtain ⟨pre, post, hxs⟩ := ih (n + 1) i A h
      refine ⟨recordEffects env n x ++ pre, post, ?_⟩
      simp [loopEffects, hxs, Nat.add_assoc, Nat.add_comm 1 i]

theorem loopEffects_posted_before (env : DrainEnv) :
    ∀ (l : List JsObj) (n i j : Nat) (A B : JsObj), i < j →
      l[i]? = some A → l[j]? = some B →
      ∃ pre mid post, loopEffects env n l =
        pre ++ [Effect.posted (objOmit queueFields A) (env.post (n + i))] ++ mid ++
          [Effect.posted (objOmit queueFields B) (env.post (n + j))] ++ post := by
  intro l
  induction l with
  | nil => intro n i j A B _ h; simp at h
  | cons x xs ih =>
    intro n i j A B hij hA hB
    cases j with
    | zero => omega
    | succ j =>
      simp only [List.getElem?_cons_succ] at hB
      cases i with
      | zero =>
        simp only [List.getElem?_cons_zero, Option.some.injEq] at hA
        subst hA
        obtain ⟨pre, post, hxs⟩ := loopEffects_posted_at env xs (n + 1) j B hB
        refine ⟨[], (if (env.post n).isAck then
            [Effect.deleted (objGet x "id")
              (env.delOk n && ((objGet x "id").bind toKey).isSome)]
          else []) ++ pre, post, ?_⟩
        simp [loopEffects, recordEffects, hxs, Nat.add_assoc, Nat.add_comm 1 j]
      | succ i =>
        simp only [List.getElem?_cons_succ] at hA
        obtain ⟨pre, mid, post, hxs⟩ := ih (n + 1) i j A B (by omega) hA hB
        refine ⟨recordEffects env n x ++ pre, mid, post, ?_⟩
        simp [loopEffects, hxs, Nat.add_assoc, Nat.add_comm 1 i, Nat.add_comm 1 j]

/-- Submission follows the key order of the store: for a store in key order,
`getPendingReports` returns the records by ascending id, and one run of
`syncReports` settles the POST of an earlier snapshot record before it issues
the POST of a later one. Whether this is the order in which the records were
saved depends on where their ids come from. -/
theorem syncReports_key_order (env : DrainEnv) (st : AppState) (hwf : st.store.WF)
    (hsnap : env.snapOk = true) (i j : Nat) (A B : JsObj) (hij : i < j)
    (hA : st.store.records[i]? = some A) (hB : st.store.records[j]? = some B) :
    getPendingReports true st.store = .ok st.store.records ∧
      recLt A B = true ∧
      ∃ pre mid post, (syncReports env st).trace =
        st.trace ++ pre ++ [Effect.posted (objOmit queueFields A) (env.post i)] ++ mid ++
          [Effect.posted (objOmit queueFields B) (env.post j)] ++ post := by
  refine ⟨rfl, ?_, ?_⟩
  · have hp := List.pairwise_iff_getElem.mp hwf.1
    obtain ⟨hi', hir⟩ := List.getElem?_eq_some.mp hA
    obtain ⟨hj', hjr⟩ := List.getElem?_eq_some.mp hB
    have := hp i j hi' hj' hij
    rwa [hir, hjr] at this
  · obtain ⟨pre, mid, post, h⟩ :=
      loopEffects_posted_before env st.store.records 0 i j A B hij hA hB
    rw [syncReports_trace env st hsnap, h]
    refine ⟨[Effect.listed true] ++ pre, mid,
      post ++ (if st.store.records.length = 0 then [] else [Effect.listed env.checkOk]), ?_⟩
    simp

theorem toKey_toVal (k : IDBKey) : toKey k.toVal = some k := by
  cases k <;> rfl

/-- C9 (idempotent removal). For every store state and every key,
`deleteReport` resolves, a second `deleteReport` of the same id resolves and
leaves the store as the first left it, and deleting an id that is not in the
store leaves the store unchanged. -/
theorem deleteReport_idempotent (s : ObjectStore) (k : IDBKey) :
    (deleteReport true s (some k.toVal)).1 = .ok () ∧
      deleteReport true (deleteReport true s (some k.toVal)).2 (some k.toVal) =
        (.ok (), (deleteReport true s (some k.toVal)).2) ∧
      (s.hasKey k = false → (deleteReport true s (some k.toVal)).2 = s) := by
  have h1 : deleteReport true s (some k.toVal) =
      (.ok (), { s with records := s.records.filter (fun r => recKey r != some k) }) := by
    simp [deleteReport, ObjectStore.delete, toKey_toVal]
  refine ⟨by rw [h1], ?_, ?_⟩
  · rw [h1]
    simp [deleteReport, ObjectStore.delete, toKey_toVal, List.filter_filter]
  · intro habs
    rw [h1]
    have : s.records.filter (fun r => recKey r != some k) = s.records := by
      rw [List.filter_eq_self]
      intro r hr
      unfold ObjectStore.hasKey at habs
      rw [List.any_eq_false] at habs
      simpa using habs r hr
    simp [this]

theorem objSet_of_none (o : JsObj) (k : String) (v : JsVal) (h : objGet o k = none) :
    objSet o k v = o ++ [(k, v)] := by
  induction o with
  | nil => rfl
  | cons kv o ih =>
    obtain ⟨k', v'⟩ := kv
    by_cases hk : k' = k
    · simp [objGet, hk] at h
    · simp only [objGet, hk, if_false] at h
      simp [objSet, hk, ih h]

theorem objGet_objSet_same (o : JsObj) (k : String) (v : JsVal) :
    objGet (objSet o k v) k = some v := by
  induction o with
  | nil => simp [objSet, objGet]
  | cons kv o ih =>
    obtain ⟨k', v'⟩ := kv
    by_cases hk : k' = k
    · simp [objSet, objGet, hk]
    · simp [objSet, objGet, hk, ih]

theorem objGet_objSet_ne (o : JsObj) (k k' : String) (v : JsVal) (hne : k' ≠ k) :
    objGet (objSet o k v) k' = objGet o k' := by
  induction o with
  | nil => simp [objSet, objGet, Ne.symm hne]
  | cons kv o ih =>
    obtain ⟨k₀, v₀⟩ := kv
    by_cases hk : k₀ = k
    · subst hk
      simp [objSet, objGet, Ne.symm hne]
    · by_cases hk' : k₀ = k'
      · subst hk'
        simp [objSet, objGet, hk]
      · simp [objSet, objGet, hk, hk', ih]

theorem objOmit_objSet (ks : List String) (o : JsObj) (k : String) (v : JsVal) (hk : k ∈ ks) :
    objOmit ks (objSet o k v) = objOmit ks o := by
  induction o with
  | nil => simp [objSet, objOmit, hk]
  | cons kv o ih =>
    obtain ⟨k', v'⟩ := kv
    by_cases h : k' = k
    · subst h
      simp [objSet, objOmit, hk]
    · unfold objOmit at ih
      have ih' : List.filter (fun kv => !decide (kv.1 ∈ ks)) (objSet o k v) =
          List.filter (fun kv => !decide (kv.1 ∈ ks)) o := by simpa using ih
      simp [objSet, objOmit, h, List.filter_cons, ih']

theorem objOmit_eq_self (ks : List String) (o : JsObj) (h : ∀ k ∈ ks, objGet o k = none) :
    objOmit ks o = o := by
  unfold objOmit
  rw [List.filter_eq_self]
  intro kv hkv
  have : kv.1 ∉ ks := fun hmem =>
    (objGet_eq_none_iff o kv.1).mp (h kv.1 hmem) kv hkv rfl
  simpa using this

theorem insertRecord_perm (k : IDBKey) (r : JsObj) (l : List JsObj) :
    (insertRecord k r l).Perm (r :: l) := by
  induction l with
  | nil => simp [insertRecord]
  | cons x xs ih =>
    unfold insertRecord
    cases hx : recKey x with
    | none => exact (List.Perm.cons x ih).trans (List.Perm.swap r x xs)
    | some kx =>
      by_cases hlt : keyLt k kx = true
      · simp [hlt]
      · simp only [hlt, if_false]
        exact (List.Perm.cons x ih).trans (List.Perm.swap r x xs)

theorem add_ok_spec (s s' : ObjectStore) (value : JsObj) (k : IDBKey)
    (h : s.add value = .ok (k, s')) :
    s.hasKey k = false ∧ ∃ r, recKey r = some k ∧
      s'.records = insertRecord k r s.records ∧
      objOmit queueFields r = objOmit queueFields value ∧
      ∀ f, f ≠ "id" → objGet r f = objGet value f := by
  unfold ObjectStore.add at h
  cases hid : objGet value "id" with
  | none =>
    simp only [hid] at h
    split at h
    · cases h
    · split at h
      · cases h
      · rename_i hk
        simp only [Except.ok.injEq, Prod.mk.injEq] at h
        obtain ⟨rfl, rfl⟩ := h
        refine ⟨by simpa using hk, objSet value "id" (.num s.keyGen), ?_, rfl, ?_, ?_⟩
        · simp [recKey, objGet_objSet_same, toKey]
        · exact objOmit_objSet _ _ _ _ (by simp [queueFields])
        · intro f hf
          exact objGet_objSet_ne _ _ _ _ hf
  | some v =>
    simp only [hid] at h
    cases hv : toKey v with
    | none => simp [hv] at h
    | some k' =>
      simp only [hv] at h
      split at h
      · cases h
      · rename_i hk
        simp only [Except.ok.injEq, Prod.mk.injEq] at h
        obtain ⟨rfl, rfl⟩ := h
        exact ⟨by simpa using hk, value, by simp [recKey, hid, hv], rfl, rfl, fun _ _ => rfl⟩

/-- What a resolved `saveReport` did: the returned key was free, and the store
gained one record under that key, stamped and marked pending, with the
payload's other properties. -/
theorem saveReport_ok_spec (avail : Bool) (now : String) (s s' : ObjectStore) (p : JsObj)
    (k : IDBKey) (h : saveReport avail now s p = (.ok k, s')) :
    s.hasKey k = false ∧ ∃ r, recKey r = some k ∧
      s'.records = insertRecord k r s.records ∧
      objGet r "createdAt" = some (.str now) ∧
      objGet r "status" = some (.str "pending") ∧
      objOmit queueFields r = objOmit queueFields p ∧
      ∀ f, f ∉ queueFields → objGet r f = objGet p f := by
  unfold saveReport at h
  cases avail with
  | false => simp at h
  | true =>
    simp only [if_true] at h
    cases hadd : s.add (objSet (objSet p "createdAt" (.str now)) "status" (.str "pending")) with
    | error e => simp [hadd] at h
    | ok ks =>
      obtain ⟨k₀, s₀⟩ := ks
      simp only [hadd, Prod.mk.injEq, Except.ok.injEq] at h
      obtain ⟨rfl, rfl⟩ := h
      obtain ⟨hfree, r, hkey, hrec, homit, hget⟩ := add_ok_spec _ _ _ _ hadd
      refine ⟨hfree, r, hkey, hrec, ?_, ?_, ?_, ?_⟩
      · rw [hget _ (by decide), objGet_objSet_ne _ _ _ _ (by decide), objGet_objSet_same]
      · rw [hget _ (by decide), objGet_objSet_same]
      · rw [homit, objOmit_objSet _ _ _ _ (by simp [queueFields]),
          objOmit_objSet _ _ _ _ (by simp [queueFields])]
      · intro f hf
        have h1 : f ≠ "id" := fun e => hf (by simp [e, queueFields])
        have h2 : f ≠ "createdAt" := fun e => hf (by simp [e, queueFields])
        have h3 : f ≠ "status" := fun e => hf (by simp [e, queueFields])
        rw [hget f h1, objGet_objSet_ne _ _ _ _ h3, objGet_objSet_ne _ _ _ _ h2]

theorem saveReport_error_store (avail : Bool) (now : String) (s : ObjectStore) (p : JsObj)
    (e : IDBError) (h : (saveReport avail now s p).1 = .error e) :
    (saveReport avail now s p).2 = s := by
  unfold saveReport at h ⊢
  cases avail with
  | false => rfl
  | true =>
    simp only [if_true] at h ⊢
    cases hadd : s.add (objSet (objSet p "createdAt" (.str now)) "status" (.str "pending")) with
    | error e => rfl
    | ok ks => simp [hadd] at h

theorem hasKey_keyGen_of_WF (s : ObjectStore) (hwf : s.WF)
    (hgen : s.keyGen ≤ maxGeneratedKey) : s.hasKey (.num s.keyGen) = false := by
  unfold ObjectStore.hasKey
  rw [List.any_eq_false]
  intro r hr
  have hb := hwf.2.1 r hr
  unfold belowGen at hb
  cases hk : recKey r with
  | none => simp
  | some k =>
    cases k with
    | str _ => simp
    | num n =>
      simp only [hk, Bool.or_eq_true, decide_eq_true_eq] at hb
      simp only [beq_iff_eq, Option.some.injEq, IDBKey.num.injEq]
      omega

/-- On a store whose key generator is not exhausted, available, a payload
without `id` is stored under the generator's number. -/
theorem saveReport_generates (now : String) (s : ObjectStore) (p : JsObj) (hwf : s.WF)
    (hgen : s.keyGen ≤ maxGeneratedKey) (hid : objGet p "id" = none) :
    ∃ s', saveReport true now s p = (.ok (.num s.keyGen), s') ∧ s'.keyGen = s.keyGen + 1 := by
  have hid' : objGet (objSet (objSet p "createdAt" (.str now)) "status" (.str "pending")) "id"
      = none := by
    rw [objGet_objSet_ne _ _ _ _ (by decide), objGet_objSet_ne _ _ _ _ (by decide), hid]
  simp [saveReport, ObjectStore.add, hid', Nat.not_lt.mpr hgen, hasKey_keyGen_of_WF s hwf hgen]

/-! ## Key order and well-formed stores -/

theorem keyLt_trans {a b c : IDBKey} (hab : keyLt a b = true) (hbc : keyLt b c = true) :
    keyLt a c = true := by
  cases a <;> cases b <;> cases c <;> simp_all [keyLt]
  · exact lt_trans hab hbc
  · exact unitsLt_trans hab hbc

theorem keyLt_of_not {a b : IDBKey} (h : keyLt a b = false) (hne : a ≠ b) :
    keyLt b a = true := by
  cases a with
  | num x =>
    cases b with
    | num y =>
      simp only [keyLt, decide_eq_false_iff_not, not_lt, decide_eq_true_eq] at h ⊢
      exact lt_of_le_of_ne h (fun e => hne (by rw [e]))
    | str y => simp [keyLt] at h
  | str x =>
    cases b with
    | num y => rfl
    | str y =>
      simp only [keyLt] at h ⊢
      exact unitsLt_of_not h (fun e => hne (by rw [String.ext (utf16Units_injective e)]))

theorem recLt_of_keys {a b : JsObj} {ka kb : IDBKey} (ha : recKey a = some ka)
    (hb : recKey b = some kb) : recLt a b = keyLt ka kb := by
  simp [recLt, ha, hb]

/-- Inserting a record under a free key keeps the records in key order. -/
theorem insertRecord_pairwise (k : IDBKey) (r : JsObj) (hr : recKey r = some k) :
    ∀ l : List JsObj, l.Pairwise (fun a b => recLt a b = true) →
      (∀ x ∈ l, ∃ kx, recKey x = some kx ∧ kx ≠ k) →
      (insertRecord k r l).Pairwise (fun a b => recLt a b = true) := by
  intro l
  induction l with
  | nil => intro _ _; simp [insertRecord]
  | cons x xs ih =>
    intro hp hkeys
    obtain ⟨kx, hkx, hne⟩ := hkeys x (List.mem_cons_self _ _)
    have hp' := List.pairwise_cons.mp hp
    unfold insertRecord
    simp only [hkx]
    cases hlt : keyLt k kx with
    | true =>
      simp only [if_true]
      refine List.pairwise_cons.mpr ⟨?_, hp⟩
      intro y hy
      rcases List.mem_cons.mp hy with rfl | hy
      · rw [recLt_of_keys hr hkx]; exact hlt
      · obtain ⟨ky, hky, _⟩ := hkeys y (List.mem_cons_of_mem _ hy)
        have hxy := hp'.1 y hy
        rw [recLt_of_keys hkx hky] at hxy
        rw [recLt_of_keys hr hky]
        exact keyLt_trans hlt hxy
    | false =>
      simp only [Bool.false_eq_true, if_false]
      refine List.pairwise_cons.mpr ⟨?_, ih hp'.2 (fun y hy => hkeys y (List.mem_cons_of_mem _ hy))⟩
      intro y hy
      rcases List.mem_cons.mp ((insertRecord_perm k r xs).subset hy) with rfl | hy
      · rw [recLt_of_keys hkx hr]
        exact keyLt_of_not hlt (Ne.symm hne)
      · exact hp'.1 y hy
theorem belowGen_mono {gen gen' : Nat} {x : JsObj} (hle : gen ≤ gen')
    (h : belowGen gen x = true) : belowGen gen' x = true := by
  unfold belowGen at h ⊢
  cases hk : recKey x with
  | none => simp [hk] at h
  | some k =>
    cases k with
    | str _ => rfl
    | num n =>
      simp only [hk, Bool.or_eq_true, decide_eq_true_eq] at h ⊢
      omega

theorem le_bumpKeyGen (gen : Nat) (k : IDBKey) : gen ≤ bumpKeyGen gen k := by
  cases k with
  | str _ => exact Nat.le_refl _
  | num n =>
    simp only [bumpKeyGen]
    split
    · omega
    · exact Nat.le_refl _

theorem belowGen_bumpKeyGen (gen : Nat) (k : IDBKey) (r : JsObj) (hr : recKey r = some k) :
    belowGen (bumpKeyGen gen k) r = true := by
  unfold belowGen
  cases k with
  | str _ => simp [hr]
  | num n =>
    simp only [hr, bumpKeyGen, Bool.or_eq_true, decide_eq_true_eq]
    have h53 : (maxGeneratedKey : Int) = 9007199254740992 := by norm_num [maxGeneratedKey]
    have h53' : maxGeneratedKey = 9007199254740992 := by norm_num [maxGeneratedKey]
    split <;> omega

theorem add_ok_keyGen (s s' : ObjectStore) (value : JsObj) (k : IDBKey)
    (h : s.add value = .ok (k, s')) :
    (k = .num s.keyGen ∧ s'.keyGen = s.keyGen + 1) ∨ s'.keyGen = bumpKeyGen s.keyGen k := by
  unfold ObjectStore.add at h
  cases hid : objGet value "id" with
  | none =>
    simp only [hid] at h
    split at h
    · cases h
    · split at h
      · cases h
      · simp only [Except.ok.injEq, Prod.mk.injEq] at h
        obtain ⟨rfl, rfl⟩ := h
        exact Or.inl ⟨rfl, rfl⟩
  | some v =>
    simp only [hid] at h
    cases hv : toKey v with
    | none => simp [hv] at h
    | some k' =>
      simp only [hv] at h
      split at h
      · cases h
      · simp only [Except.ok.injEq, Prod.mk.injEq] at h
        obtain ⟨rfl, rfl⟩ := h
        exact Or.inr rfl

theorem hasKey_eq_false_iff (s : ObjectStore) (k : IDBKey) :
    s.hasKey k = false ↔ ∀ x ∈ s.records, recKey x ≠ some k := by
  unfold ObjectStore.hasKey
  rw [List.any_eq_false]
  simp

/-- The request `add` keeps the store well formed. -/
theorem add_WF (s s' : ObjectStore) (value : JsObj) (k : IDBKey) (hwf : s.WF)
    (h : s.add value = .ok (k, s')) : s'.WF := by
  obtain ⟨hfree, r, hkey, hrec, _, _⟩ := add_ok_spec s s' value k h
  have hfree' := (hasKey_eq_false_iff s k).mp hfree
  have hgen : s.keyGen ≤ s'.keyGen ∧ belowGen s'.keyGen r = true := by
    rcases add_ok_keyGen s s' value k h with ⟨hk, hg⟩ | hg
    · refine ⟨by omega, ?_⟩
      subst hk
      simp only [belowGen, hkey, hg, Bool.or_eq_true, decide_eq_true_eq]
      left; omega
    · rw [hg]
      exact ⟨le_bumpKeyGen _ _, belowGen_bumpKeyGen _ _ _ hkey⟩
  refine ⟨?_, ?_, ?_⟩
  · rw [hrec]
    apply insertRecord_pairwise k r hkey _ hwf.1
    intro x hx
    obtain ⟨kx, hkx⟩ := belowGen_isSome (hwf.2.1 x hx)
    exact ⟨kx, hkx, fun e => hfree' x hx (e ▸ hkx)⟩
  · intro x hx
    rw [hrec] at hx
    rcases List.mem_cons.mp ((insertRecord_perm k r s.records).subset hx) with rfl | hx
    · exact hgen.2
    · exact belowGen_mono hgen.1 (hwf.2.1 x hx)
  · exact Nat.le_trans hwf.2.2 hgen.1

theorem saveReport_WF (avail : Bool) (now : String) (s : ObjectStore) (p : JsObj)
    (hwf : s.WF) : (saveReport avail now s p).2.WF := by
  unfold saveReport
  cases avail with
  | false => exact hwf
  | true =>
    simp only [if_true]
    cases hadd : s.add (objSet (objSet p "createdAt" (.str now)) "status" (.str "pending")) with
    | error e => exact hwf
    | ok ks => exact add_WF _ _ _ _ hwf hadd

theorem deleteReport_WF (avail : Bool) (s : ObjectStore) (id : Option JsVal) (hwf : s.WF) :
    (deleteReport avail s id).2.WF := by
  unfold deleteReport ObjectStore.delete
  cases avail with
  | false => exact hwf
  | true =>
    cases hk : id.bind toKey with
    | none => simpa [hk] using hwf
    | some k =>
      simp only [if_true, hk]
      exact ⟨hwf.1.sublist (List.filter_sublist _),
        fun x hx => hwf.2.1 x (List.mem_of_mem_filter hx), hwf.2.2⟩

theorem syncLoop_WF (env : DrainEnv) :
    ∀ (rest : List JsObj) (i : Nat) (st : AppState), st.store.WF →
      (syncLoop env i rest st).store.WF := by
  intro rest
  induction rest with
  | nil => intro i st h; exact h
  | cons r rest ih =>
    intro i st h
    unfold syncLoop
    cases hack : (env.post i).isAck
    · simp only [Bool.false_eq_true, if_false]
      exact ih (i + 1) _ h
    · simp only [if_true]
      exact ih (i + 1) _ (deleteReport_WF _ _ _ h)

theorem syncReports_WF (env : DrainEnv) (st : AppState) (hwf : st.store.WF) :
    (syncReports env st).store.WF := by
  unfold syncReports
  cases hs : getPendingReports env.snapOk st.store with
  | error e => exact hwf
  | ok reports =>
    simp only
    split
    · exact hwf
    · have := syncLoop_WF env reports 0
        { st with trace := st.trace ++ [.listed true], syncing := true } hwf
      unfold checkPending getPendingReports
      cases env.checkOk <;> simpa using this

theorem handleSubmitCatch_WF (env : CaptureEnv) (p : JsObj) (st : AppState)
    (hwf : st.store.WF) : (handleSubmitCatch env p st).store.WF := by
  unfold handleSubmitCatch
  cases env.onLineCatch with
  | true => exact hwf
  | false =>
    have := saveReport_WF env.saveAvailCatch env.nowCatch st.store p hwf
    cases hres : saveReport env.saveAvailCatch env.nowCatch st.store p with
    | mk res store' =>
      rw [hres] at this
      cases res <;> simpa using this

theorem handleSubmit_WF (env : CaptureEnv) (p : JsObj) (st : AppState) (hwf : st.store.WF) :
    (handleSubmit env p st).store.WF := by
  unfold handleSubmit
  cases env.onLine with
  | true =>
    cases env.post.isAck with
    | true => exact hwf
    | false => exact handleSubmitCatch_WF env p _ hwf
  | false =>
    have := saveReport_WF env.saveAvail env.now st.store p hwf
    simp only [Bool.false_eq_true, if_false]
    cases hres : saveReport env.saveAvail env.now st.store p with
    | mk res store' =>
      rw [hres] at this
      cases res with
      | ok k => exact this
      | error e => exact handleSubmitCatch_WF env p _ this

/-! ## Nothing is lost -/

theorem ackedBodies_append (a b : List Effect) :
    ackedBodies (a ++ b) = ackedBodies a ++ ackedBodies b := by
  induction a with
  | nil => rfl
  | cons e a ih =>
    cases e with
    | posted body o => cases o <;> simp [ackedBodies, ih]
    | _ => simp [ackedBodies, ih]

theorem pairwise_recLt_inj {l : List JsObj} (hp : l.Pairwise (fun a b => recLt a b = true))
    {a b : JsObj} (ha : a ∈ l) (hb : b ∈ l) (hk : recKey a = recKey b) : a = b := by
  obtain ⟨i, hi, rfl⟩ := List.mem_iff_getElem.mp ha
  obtain ⟨j, hj, rfl⟩ := List.mem_iff_getElem.mp hb
  have hp' := List.pairwise_iff_getElem.mp hp
  rcases Nat.lt_trichotomy i j with h | h | h
  · exact absurd hk (recLt_ne (hp' i j hi hj h))
  · subst h; rfl
  · exact absurd hk.symm (recLt_ne (hp' j i hj hi h))

theorem deleteReport_store (avail : Bool) (s : ObjectStore) (id : Option JsVal) :
    (deleteReport avail s id).2 = s ∨
      ∃ k, id.bind toKey = some k ∧
        (deleteReport avail s id).2.records = s.records.filter (fun r => recKey r != some k) := by
  unfold deleteReport ObjectStore.delete
  cases avail with
  | false => exact Or.inl rfl
  | true =>
    cases hk : id.bind toKey with
    | none => exact Or.inl rfl
    | some k => exact Or.inr ⟨k, rfl, rfl⟩

/-- A drain loses no record: every record of the store is still there after
the loop or its body was acknowledged. -/
theorem syncLoop_keeps_or_acks (env : DrainEnv) :
    ∀ (rest : List JsObj) (i : Nat) (st : AppState),
      (∀ x ∈ rest, x ∈ st.store.records) →
      rest.Pairwise (fun a b => recLt a b = true) → st.store.WF →
      ∀ r ∈ st.store.records, r ∈ (syncLoop env i rest st).store.records ∨
        objOmit queueFields r ∈ ackedBodies (syncLoop env i rest st).trace := by
  intro rest
  induction rest with
  | nil => intro i st _ _ _ r hr; exact Or.inl hr
  | cons report rest ih =>
    intro i st hsub hp hwf r hr
    have hp' := List.pairwise_cons.mp hp
    unfold syncLoop
    cases hack : (env.post i).isAck with
    | false =>
      simp only [Bool.false_eq_true, if_false]
      exact ih (i + 1)
        { st with trace := st.trace ++ [.posted (objOmit queueFields report) (env.post i)] }
        (fun x hx => hsub x (List.mem_cons_of_mem _ hx)) hp'.2 hwf r hr
    | true =>
      simp only [if_true]
      have hout : env.post i = .ack := by
        cases h : env.post i <;> simp [h, PostOutcome.isAck] at hack ⊢
      have hwf' := deleteReport_WF (env.delOk i) st.store (objGet report "id") hwf
      have hsub' : ∀ x ∈ rest,
          x ∈ (deleteReport (env.delOk i) st.store (objGet report "id")).2.records := by
        intro x hx
        have hxs := hsub x (List.mem_cons_of_mem _ hx)
        rcases deleteReport_store (env.delOk i) st.store (objGet report "id") with h | ⟨k, hk, h⟩
        · rw [h]; exact hxs
        · rw [h, List.mem_filter]
          refine ⟨hxs, ?_⟩
          have hne := recLt_ne (hp'.1 x hx)
          have : recKey report = some k := hk
          rw [this] at hne
          simpa using fun e => hne e.symm
      by_cases hmem : r ∈ (deleteReport (env.delOk i) st.store (objGet report "id")).2.records
      · exact ih (i + 1) _ hsub' hp'.2 hwf' r hmem
      · right
        have hreq : r = report := by
          rcases deleteReport_store (env.delOk i) st.store (objGet report "id") with
            h | ⟨k, hk, h⟩
          · rw [h] at hmem; exact absurd hr hmem
          · rw [h, List.mem_filter] at hmem
            have hrk : recKey r = some k := by
              by_contra hne
              exact hmem ⟨hr, by simpa using hne⟩
            have : recKey report = some k := hk
            exact pairwise_recLt_inj hwf.1 hr (hsub report (List.mem_cons_self _ _))
              (hrk.trans this.symm)
        rw [syncLoop_trace, hreq, hout]
        simp [ackedBodies_append, ackedBodies]

theorem syncReports_keeps_or_acks (env : DrainEnv) (st : AppState) (hwf : st.store.WF) :
    ∀ r ∈ st.store.records, r ∈ (syncReports env st).store.records ∨
      objOmit queueFields r ∈ ackedBodies (syncReports env st).trace := by
  intro r hr
  unfold syncReports
  cases hs : env.snapOk with
  | false => simp [getPendingReports, hs, hr]
  | true =>
    simp only [getPendingReports, if_true, ObjectStore.getAll]
    split
    · exact Or.inl hr
    · have := syncLoop_keeps_or_acks env st.store.records 0
        { st with trace := st.trace ++ [.listed true], syncing := true }
        (fun x hx => hx) hwf.1 hwf r hr
      unfold checkPending getPendingReports
      cases env.checkOk
      · rcases this with h | h
        · exact Or.inl (by simpa using h)
        · exact Or.inr (by simp [ackedBodies_append, h])
      · rcases this with h | h
        · exact Or.inl (by simpa using h)
        · exact Or.inr (by simp [ackedBodies_append, h])

theorem syncReports_trace_extends (env : DrainEnv) (st : AppState) :
    ∃ ext, (syncReports env st).trace = st.trace ++ ext := by
  cases hs : env.snapOk with
  | false => exact ⟨[.listed false], by simp [syncReports, getPendingReports, hs]⟩
  | true => exact ⟨_, by rw [syncReports_trace env st hs, List.append_assoc, List.append_assoc]⟩

theorem saveReport_records_subset (avail : Bool) (now : String) (s : ObjectStore) (p : JsObj) :
    ∀ r ∈ s.records, r ∈ (saveReport avail now s p).2.records := by
  intro r hr
  cases hres : saveReport avail now s p with
  | mk res s' =>
    cases res with
    | error e =>
      have := saveReport_error_store avail now s p e (by rw [hres])
      rw [hres] at this
      simp only at this
      rw [this]; exact hr
    | ok k =>
      obtain ⟨_, r', _, hrec, _⟩ := saveReport_ok_spec _ _ _ _ _ _ hres
      simp only [hrec]
      exact (insertRecord_perm k r' s.records).symm.subset (List.mem_cons_of_mem _ hr)

theorem saveReport_ok_holds (avail : Bool) (now : String) (s s' : ObjectStore) (p : JsObj)
    (k : IDBKey) (h : saveReport avail now s p = (.ok k, s')) :
    objOmit queueFields p ∈ s'.records.map (objOmit queueFields) := by
  obtain ⟨_, r, _, hrec, _, _, homit, _⟩ := saveReport_ok_spec _ _ _ _ _ _ h
  rw [← homit, hrec]
  exact List.mem_map_of_mem _
    ((insertRecord_perm k r s.records).symm.subset (List.mem_cons_self _ _))

theorem handleSubmitCatch_trace_extends (env : CaptureEnv) (p : JsObj) (st : AppState) :
    ∃ ext, (handleSubmitCatch env p st).trace = st.trace ++ ext := by
  unfold handleSubmitCatch
  cases env.onLineCatch with
  | true => exact ⟨[], by simp⟩
  | false =>
    cases hres : saveReport env.saveAvailCatch env.nowCatch st.store p with
    | mk res store' => cases res <;> exact ⟨_, rfl⟩

theorem handleSubmit_trace_extends (env : CaptureEnv) (p : JsObj) (st : AppState) :
    ∃ ext, (handleSubmit env p st).trace = st.trace ++ ext := by
  unfold handleSubmit
  cases env.onLine with
  | true =>
    cases env.post.isAck with
    | true => exact ⟨_, by simp only [if_true]; rw [List.append_assoc]⟩
    | false =>
      obtain ⟨ext, h⟩ := handleSubmitCatch_trace_extends env p
        { st with loading := true, submitStatus := ⟨"", ""⟩,
                  trace := st.trace ++ [.posted p env.post] }
      exact ⟨[.posted p env.post] ++ ext, by simpa using h⟩
  | false =>
    simp only [Bool.false_eq_true, if_false]
    cases hres : saveReport env.saveAvail env.now st.store p with
    | mk res store' =>
      cases res with
      | ok k => exact ⟨_, rfl⟩
      | error e =>
        obtain ⟨ext, h⟩ := handleSubmitCatch_trace_extends env p
          { st with store := store', loading := true, submitStatus := ⟨"", ""⟩,
                    trace := st.trace ++ [.saved p none] }
        exact ⟨[.saved p none] ++ ext, by simpa using h⟩

theorem handleSubmitCatch_records_subset (env : CaptureEnv) (p : JsObj) (st : AppState) :
    ∀ r ∈ st.store.records, r ∈ (handleSubmitCatch env p st).store.records := by
  intro r hr
  unfold handleSubmitCatch
  cases env.onLineCatch with
  | true => exact hr
  | false =>
    have := saveReport_records_subset env.saveAvailCatch env.nowCatch st.store p r hr
    cases hres : saveReport env.saveAvailCatch env.nowCatch st.store p with
    | mk res store' =>
      rw [hres] at this
      cases res <;> exact this

theorem handleSubmit_records_subset (env : CaptureEnv) (p : JsObj) (st : AppState) :
    ∀ r ∈ st.store.records, r ∈ (handleSubmit env p st).store.records := by
  intro r hr
  unfold handleSubmit
  cases env.onLine with
  | true =>
    cases env.post.isAck with
    | true => exact hr
    | false => exact handleSubmitCatch_records_subset env p _ r hr
  | false =>
    simp only [Bool.false_eq_true, if_false]
    have := saveReport_records_subset env.saveAvail env.now st.store p r hr
    cases hres : saveReport env.saveAvail env.now st.store p with
    | mk res store' =>
      rw [hres] at this
      cases res with
      | ok k => exact this
      | error e => exact handleSubmitCatch_records_subset env p _ r this

theorem handleSubmitCatch_success (env : CaptureEnv) (p : JsObj) (st : AppState)
    (h : (handleSubmitCatch env p st).submitStatus.type = "success") :
    objOmit queueFields p ∈
      (handleSubmitCatch env p st).store.records.map (objOmit queueFields) := by
  unfold handleSubmitCatch at h ⊢
  cases hc : env.onLineCatch with
  | true => simp [hc] at h
  | false =>
    simp only [hc, Bool.not_false, if_true] at h ⊢
    cases hres : saveReport env.saveAvailCatch env.nowCatch st.store p with
    | mk res store' =>
      cases res with
      | ok k => exact saveReport_ok_holds _ _ _ _ _ _ hres
      | error e => simp [hres] at h

/-- A capture that ends with the status `success` leaves its payload
acknowledged or stored. -/
theorem handleSubmit_success (env : CaptureEnv) (p : JsObj) (st : AppState)
    (h : (handleSubmit env p st).submitStatus.type = "success") :
    accountedFor p (handleSubmit env p st) := by
  unfold handleSubmit at h ⊢
  cases hon : env.onLine with
  | true =>
    cases hack : env.post.isAck with
    | true =>
      have hout : env.post = .ack := by
        cases h' : env.post <;> simp [h', PostOutcome.isAck] at hack ⊢
      left
      simp [hout, PostOutcome.isAck, ackedBodies_append, ackedBodies]
    | false =>
      simp only [hon, hack, if_true, Bool.false_eq_true, if_false] at h ⊢
      exact Or.inr (Or.inr (handleSubmitCatch_success env p _ h))
  | false =>
    simp only [hon, Bool.false_eq_true, if_false] at h ⊢
    cases hres : saveReport env.saveAvail env.now st.store p with
    | mk res store' =>
      cases res with
      | ok k => exact Or.inr (Or.inr (saveReport_ok_holds _ _ _ _ _ _ hres))
      | error e =>
        simp only [hres] at h ⊢
        exact Or.inr (Or.inr (handleSubmitCatch_success env p _ h))

theorem accountedFor_of_extends {p : JsObj} {st st' : AppState}
    (htrace : ∃ ext, st'.trace = st.trace ++ ext)
    (hrec : ∀ r ∈ st.store.records, r ∈ st'.store.records ∨
      objOmit queueFields r ∈ ackedBodies st'.trace)
    (h : accountedFor p st) : accountedFor p st' := by
  obtain ⟨ext, hext⟩ := htrace
  rcases h with h | h | h
  · exact Or.inl (by rw [hext, ackedBodies_append]; exact List.mem_append_left _ h)
  · exact Or.inr (Or.inl (by rw [hext, ackedBodies_append]; exact List.mem_append_left _ h))
  · obtain ⟨r, hr, hrp⟩ := List.mem_map.mp h
    rcases hrec r hr with h' | h'
    · exact Or.inr (Or.inr (hrp ▸ List.mem_map_of_mem _ h'))
    · exact Or.inr (Or.inl (hrp ▸ h'))

theorem apply_WF (op : Operation) (st : AppState) (hwf : st.store.WF) :
    (op.apply st).store.WF := by
  cases op with
  | capture env p => exact handleSubmit_WF env p st hwf
  | drain env => exact syncReports_WF env st hwf
  | online env => exact syncReports_WF env { st with isOnline := true } hwf
  | offline => exact hwf

theorem accountedFor_apply (op : Operation) (st : AppState) (p : JsObj) (hwf : st.store.WF)
    (h : accountedFor p st) : accountedFor p (op.apply st) := by
  cases op with
  | capture env q =>
    exact accountedFor_of_extends (handleSubmit_trace_extends env q st)
      (fun r hr => Or.inl (handleSubmit_records_subset env q st r hr)) h
  | drain env =>
    exact accountedFor_of_extends (syncReports_trace_extends env st)
      (syncReports_keeps_or_acks env st hwf) h
  | online env =>
    exact @accountedFor_of_extends p { st with isOnline := true } _
      (syncReports_trace_extends env _) (syncReports_keeps_or_acks env _ hwf) h
  | offline => exact h

theorem runOps_WF (ops : List Operation) :
    ∀ st : AppState, st.store.WF → (runOps ops st).store.WF := by
  induction ops with
  | nil => intro st h; exact h
  | cons op ops ih => intro st h; exact ih _ (apply_WF op st h)

theorem accountedFor_runOps (ops : List Operation) (p : JsObj) :
    ∀ st : AppState, st.store.WF → accountedFor p st → accountedFor p (runOps ops st) := by
  induction ops with
  | nil => intro st _ h; exact h
  | cons op ops ih =>
    intro st hwf h
    exact ih _ (apply_WF op st hwf) (accountedFor_apply op st p hwf h)

/-! ## Overlapping runs -/

theorem resumeAll_append (a b : List (Bool × PostOutcome)) (x : DrainTask × AppState) :
    resumeAll (a ++ b) x = resumeAll b (resumeAll a x) := by
  induction a generalizing x with
  | nil => rfl
  | cons s a ih =>
    obtain ⟨ok, o⟩ := s
    obtain ⟨t, st⟩ := x
    simp [resumeAll, ih]

theorem resumeAll_finished (l : List (Bool × PostOutcome)) (st : AppState) :
    resumeAll l (.finished, st) = (.finished, st) := by
  induction l with
  | nil => rfl
  | cons s l ih =>
    obtain ⟨ok, o⟩ := s
    simpa [resumeAll, DrainTask.resume] using ih

theorem resumeAll_loop (env : DrainEnv) :
    ∀ (rest : List JsObj) (i : Nat) (st : AppState),
      resumeAll (loopSettlements env i rest) (DrainTask.next rest, st) =
        (.checking, syncLoop env i rest st) := by
  intro rest
  induction rest with
  | nil => intro i st; rfl
  | cons r rest ih =>
    intro i st
    rw [show DrainTask.next (r :: rest) = .posting r rest from rfl]
    cases hack : (env.post i).isAck with
    | false =>
      simp only [loopSettlements, resumeAll, DrainTask.resume, hack,
        Bool.false_eq_true, if_false, List.nil_append]
      rw [ih]
      simp [syncLoop, hack]
    | true =>
      simp only [loopSettlements, resumeAll, DrainTask.resume, hack,
        if_true, List.singleton_append]
      rw [ih]
      simp [syncLoop, hack]

/-- A task that runs on its own, its requests settling as `env` says, ends in
the state that `syncReports env` computes: the two descriptions of
`syncReports` agree. -/
theorem resumeAll_alone (env : DrainEnv) (st : AppState) :
    resumeAll ((env.snapOk, .ack) :: (loopSettlements env 0 st.store.records ++
        [(env.checkOk, .ack)])) (.fetching, st) =
      (.finished, syncReports env st) := by
  simp only [resumeAll, DrainTask.resume, syncReports]
  cases hs : getPendingReports env.snapOk st.store with
  | error e => simp [resumeAll_finished]
  | ok reports =>
    have hrep : reports = st.store.records := by
      cases hsn : env.snapOk <;> simp [getPendingReports, hsn, ObjectStore.getAll] at hs
      exact hs.symm
    subst hrep
    simp only
    split
    · simp [resumeAll_finished]
    · rw [resumeAll_append, resumeAll_loop]
      simp only [resumeAll, DrainTask.resume]
      cases checkPending env.checkOk _ <;> rfl

/-- While a run has `syncing` set, a click on the Sync Now button starts
nothing: the button is disabled. -/
theorem clickSync_while_syncing (w : EventLoop) (h : w.app.syncing = true) :
    w.step .clickSync = w := by
  simp [EventLoop.step, h]

/-- An `online` event starts a run of `syncReports` whatever `syncing` says. -/
theorem online_starts_run (w : EventLoop) :
    (w.step .online).tasks = w.tasks ++ [.fetching] := rfl

/-! ## Sequences of store calls -/

/-- What `saveReport` does with a report that has no `id`: it rejects and
leaves the store alone, or it stores the record under the key generator's
number and moves the generator on. -/
theorem saveReport_idFree_cases (avail : Bool) (now : String) (s : ObjectStore) (p : JsObj)
    (hid : objGet p "id" = none) :
    (∃ e, saveReport avail now s p = (.error e, s)) ∨
      saveReport avail now s p =
        (.ok (.num s.keyGen),
          { records := insertRecord (.num s.keyGen) (storedRecord now p (.num s.keyGen))
              s.records,
            keyGen := s.keyGen + 1 }) := by
  have hid' : objGet (objSet (objSet p "createdAt" (.str now)) "status" (.str "pending")) "id"
      = none := by
    rw [objGet_objSet_ne _ _ _ _ (by decide), objGet_objSet_ne _ _ _ _ (by decide), hid]
  unfold saveReport ObjectStore.add
  cases avail with
  | false => exact Or.inl ⟨_, rfl⟩
  | true =>
    simp only [if_true, hid']
    by_cases hmax : maxGeneratedKey < s.keyGen
    · exact Or.inl ⟨.constraintError, by simp [hmax]⟩
    · by_cases hk : s.hasKey (.num s.keyGen) = true
      · exact Or.inl ⟨.constraintError, by simp [hmax, hk]⟩
      · right
        simp [hmax, hk, storedRecord, IDBKey.toVal]

theorem run_idFree (c : StoreCall) (s : ObjectStore) (hc : c.idFree = true) :
    ((c.run s).1 = none ∧ (c.run s).2.keyGen = s.keyGen) ∨
      ((c.run s).1 = some (.num s.keyGen) ∧ (c.run s).2.keyGen = s.keyGen + 1) := by
  cases c with
  | save avail now report =>
    have hid : objGet report "id" = none := by
      simpa [StoreCall.idFree] using hc
    rcases saveReport_idFree_cases avail now s report hid with ⟨e, h⟩ | h
    · left; simp [StoreCall.run, h, Except.toOption]
    · right; simp [StoreCall.run, h, Except.toOption]
  | delete avail id =>
    left
    refine ⟨rfl, ?_⟩
    rcases deleteReport_store avail s id with h | ⟨k, _, _⟩
    · simp [StoreCall.run, h]
    · simp only [StoreCall.run, deleteReport, ObjectStore.delete]
      cases avail <;> cases id.bind toKey <;> rfl
  | clear avail =>
    left
    cases avail <;> exact ⟨rfl, rfl⟩

theorem returnedIds_ge (calls : List StoreCall) :
    ∀ s : ObjectStore, (∀ c ∈ calls, c.idFree = true) →
      ∀ k ∈ returnedIds calls s, ∃ n : Nat, k = .num n ∧ s.keyGen ≤ n := by
  induction calls with
  | nil => intro s _ k hk; simp [returnedIds] at hk
  | cons c cs ih =>
    intro s hfree k hk
    have hc := hfree c (List.mem_cons_self _ _)
    have hcs : ∀ c' ∈ cs, c'.idFree = true := fun c' h => hfree c' (List.mem_cons_of_mem _ h)
    simp only [returnedIds, List.mem_append] at hk
    rcases run_idFree c s hc with ⟨h1, h2⟩ | ⟨h1, h2⟩
    · rcases hk with hk | hk
      · simp [h1] at hk
      · obtain ⟨n, hn, hle⟩ := ih _ hcs k hk
        exact ⟨n, hn, by omega⟩
    · rcases hk with hk | hk
      · simp only [h1, Option.toList, List.mem_singleton] at hk
        exact ⟨s.keyGen, hk, Nat.le_refl _⟩
      · obtain ⟨n, hn, hle⟩ := ih _ hcs k hk
        exact ⟨n, hn, by omega⟩

theorem recKey_storedRecord (now : String) (p : JsObj) (k : IDBKey) :
    recKey (storedRecord now p k) = some k := by
  simp [recKey, storedRecord, objGet_objSet_same, toKey_toVal]

theorem insertRecord_append (g : Nat) (r : JsObj) :
    ∀ l : List JsObj, (∀ x ∈ l, ∃ n : Int, recKey x = some (.num n) ∧ n < g) →
      insertRecord (.num g) r l = l ++ [r] := by
  intro l
  induction l with
  | nil => intro _; rfl
  | cons x xs ih =>
    intro h
    obtain ⟨n, hn, hlt⟩ := h x (List.mem_cons_self _ _)
    have hnot : keyLt (.num g) (.num n) = false := by
      simp only [keyLt, decide_eq_false_iff_not]
      omega
    simp [insertRecord, hn, hnot, ih (fun y hy => h y (List.mem_cons_of_mem _ hy))]

/-- The records of the store and the list kept from the calls agree, the keys
are generated numbers below the key generator, and they ascend. -/
theorem runCalls_savedNotDeleted (calls : List StoreCall) :
    ∀ (s : ObjectStore) (pending : List JsObj), (∀ c ∈ calls, c.idFree = true) →
      s.records = pending →
      s.records.Pairwise (fun a b => recLt a b = true) →
      (∀ r ∈ s.records, ∃ n : Int, recKey r = some (.num n) ∧ n < s.keyGen) →
      (runCalls calls s).records = savedNotDeleted calls s pending ∧
        (runCalls calls s).records.Pairwise (fun a b => recLt a b = true) := by
  induction calls with
  | nil => intro s pending _ h hp _; exact ⟨h, hp⟩
  | cons c cs ih =>
    intro s pending hfree h hp hkeys
    have hc := hfree c (List.mem_cons_self _ _)
    have hcs : ∀ c' ∈ cs, c'.idFree = true := fun c' h => hfree c' (List.mem_cons_of_mem _ h)
    cases c with
    | save avail now report =>
      have hid : objGet report "id" = none := by simpa [StoreCall.idFree] using hc
      rcases saveReport_idFree_cases avail now s report hid with ⟨e, hs⟩ | hs
      · simp only [runCalls, StoreCall.run, savedNotDeleted, hs]
        exact ih s pending hcs h hp hkeys
      · simp only [runCalls, StoreCall.run, savedNotDeleted, hs]
        rw [insertRecord_append _ _ _ hkeys]
        refine ih _ _ hcs (by rw [h]) ?_ ?_
        · simp only
          rw [List.pairwise_append]
          refine ⟨hp, List.pairwise_singleton _ _, ?_⟩
          intro a ha b hb
          rw [List.mem_singleton] at hb
          subst hb
          obtain ⟨n, hn, hlt⟩ := hkeys a ha
          rw [recLt_of_keys hn (recKey_storedRecord _ _ _)]
          simp only [keyLt, decide_eq_true_eq]
          exact hlt
        · intro r hr
          simp only [List.mem_append, List.mem_singleton] at hr
          rcases hr with hr | rfl
          · obtain ⟨n, hn, hlt⟩ := hkeys r hr
            exact ⟨n, hn, by simp only; omega⟩
          · exact ⟨s.keyGen, recKey_storedRecord _ _ _, by simp only; omega⟩
    | delete avail id =>
      simp only [runCalls, StoreCall.run, savedNotDeleted]
      cases avail with
      | false => simpa [deleteReport] using ih s pending hcs h hp hkeys
      | true =>
        cases hk : id.bind toKey with
        | none => simpa [deleteReport, ObjectStore.delete, hk] using ih s pending hcs h hp hkeys
        | some k =>
          simp only [deleteReport, ObjectStore.delete, hk, if_true]
          refine ih _ _ hcs (by rw [h]) ?_ ?_
          · exact hp.sublist (List.filter_sublist _)
          · intro r hr
            exact hkeys r (List.mem_of_mem_filter hr)
    | clear avail =>
      simp only [runCalls, StoreCall.run, savedNotDeleted]
      cases avail with
      | false => simpa [clearReports] using ih s pending hcs h hp hkeys
      | true =>
        simp only [clearReports, if_true]
        exact ih _ _ hcs rfl (by simp [ObjectStore.clear]) (by simp [ObjectStore.clear])

/-! ## Captures -/

theorem buildPayload_no_id (reportDate : String) (formData : FormData) :
    objGet (buildPayload reportDate formData) "id" = none := by
  simp [buildPayload, objGet]

theorem buildPayload_omit (reportDate : String) (formData : FormData) :
    objOmit queueFields (buildPayload reportDate formData) = buildPayload reportDate formData := by
  apply objOmit_eq_self
  intro k hk
  simp only [queueFields, List.mem_cons, List.mem_singleton, List.not_mem_nil, or_false] at hk
  rcases hk with rfl | rfl | rfl <;> simp [buildPayload, objGet]

theorem objOmit_storedRecord (now : String) (p : JsObj) (k : IDBKey) :
    objOmit queueFields (storedRecord now p k) = objOmit queueFields p := by
  unfold storedRecord
  rw [objOmit_objSet _ _ _ _ (by simp [queueFields]),
    objOmit_objSet _ _ _ _ (by simp [queueFields]),
    objOmit_objSet _ _ _ _ (by simp [queueFields])]

/-- On an available store in key order whose generator is not exhausted,
`saveReport` of a report without `id` resolves and stores the record. -/
theorem saveReport_idFree_ok (now : String) (s : ObjectStore) (p : JsObj) (hwf : s.WF)
    (hgen : s.keyGen ≤ maxGeneratedKey) (hid : objGet p "id" = none) :
    saveReport true now s p =
      (.ok (.num s.keyGen),
        { records := insertRecord (.num s.keyGen) (storedRecord now p (.num s.keyGen))
            s.records,
          keyGen := s.keyGen + 1 }) := by
  obtain ⟨s', hs', _⟩ := saveReport_generates now s p hwf hgen hid
  rcases saveReport_idFree_cases true now s p hid with ⟨e, he⟩ | h
  · rw [he] at hs'; simp at hs'
  · exact h

/-- A capture that reads `navigator.onLine` as false and whose `saveReport`
resolves with `k`: no POST, one save, the success status. -/
theorem handleSubmit_offline_saved (env : CaptureEnv) (p : JsObj) (st : AppState)
    (k : IDBKey) (s' : ObjectStore) (hoff : env.onLine = false)
    (hsave : saveReport env.saveAvail env.now st.store p = (.ok k, s')) :
    handleSubmit env p st =
      { st with store := s', loading := false,
                submitStatus := ⟨"success", "Report saved offline. Will sync when online."⟩,
                trace := st.trace ++ [.saved p (some k)] } := by
  simp [handleSubmit, hoff, hsave]

theorem saveReport_result_cases (avail : Bool) (now : String) (s : ObjectStore) (p : JsObj) :
    (∃ e, saveReport avail now s p = (.error e, s)) ∨
      ∃ k s', saveReport avail now s p = (.ok k, s') ∧
        s'.records.length = s.records.length + 1 := by
  cases hres : saveReport avail now s p with
  | mk res s' =>
    cases res with
    | error e =>
      have := saveReport_error_store avail now s p e (by rw [hres])
      rw [hres] at this
      simp only at this
      exact Or.inl ⟨e, by rw [this]⟩
    | ok k =>
      obtain ⟨_, r, _, hrec, _⟩ := saveReport_ok_spec _ _ _ _ _ _ hres
      refine Or.inr ⟨k, s', rfl, ?_⟩
      rw [hrec, (insertRecord_perm k r s.records).length_eq]
      simp

/-- The `catch` block never says "submitted" and posts nothing; it says
"saved offline" exactly when it added a record. -/
theorem handleSubmitCatch_paths (env : CaptureEnv) (p : JsObj) (st : AppState) :
    (handleSubmitCatch env p st).submitStatus.saysSubmitted = false ∧
      ackedBodies (handleSubmitCatch env p st).trace = ackedBodies st.trace ∧
      (((handleSubmitCatch env p st).submitStatus.saysSavedOffline = true ∧
          (handleSubmitCatch env p st).store.records.length = st.store.records.length + 1) ∨
        ((handleSubmitCatch env p st).submitStatus.saysSavedOffline = false ∧
          (handleSubmitCatch env p st).submitStatus.type = "error" ∧
          (handleSubmitCatch env p st).store = st.store)) := by
  unfold handleSubmitCatch
  cases hc : env.onLineCatch with
  | true =>
    simp [SubmitStatus.saysSubmitted, SubmitStatus.saysSavedOffline]
  | false =>
    rcases saveReport_result_cases env.saveAvailCatch env.nowCatch st.store p with
      ⟨e, h⟩ | ⟨k, s', h, hlen⟩
    · simp [h, SubmitStatus.saysSubmitted, SubmitStatus.saysSavedOffline, ackedBodies_append,
        ackedBodies]
    · simp [h, hlen, SubmitStatus.saysSubmitted, SubmitStatus.saysSavedOffline,
        ackedBodies_append, ackedBodies]

/-- Every run of `handleSubmit` takes one of three paths: submitted (the POST
was acknowledged, the store is untouched), saved offline (nothing was
acknowledged, the store gained one record), or error (nothing acknowledged,
store untouched). -/
theorem handleSubmit_paths (env : CaptureEnv) (p : JsObj) (st : AppState) :
    ((handleSubmit env p st).submitStatus.saysSubmitted = true ∧
        (handleSubmit env p st).submitStatus.saysSavedOffline = false ∧
        ackedBodies (handleSubmit env p st).trace = ackedBodies st.trace ++ [p] ∧
        (handleSubmit env p st).store = st.store) ∨
      ((handleSubmit env p st).submitStatus.saysSubmitted = false ∧
        (handleSubmit env p st).submitStatus.saysSavedOffline = true ∧
        ackedBodies (handleSubmit env p st).trace = ackedBodies st.trace ∧
        (handleSubmit env p st).store.records.length = st.store.records.length + 1) ∨
      ((handleSubmit env p st).submitStatus.saysSubmitted = false ∧
        (handleSubmit env p st).submitStatus.saysSavedOffline = false ∧
        (handleSubmit env p st).submitStatus.type = "error" ∧
        ackedBodies (handleSubmit env p st).trace = ackedBodies st.trace ∧
        (handleSubmit env p st).store = st.store) := by
  unfold handleSubmit
  cases hon : env.onLine with
  | true =>
    cases hack : env.post.isAck with
    | true =>
      have hout : env.post = .ack := by
        cases h : env.post <;> simp [h, PostOutcome.isAck] at hack ⊢
      left
      simp [hout, PostOutcome.isAck, SubmitStatus.saysSubmitted, SubmitStatus.saysSavedOffline,
        ackedBodies_append, ackedBodies]
    | false =>
      have hposted : ackedBodies (st.trace ++ [Effect.posted p env.post]) =
          ackedBodies st.trace := by
        cases h : env.post <;> simp [h, PostOutcome.isAck, ackedBodies_append, ackedBodies] at hack ⊢
      obtain ⟨h1, h2, h3⟩ := handleSubmitCatch_paths env p
        { st with loading := true, submitStatus := ⟨"", ""⟩,
                  trace := st.trace ++ [.posted p env.post] }
      simp only [if_true, Bool.false_eq_true, if_false]
      right
      rcases h3 with ⟨h3, h4⟩ | ⟨h3, h4, h5⟩
      · exact Or.inl ⟨h1, h3, by rw [h2, hposted], h4⟩
      · exact Or.inr ⟨h1, h3, h4, by rw [h2, hposted], h5⟩
  | false =>
    simp only [Bool.false_eq_true, if_false]
    right
    rcases saveReport_result_cases env.saveAvail env.now st.store p with
      ⟨e, h⟩ | ⟨k, s', h, hlen⟩
    · obtain ⟨h1, h2, h3⟩ := handleSubmitCatch_paths env p
        { st with loading := true, submitStatus := ⟨"", ""⟩,
                  trace := st.trace ++ [.saved p none] }
      simp only [h]
      rcases h3 with ⟨h3, h4⟩ | ⟨h3, h4, h5⟩
      · exact Or.inl ⟨h1, h3, by rw [h2]; simp [ackedBodies_append, ackedBodies], h4⟩
      · exact Or.inr ⟨h1, h3, h4, by rw [h2]; simp [ackedBodies_append, ackedBodies], h5⟩
    · left
      simp [h, hlen, SubmitStatus.saysSubmitted, SubmitStatus.saysSavedOffline,
        ackedBodies_append, ackedBodies]

/-! ## Consecutive drains and what a drain reports -/

/-- With reads and deletes succeeding, a run over a store in key order leaves
the snapshot records whose POST was not acknowledged. -/
theorem syncReports_store_records (env : DrainEnv) (st : AppState) (hwf : st.store.WF)
    (hsnap : env.snapOk = true) (hdel : ∀ i, env.delOk i = true) :
    (syncReports env st).store.records =
      (st.store.records.enum.filter (fun ir => !(env.post ir.1).isAck)).map Prod.snd := by
  unfold syncReports
  simp only [getPendingReports, hsnap, if_true, ObjectStore.getAll]
  by_cases hlen : st.store.records.length = 0
  · have : st.store.records = [] := List.length_eq_zero.mp hlen
    simp [this]
  · have hloop := syncLoop_records env hdel st.store.records 0
      { st with trace := st.trace ++ [.listed true], syncing := true } [] rfl
      (by simpa using hwf.1) (fun r hr => belowGen_isSome (hwf.2.1 r hr))
    simp only [List.nil_append] at hloop
    simp only [hlen, if_false]
    cases hc : env.checkOk <;>
      simp [checkPending, getPendingReports, hc, hloop, List.enum]

theorem syncReports_postedBodies_any (env : DrainEnv) (st : AppState) :
    postedBodies (syncReports env st).trace =
      postedBodies st.trace ++
        (if env.snapOk then st.store.records else []).map (objOmit queueFields) := by
  cases hs : env.snapOk with
  | true => simpa using syncReports_postedBodies env st hs
  | false => simp [syncReports, getPendingReports, hs, postedBodies_append, postedBodies]

theorem ackedBodies_loopEffects (env : DrainEnv) :
    ∀ (rest : List JsObj) (i : Nat),
      (ackedBodies (loopEffects env i rest)).length =
        ((rest.enumFrom i).filter (fun ir => (env.post ir.1).isAck)).length := by
  intro rest
  induction rest with
  | nil => intro i; rfl
  | cons r rest ih =>
    intro i
    cases hout : env.post i <;>
      simp [loopEffects, recordEffects, hout, PostOutcome.isAck, ackedBodies_append,
        ackedBodies, ih, List.enumFrom_cons]

theorem ackedBodies_syncReports_length (env : DrainEnv) (st : AppState)
    (hsnap : env.snapOk = true) :
    (ackedBodies (syncReports env st).trace).length =
      (ackedBodies st.trace).length +
        (st.store.records.enum.filter (fun ir => (env.post ir.1).isAck)).length := by
  rw [syncReports_trace env st hsnap]
  by_cases hlen : st.store.records.length = 0 <;>
    simp [ackedBodies_append, ackedBodies, ackedBodies_loopEffects, hlen, List.enum]

/-- After a non-empty snapshot and a final read that resolves, `pendingCount`
is the number of records in the store and `syncing` is false. -/
theorem syncReports_drainReport (env : DrainEnv) (st : AppState) (hsnap : env.snapOk = true)
    (hcheck : env.checkOk = true) (hne : st.store.records ≠ []) :
    drainReport (syncReports env st) = ((syncReports env st).store.records.length, false) := by
  have hlen : ¬ st.store.records.length = 0 := fun h => hne (List.length_eq_zero.mp h)
  simp [syncReports, getPendingReports, hsnap, hcheck, ObjectStore.getAll, hlen, checkPending,
    drainReport]

theorem forgetTrace_eq_iff (a b : AppState) :
    forgetTrace a = forgetTrace b ↔
      a.store = b.store ∧ a.isOnline = b.isOnline ∧ a.pendingCount = b.pendingCount ∧
        a.syncing = b.syncing ∧ a.loading = b.loading ∧ a.submitStatus = b.submitStatus ∧
        a.activeTab = b.activeTab := by
  cases a; cases b
  simp [forgetTrace]

/-- The loop looks only at whether a POST was acknowledged, not at how it
failed. -/
theorem syncLoop_forgetTrace (env env' : DrainEnv)
    (hack : ∀ i, (env.post i).isAck = (env'.post i).isAck)
    (hdel : ∀ i, env.delOk i = env'.delOk i) :
    ∀ (rest : List JsObj) (i : Nat) (st st' : AppState), forgetTrace st = forgetTrace st' →
      forgetTrace (syncLoop env i rest st) = forgetTrace (syncLoop env' i rest st') := by
  intro rest
  induction rest with
  | nil => intro i st st' h; exact h
  | cons r rest ih =>
    intro i st st' h
    have hstore : st.store = st'.store := ((forgetTrace_eq_iff st st').mp h).1
    unfold syncLoop
    rw [← hack i, ← hdel i]
    cases (env.post i).isAck with
    | false =>
      simp only [Bool.false_eq_true, if_false]
      apply ih
      rw [forgetTrace_eq_iff] at h ⊢
      exact h
    | true =>
      simp only [if_true]
      apply ih
      rw [forgetTrace_eq_iff] at h ⊢
      simp only [hstore]
      exact ⟨trivial, h.2⟩

theorem syncReports_forgetTrace (env env' : DrainEnv) (st : AppState)
    (hack : ∀ i, (env.post i).isAck = (env'.post i).isAck)
    (hsnap : env.snapOk = env'.snapOk) (hdel : ∀ i, env.delOk i = env'.delOk i)
    (hcheck : env.checkOk = env'.checkOk) :
    forgetTrace (syncReports env st) = forgetTrace (syncReports env' st) := by
  unfold syncReports
  rw [← hsnap, ← hcheck]
  cases hs : getPendingReports env.snapOk st.store with
  | error e => rfl
  | ok reports =>
    simp only
    split
    · rfl
    · have hloop := syncLoop_forgetTrace env env' hack hdel reports 0
        { st with trace := st.trace ++ [.listed true], syncing := true }
        { st with trace := st.trace ++ [.listed true], syncing := true } rfl
      rw [forgetTrace_eq_iff] at hloop
      obtain ⟨h1, h2, h3, h4, h5, h6, h7⟩ := hloop
      rw [forgetTrace_eq_iff]
      unfold checkPending getPendingReports
      cases env.checkOk <;> simp [h1, h2, h3, h4, h5, h6, h7, ObjectStore.getAll]

/-- A record stays in the store through the loop unless the loop deletes its
key after an acknowledged POST. -/
theorem syncLoop_unacked_stays (env : DrainEnv) (r : JsObj) :
    ∀ (rest : List JsObj) (i : Nat) (st : AppState), r ∈ st.store.records →
      (∀ j x, rest[j]? = some x → (env.post (i + j)).isAck = true → recKey x ≠ recKey r) →
      r ∈ (syncLoop env i rest st).store.records := by
  intro rest
  induction rest with
  | nil => intro i st hr _; exact hr
  | cons x rest ih =>
    intro i st hr hkeys
    have hkeys' : ∀ j y, rest[j]? = some y → (env.post (i + 1 + j)).isAck = true →
        recKey y ≠ recKey r := by
      intro j y hy hack
      exact hkeys (j + 1) y (by simpa using hy) (by rwa [show i + (j + 1) = i + 1 + j by omega])
    unfold syncLoop
    cases hack : (env.post i).isAck with
    | false =>
      simp only [Bool.false_eq_true, if_false]
      exact ih (i + 1) _ hr hkeys'
    | true =>
      simp only [if_true]
      apply ih (i + 1) _ _ hkeys'
      rcases deleteReport_store (env.delOk i) st.store (objGet x "id") with h | ⟨k, hk, h⟩
      · simp only [h]; exact hr
      · simp only [h, List.mem_filter]
        refine ⟨hr, ?_⟩
        have hx : recKey x = some k := hk
        have := hkeys 0 x (by simp) (by simpa using hack)
        rw [hx] at this
        simpa using fun e => this e.symm

/-! ## Frames of the store operations -/

theorem syncLoop_sublist (env : DrainEnv) :
    ∀ (rest : List JsObj) (i : Nat) (st : AppState),
      (syncLoop env i rest st).store.records.Sublist st.store.records := by
  intro rest
  induction rest with
  | nil => intro i st; exact List.Sublist.refl _
  | cons r rest ih =>
    intro i st
    unfold syncLoop
    cases hack : (env.post i).isAck with
    | false =>
      simp only [Bool.false_eq_true, if_false]
      exact ih (i + 1) _
    | true =>
      simp only [if_true]
      refine (ih (i + 1) _).trans ?_
      rcases deleteReport_store (env.delOk i) st.store (objGet r "id") with h | ⟨k, _, h⟩
      · simp only [h]; exact List.Sublist.refl _
      · simp only [h]; exact List.filter_sublist _

theorem syncReports_sublist (env : DrainEnv) (st : AppState) :
    (syncReports env st).store.records.Sublist st.store.records := by
  unfold syncReports
  cases hs : getPendingReports env.snapOk st.store with
  | error e => exact List.Sublist.refl _
  | ok reports =>
    simp only
    split
    · exact List.Sublist.refl _
    · have := syncLoop_sublist env reports 0
        { st with trace := st.trace ++ [.listed true], syncing := true }
      unfold checkPending getPendingReports
      cases env.checkOk <;> simpa using this

theorem insertRecord_sublist (k : IDBKey) (r : JsObj) (l : List JsObj) :
    l.Sublist (insertRecord k r l) := by
  induction l with
  | nil => simp [insertRecord]
  | cons x xs ih =>
    unfold insertRecord
    cases recKey x with
    | none => exact ih.cons₂ x
    | some kx =>
      by_cases hlt : keyLt k kx = true
      · simp only [hlt, if_true]
        exact List.sublist_cons_self _ _
      · simp only [hlt, if_false]
        exact ih.cons₂ x

theorem saveReport_sublist (avail : Bool) (now : String) (s : ObjectStore) (p : JsObj) :
    s.records.Sublist (saveReport avail now s p).2.records := by
  cases hres : saveReport avail now s p with
  | mk res s' =>
    cases res with
    | error e =>
      have := saveReport_error_store avail now s p e (by rw [hres])
      rw [hres] at this
      simp only at this
      rw [this]
    | ok k =>
      obtain ⟨_, r, _, hrec, _⟩ := saveReport_ok_spec _ _ _ _ _ _ hres
      simp only [hrec]
      exact insertRecord_sublist k r s.records

/-- When the read in `checkPending` (line 62) rejects after a non-empty
snapshot, line 63 is not reached and `syncing` stays true. -/
theorem syncReports_check_rejected (env : DrainEnv) (st : AppState)
    (hsnap : env.snapOk = true) (hcheck : env.checkOk = false)
    (hne : st.store.records ≠ []) : (syncReports env st).syncing = true := by
  have hlen : ¬ st.store.records.length = 0 := fun h => hne (List.length_eq_zero.mp h)
  have hloop : ∀ (rest : List JsObj) (i : Nat) (st' : AppState),
      (syncLoop env i rest st').syncing = st'.syncing := by
    intro rest
    induction rest with
    | nil => intro i st'; rfl
    | cons r rest ih =>
      intro i st'
      unfold syncLoop
      cases (env.post i).isAck <;> simp [ih]
  simp [syncReports, getPendingReports, hsnap, hcheck, ObjectStore.getAll, hlen, checkPending,
    hloop]

/-! ## The place of a delete in a run -/

theorem loopEffects_append (env : DrainEnv) :
    ∀ (a b : List JsObj) (n : Nat),
      loopEffects env n (a ++ b) = loopEffects env n a ++ loopEffects env (n + a.length) b := by
  intro a
  induction a with
  | nil => intro b n; simp [loopEffects]
  | cons x xs ih =>
    intro b n
    simp [loopEffects, ih, Nat.add_assoc, Nat.add_comm 1 xs.length]

theorem split_at_getElem? {α : Type} :
    ∀ (l : List α) (i : Nat) (a : α), l[i]? = some a →
      l = l.take i ++ a :: l.drop (i + 1) ∧ (l.take i).length = i := by
  intro l
  induction l with
  | nil => intro i a h; simp at h
  | cons x xs ih =>
    intro i a h
    cases i with
    | zero =>
      simp only [List.getElem?_cons_zero, Option.some.injEq] at h
      subst h
      simp
    | succ i =>
      simp only [List.getElem?_cons_succ] at h
      obtain ⟨h1, h2⟩ := ih i a h
      refine ⟨?_, by simp [h2]⟩
      simp only [List.take_succ_cons, List.drop_succ_cons, List.cons_append]
      rw [← h1]

/-- The trace of the loop around the i-th snapshot record. -/
theorem loopEffects_split (env : DrainEnv) (l : List JsObj) (i : Nat) (A : JsObj)
    (hA : l[i]? = some A) :
    loopEffects env 0 l =
      loopEffects env 0 (l.take i) ++ recordEffects env i A ++
        loopEffects env (i + 1) (l.drop (i + 1)) := by
  obtain ⟨hsplit, hlen⟩ := split_at_getElem? l i A hA
  conv_lhs => rw [hsplit]
  rw [loopEffects_append, hlen]
  simp [loopEffects]

/-- A record stays in the store through the loop unless the loop deletes its
key, after an acknowledged POST and with the store available. -/
theorem syncLoop_stays_unless_deleted (env : DrainEnv) (r : JsObj) :
    ∀ (rest : List JsObj) (i : Nat) (st : AppState), r ∈ st.store.records →
      (∀ j x, rest[j]? = some x → (env.post (i + j)).isAck = true →
        env.delOk (i + j) = true → recKey x ≠ recKey r) →
      r ∈ (syncLoop env i rest st).store.records := by
  intro rest
  induction rest with
  | nil => intro i st hr _; exact hr
  | cons x rest ih =>
    intro i st hr hkeys
    have hkeys' : ∀ j y, rest[j]? = some y → (env.post (i + 1 + j)).isAck = true →
        env.delOk (i + 1 + j) = true → recKey y ≠ recKey r := by
      intro j y hy hack hdel
      have e : i + (j + 1) = i + 1 + j := by omega
      exact hkeys (j + 1) y (by simpa using hy) (by rwa [e]) (by rwa [e])
    unfold syncLoop
    cases hack : (env.post i).isAck with
    | false =>
      simp only [Bool.false_eq_true, if_false]
      exact ih (i + 1) _ hr hkeys'
    | true =>
      simp only [if_true]
      apply ih (i + 1) _ _ hkeys'
      cases hdel : env.delOk i with
      | false => simpa [deleteReport] using hr
      | true =>
        rcases deleteReport_store true st.store (objGet x "id") with h | ⟨k, hk, h⟩
        · simp only [h]; exact hr
        · simp only [h, List.mem_filter]
          refine ⟨hr, ?_⟩
          have hx : recKey x = some k := hk
          have := hkeys 0 x (by simp) (by simpa using hack) (by simpa using hdel)
          rw [hx] at this
          simpa using fun e => this e.symm

/-! ## Events and capture outcomes -/

theorem syncLoop_isOnline (env : DrainEnv) :
    ∀ (rest : List JsObj) (i : Nat) (st : AppState),
      (syncLoop env i rest st).isOnline = st.isOnline := by
  intro rest
  induction rest with
  | nil => intro i st; rfl
  | cons r rest ih =>
    intro i st
    unfold syncLoop
    cases (env.post i).isAck <;> simp [ih]

theorem syncReports_isOnline (env : DrainEnv) (st : AppState) :
    (syncReports env st).isOnline = st.isOnline := by
  unfold syncReports
  cases hs : getPendingReports env.snapOk st.store with
  | error e => rfl
  | ok reports =>
    simp only
    split
    · rfl
    · unfold checkPending getPendingReports
      cases env.checkOk <;> simp [syncLoop_isOnline]

theorem handleSubmitCatch_store (env : CaptureEnv) (p : JsObj) (st : AppState) :
    (handleSubmitCatch env p st).store = st.store ∨
      ∃ avail now k,
        saveReport avail now st.store p = (.ok k, (handleSubmitCatch env p st).store) := by
  unfold handleSubmitCatch
  cases env.onLineCatch with
  | true => exact Or.inl rfl
  | false =>
    cases hres : saveReport env.saveAvailCatch env.nowCatch st.store p with
    | mk res s' =>
      cases res with
      | error e =>
        have := saveReport_error_store _ _ _ _ e (by rw [hres])
        rw [hres] at this
        exact Or.inl this
      | ok k => exact Or.inr ⟨_, _, k, hres⟩

/-- The store after a capture is the store before it, or what one resolved
`saveReport` of the payload made of the store before it. -/
theorem handleSubmit_store (env : CaptureEnv) (p : JsObj) (st : AppState) :
    (handleSubmit env p st).store = st.store ∨
      ∃ avail now k,
        saveReport avail now st.store p = (.ok k, (handleSubmit env p st).store) := by
  unfold handleSubmit
  cases env.onLine with
  | true =>
    cases env.post.isAck with
    | true => exact Or.inl rfl
    | false => exact handleSubmitCatch_store env p _
  | false =>
    simp only [Bool.false_eq_true, if_false]
    cases hres : saveReport env.saveAvail env.now st.store p with
    | mk res s' =>
      cases res with
      | ok k => exact Or.inr ⟨_, _, k, hres⟩
      | error e =>
        have hs := saveReport_error_store _ _ _ _ e (by rw [hres])
        rw [hres] at hs
        simp only at hs
        subst hs
        exact handleSubmitCatch_store env p _

/-! ## A run and the records saved meanwhile -/

theorem held_next (l : List JsObj) :
    (DrainTask.next l).held = l ∧ (DrainTask.next l).toPost = l ∧
      DrainTask.next l ≠ .fetching := by
  cases l <;> simp [DrainTask.next, DrainTask.held, DrainTask.toPost]

/-- One step of a run that has read its snapshot: it posts only the next
record it holds, deletes only the key of a record it holds, and holds no new
record afterwards; a stored record with another key stays in the store. -/
theorem resume_frame (storeOk : Bool) (o : PostOutcome) (t : DrainTask) (st : AppState)
    (r : JsObj) (k : IDBKey) (hread : t ≠ .fetching) (hrk : recKey r = some k)
    (hr : r ∈ st.store.records) (hkeys : ∀ x ∈ t.held, recKey x ≠ some k) :
    r ∈ (t.resume storeOk o st).2.store.records ∧
      (∀ x ∈ (t.resume storeOk o st).1.held, x ∈ t.held) ∧
      (t.resume storeOk o st).1 ≠ .fetching ∧
      ∃ ext, (t.resume storeOk o st).2.trace = st.trace ++ ext ∧
        postedBodies ext ++ (t.resume storeOk o st).1.toPost.map (objOmit queueFields) =
          t.toPost.map (objOmit queueFields) ∧
        ∀ ok, Effect.deleted (some k.toVal) ok ∉ ext := by
  cases t with
  | fetching => exact absurd rfl hread
  | posting report rest =>
    simp only [DrainTask.resume]
    cases o.isAck with
    | true =>
      refine ⟨hr, fun x hx => hx, by simp, [.posted (objOmit queueFields report) o], rfl, ?_, ?_⟩
      · simp [postedBodies, DrainTask.toPost]
      · simp
    | false =>
      obtain ⟨h1, h2, h3⟩ := held_next rest
      simp only [Bool.false_eq_true, if_false]
      refine ⟨hr, ?_, h3, [.posted (objOmit queueFields report) o], rfl, ?_, ?_⟩
      · rw [h1]; intro x hx; exact List.mem_cons_of_mem _ hx
      · rw [h2]; simp [postedBodies, DrainTask.toPost]
      · simp
  | deleting report rest =>
    obtain ⟨h1, h2, h3⟩ := held_next rest
    have hrep : recKey report ≠ some k := hkeys report (List.mem_cons_self _ _)
    simp only [DrainTask.resume]
    refine ⟨?_, ?_, h3, [.deleted (objGet report "id")
      (deleteReport storeOk st.store (objGet report "id")).1.isOk], rfl, ?_, ?_⟩
    · rcases deleteReport_store storeOk st.store (objGet report "id") with h | ⟨k', hk', h⟩
      · rw [h]; exact hr
      · rw [h, List.mem_filter]
        refine ⟨hr, ?_⟩
        have hrep' : recKey report = some k' := hk'
        rw [hrep'] at hrep
        rw [hrk]
        simpa using fun e => hrep (by rw [e])
    · rw [h1]; intro x hx; exact List.mem_cons_of_mem _ hx
    · rw [h2]; simp [postedBodies, DrainTask.toPost]
    · intro ok hmem
      simp only [List.mem_singleton, Effect.deleted.injEq] at hmem
      have : recKey report = some k := by
        simp [recKey, ← hmem.1, toKey_toVal]
      exact hrep this
  | checking =>
    simp only [DrainTask.resume]
    cases storeOk with
    | true =>
      exact ⟨hr, by simp [checkPending, getPendingReports, DrainTask.held], by
        simp [checkPending, getPendingReports], [.listed true], by
        simp [checkPending, getPendingReports], by
        simp [checkPending, getPendingReports, postedBodies, DrainTask.toPost], by simp⟩
    | false =>
      exact ⟨hr, by simp [checkPending, getPendingReports, DrainTask.held], by
        simp [checkPending, getPendingReports], [.listed false], by
        simp [checkPending, getPendingReports], by
        simp [checkPending, getPendingReports, postedBodies, DrainTask.toPost], by simp⟩
  | finished =>
    exact ⟨hr, fun x hx => hx, by simp [DrainTask.resume], [], by simp [DrainTask.resume],
      by simp [DrainTask.resume, postedBodies], by simp⟩

theorem resumeAll_frame (r : JsObj) (k : IDBKey) (hrk : recKey r = some k) :
    ∀ (settles : List (Bool × PostOutcome)) (t : DrainTask) (st : AppState),
      t ≠ .fetching → r ∈ st.store.records → (∀ x ∈ t.held, recKey x ≠ some k) →
      r ∈ (resumeAll settles (t, st)).2.store.records ∧
        ∃ ext, (resumeAll settles (t, st)).2.trace = st.trace ++ ext ∧
          postedBodies ext ++
              (resumeAll settles (t, st)).1.toPost.map (objOmit queueFields) =
            t.toPost.map (objOmit queueFields) ∧
          ∀ ok, Effect.deleted (some k.toVal) ok ∉ ext := by
  intro settles
  induction settles with
  | nil =>
    intro t st _ hr _
    exact ⟨hr, [], by simp [resumeAll], by simp [resumeAll, postedBodies], by simp⟩
  | cons s settles ih =>
    intro t st hread hr hkeys
    obtain ⟨storeOk, o⟩ := s
    obtain ⟨h1, h2, h3, ext₁, htr₁, hpost₁, hdel₁⟩ :=
      resume_frame storeOk o t st r k hread hrk hr hkeys
    obtain ⟨h4, ext₂, htr₂, hpost₂, hdel₂⟩ := ih (t.resume storeOk o st).1
      (t.resume storeOk o st).2 h3 h1 (fun x hx => hkeys x (h2 x hx))
    simp only [resumeAll]
    refine ⟨h4, ext₁ ++ ext₂, ?_, ?_, ?_⟩
    · rw [htr₂, htr₁, List.append_assoc]
    · rw [postedBodies_append, List.append_assoc, hpost₂, hpost₁]
    · intro ok hmem
      rcases List.mem_append.mp hmem with h | h
      · exact hdel₁ ok h
      · exact hdel₂ ok h

/-- A run past its snapshot read, holding records that are all in the store,
and a `saveReport` that adds a record at that moment: however the remaining
requests of the run settle, the new record stays in the store, the run posts
only records it had still to post and never deletes the new record's id. -/
theorem resumeAll_after_save (t : DrainTask) (st : AppState) (avail : Bool)
    (now : String) (p : JsObj) (k : IDBKey) (s' : ObjectStore)
    (settles : List (Bool × PostOutcome)) (hread : t ≠ .fetching)
    (hheld : ∀ x ∈ t.held, x ∈ st.store.records)
    (hsave : saveReport avail now st.store p = (.ok k, s')) :
    ∃ r, recKey r = some k ∧ r ∈ s'.records ∧
      objGet r "createdAt" = some (.str now) ∧
      objOmit queueFields r = objOmit queueFields p ∧
      r ∉ t.held ∧
      r ∈ (resumeAll settles (t, { st with store := s' })).2.store.records ∧
      ∃ ext, (resumeAll settles (t, { st with store := s' })).2.trace = st.trace ++ ext ∧
        postedBodies ext ++
            (resumeAll settles (t, { st with store := s' })).1.toPost.map
              (objOmit queueFields) =
          t.toPost.map (objOmit queueFields) ∧
        ∀ ok, Effect.deleted (some k.toVal) ok ∉ ext := by
  obtain ⟨hfree, r, hkey, hrec, hcreated, _, homit, _⟩ := saveReport_ok_spec _ _ _ _ _ _ hsave
  have hfree' := (hasKey_eq_false_iff st.store k).mp hfree
  have hmem : r ∈ s'.records := by
    rw [hrec]
    exact (insertRecord_perm k r st.store.records).symm.subset (List.mem_cons_self _ _)
  have hkeys : ∀ x ∈ t.held, recKey x ≠ some k := fun x hx => hfree' x (hheld x hx)
  obtain ⟨h1, ext, h2, h3, h4⟩ := resumeAll_frame r k hkey settles t
    { st with store := s' } hread hmem hkeys
  exact ⟨r, hkey, hmem, hcreated, homit, fun hr => hkeys r hr hkey, h1, ext, h2, h3, h4⟩

/-- One step of a run keeps the records it holds in the store and in key
order: the run deletes a record only when it is done with it. -/
theorem resume_held (storeOk : Bool) (o : PostOutcome) (t : DrainTask) (st : AppState)
    (hwf : st.store.WF) (hfetch : t = .fetching ∨ (∀ x ∈ t.held, x ∈ st.store.records))
    (hp : t.held.Pairwise (fun a b => recLt a b = true)) :
    (t.resume storeOk o st).2.store.WF ∧ (t.resume storeOk o st).1 ≠ .fetching ∧
      (∀ x ∈ (t.resume storeOk o st).1.held, x ∈ (t.resume storeOk o st).2.store.records) ∧
      (t.resume storeOk o st).1.held.Pairwise (fun a b => recLt a b = true) := by
  cases t with
  | fetching =>
    simp only [DrainTask.resume]
    cases storeOk with
    | false => simp [getPendingReports, DrainTask.held, hwf]
    | true =>
      simp only [getPendingReports, if_true, ObjectStore.getAll]
      split
      · simp [DrainTask.held, hwf]
      · obtain ⟨h1, _, h3⟩ := held_next st.store.records
        refine ⟨hwf, h3, ?_, ?_⟩
        · rw [h1]; exact fun x hx => hx
        · rw [h1]; exact hwf.1
  | posting report rest =>
    have hheld := hfetch.resolve_left (by simp)
    simp only [DrainTask.resume]
    cases o.isAck with
    | true => exact ⟨hwf, by simp, hheld, hp⟩
    | false =>
      obtain ⟨h1, _, h3⟩ := held_next rest
      simp only [Bool.false_eq_true, if_false]
      refine ⟨hwf, h3, ?_, ?_⟩
      · rw [h1]; exact fun x hx => hheld x (List.mem_cons_of_mem _ hx)
      · rw [h1]; exact (List.pairwise_cons.mp hp).2
  | deleting report rest =>
    have hheld := hfetch.resolve_left (by simp)
    obtain ⟨h1, _, h3⟩ := held_next rest
    have hp' := List.pairwise_cons.mp hp
    simp only [DrainTask.resume]
    refine ⟨deleteReport_WF _ _ _ hwf, h3, ?_, ?_⟩
    · rw [h1]
      intro x hx
      have hxs := hheld x (List.mem_cons_of_mem _ hx)
      rcases deleteReport_store storeOk st.store (objGet report "id") with h | ⟨k, hk, h⟩
      · rw [h]; exact hxs
      · rw [h, List.mem_filter]
        refine ⟨hxs, ?_⟩
        have hne := recLt_ne (hp'.1 x hx)
        have hrep : recKey report = some k := hk
        rw [hrep] at hne
        simpa using fun e => hne e.symm
    · rw [h1]; exact hp'.2
  | checking =>
    simp only [DrainTask.resume]
    cases storeOk <;> simp [checkPending, getPendingReports, DrainTask.held, hwf]
  | finished => simp [DrainTask.resume, DrainTask.held, hwf]

/-- After its snapshot read has settled, and however many of its later
requests have settled, a run over a store in key order holds only records
that are in the store. -/
theorem resumeAll_held (settles : List (Bool × PostOutcome)) :
    ∀ (t : DrainTask) (st : AppState), st.store.WF →
      (t = .fetching ∨ (∀ x ∈ t.held, x ∈ st.store.records)) →
      t.held.Pairwise (fun a b => recLt a b = true) →
      (settles = [] → t ≠ .fetching) →
      (resumeAll settles (t, st)).1 ≠ .fetching ∧
        ∀ x ∈ (resumeAll settles (t, st)).1.held,
          x ∈ (resumeAll settles (t, st)).2.store.records := by
  induction settles with
  | nil =>
    intro t st _ hfetch _ hne
    exact ⟨hne rfl, hfetch.resolve_left (hne rfl)⟩
  | cons s settles ih =>
    intro t st hwf hfetch hp _
    obtain ⟨storeOk, o⟩ := s
    obtain ⟨h1, h2, h3, h4⟩ := resume_held storeOk o t st hwf hfetch hp
    simp only [resumeAll]
    exact ih _ _ h1 (Or.inr h3) h4 (fun _ => h2)

/-- C1 at the backlog `[r1, r2, r3]` with the submission of `r2` failing: the
store is left equal to `[r2]`. -/
theorem syncReports_partial_failure_witness :
    backlog3.WF ∧
      (syncReports secondFails (AppState.init backlog3 true)).store.records =
        [sampleRecord 2 "2024-05-02"] :=
  ⟨by decide,
   (syncReports_partial_failure secondFails (AppState.init backlog3 true) (by decide) rfl
      (fun _ => rfl)).1⟩

/-! ## Enqueue and capture -/

/-- C10 (enqueue postcondition), as amended: whenever `saveReport` resolves,
the id it returns was the key of no record before, and the store afterwards
holds the earlier records and exactly one new record, under that id, with
`createdAt` set to the timestamp, `status` set to `'pending'` and every other
payload property unchanged. It does resolve, with the key generator's number,
for every payload without an `id` property on an available store in key order
whose key generator is not exhausted. -/
theorem saveReport_postcondition (now : String) (s : ObjectStore) (p : JsObj) :
    (∀ k s', saveReport true now s p = (.ok k, s') →
        s.hasKey k = false ∧ ∃ r, recKey r = some k ∧
          s'.records.Perm (r :: s.records) ∧
          objGet r "createdAt" = some (.str now) ∧
          objGet r "status" = some (.str "pending") ∧
          ∀ f, f ∉ queueFields → objGet r f = objGet p f) ∧
      (s.WF → s.keyGen ≤ maxGeneratedKey → objGet p "id" = none →
        ∃ s', saveReport true now s p = (.ok (.num s.keyGen), s')) := by
  refine ⟨?_, ?_⟩
  · intro k s' hs'
    obtain ⟨hfree, r, hkey, hrec, hc, hst, _, hget⟩ := saveReport_ok_spec _ _ _ _ _ _ hs'
    exact ⟨hfree, r, hkey, hrec ▸ insertRecord_perm _ _ _, hc, hst, hget⟩
  · intro hwf hgen hid
    obtain ⟨s', hs', _⟩ := saveReport_generates now s p hwf hgen hid
    exact ⟨s', hs'⟩

/-- C10 as stated fails for a payload that brings the `id` of a stored record:
`saveReport` rejects with a `ConstraintError`, returns no id and adds
nothing. -/
theorem saveReport_rejects_existing_id :
    saveReport true "2024-05-04T08:00:00.000Z" backlog3 idPayload =
      (.error .constraintError, backlog3) := by
  rfl

/-- C5 (payload round trip), as amended: for a payload with no property named
`id`, `createdAt` or `status`, the record that a resolved `saveReport` stored
under the returned key strips back to the payload, and a run of `syncReports`
over the store posts exactly the payload for that record. -/
theorem saveReport_roundtrip (avail : Bool) (now : String) (s s' : ObjectStore) (p : JsObj)
    (k : IDBKey) (env : DrainEnv) (st : AppState)
    (hid : objGet p "id" = none) (hc : objGet p "createdAt" = none)
    (hs : objGet p "status" = none)
    (hsave : saveReport avail now s p = (.ok k, s')) (hst : st.store = s')
    (hsnap : env.snapOk = true) :
    ∃ i r, s'.records[i]? = some r ∧ recKey r = some k ∧ objOmit queueFields r = p ∧
      (postedBodies (syncReports env st).trace)[(postedBodies st.trace).length + i]? =
        some p := by
  obtain ⟨_, r, hkey, hrec, _, _, homit, _⟩ := saveReport_ok_spec _ _ _ _ _ _ hsave
  have hp : objOmit queueFields r = p := by
    rw [homit]
    apply objOmit_eq_self
    intro f hf
    simp only [queueFields, List.mem_cons, List.mem_singleton, List.not_mem_nil, or_false] at hf
    rcases hf with rfl | rfl | rfl <;> assumption
  have hmem : r ∈ s'.records := by
    rw [hrec]
    exact (insertRecord_perm k r s.records).symm.subset (List.mem_cons_self _ _)
  obtain ⟨i, hi⟩ := List.mem_iff_getElem?.mp hmem
  refine ⟨i, r, hi, hkey, hp, ?_⟩
  rw [syncReports_postedBodies env st hsnap, List.getElem?_append_right (Nat.le_add_right _ _),
    Nat.add_sub_cancel_left, List.getElem?_map, hst, hi]
  simp [hp]

/-- C5 as stated fails for a payload with a `status` property: the stored
record has `status: 'pending'` and the body that `syncReports` posts lacks
the payload's `status`. -/
theorem saveReport_roundtrip_loses_status :
    (saveReport true "2024-05-04T08:00:00.000Z" ObjectStore.empty statusPayload).1 =
        .ok (.num 1) ∧
      postedBodies (syncReports allSucceed (AppState.init
        (saveReport true "2024-05-04T08:00:00.000Z" ObjectStore.empty statusPayload).2
        true)).trace = [[("report_date", .str "2024-05-04")]] ∧
      [("report_date", JsVal.str "2024-05-04")] ≠ statusPayload :=
  ⟨rfl, by decide, by decide⟩

/-- C2 (capture fallback), as amended: when `handleSubmit` starts with
`navigator.onLine` true and the POST fails, the payload is enqueued only if
`navigator.onLine` reads false when the failure is handled. If it still reads
true the store is unchanged and the status is an error. If it reads false,
`saveReport` is called once: when it resolves the store gains exactly one
record, holding the payload, and the status is a success; when it rejects the
store is unchanged and the status is an error. -/
theorem handleSubmit_online_failure (env : CaptureEnv) (p : JsObj) (st : AppState)
    (hon : env.onLine = true) (hfail : env.post.isAck = false) :
    (env.onLineCatch = true →
        (handleSubmit env p st).store = st.store ∧
        (handleSubmit env p st).submitStatus.type = "error") ∧
      (env.onLineCatch = false → ∀ k s',
        saveReport env.saveAvailCatch env.nowCatch st.store p = (.ok k, s') →
        (handleSubmit env p st).store = s' ∧
        (handleSubmit env p st).submitStatus.type = "success" ∧
        (handleSubmit env p st).trace =
          st.trace ++ [.posted p env.post, .saved p (some k)] ∧
        st.store.hasKey k = false ∧
        ∃ r, recKey r = some k ∧ s'.records.Perm (r :: st.store.records) ∧
          objOmit queueFields r = objOmit queueFields p) ∧
      (env.onLineCatch = false → ∀ e,
        (saveReport env.saveAvailCatch env.nowCatch st.store p).1 = .error e →
        (handleSubmit env p st).store = st.store ∧
        (handleSubmit env p st).submitStatus.type = "error") := by
  refine ⟨?_, ?_, ?_⟩
  · intro hc
    simp [handleSubmit, handleSubmitCatch, hon, hfail, hc]
  · intro hc k s' hsave
    obtain ⟨hfree, r, hkey, hrec, _, _, homit, _⟩ := saveReport_ok_spec _ _ _ _ _ _ hsave
    refine ⟨?_, ?_, ?_, hfree, r, hkey, hrec ▸ insertRecord_perm _ _ _, homit⟩ <;>
      simp [handleSubmit, handleSubmitCatch, hon, hfail, hc, hsave]
  · intro hc e herr
    have hstore := saveReport_error_store _ _ _ _ _ herr
    cases hres : saveReport env.saveAvailCatch env.nowCatch st.store p with
    | mk res store' =>
      rw [hres] at herr hstore
      simp only at herr hstore
      subst herr hstore
      simp [handleSubmit, handleSubmitCatch, hon, hfail, hc, hres]

/-- C2 as stated fails when `navigator.onLine` still reads true after the
POST failed without a response: the payload is not in the store and was not
acknowledged. -/
theorem handleSubmit_online_failure_drops :
    (handleSubmit stillOnline samplePayload (AppState.init ObjectStore.empty true)).store.records
        = [] ∧
      ackedBodies
        (handleSubmit stillOnline samplePayload (AppState.init ObjectStore.empty true)).trace
        = [] ∧
      (handleSubmit stillOnline samplePayload (AppState.init ObjectStore.empty true)).submitStatus
        = ⟨"error", "Failed to submit report."⟩ := by
  decide
/-- C8 at the three-record backlog with the second submission failing: three
POSTs, one per record. -/
theorem syncReports_submits_each_once_witness :
    secondFails.snapOk = true ∧
      postedBodies (syncReports secondFails (AppState.init backlog3 true)).trace =
        backlog3.records.map (objOmit queueFields) :=
  ⟨rfl, (syncReports_submits_each_once secondFails (AppState.init backlog3 true) rfl).1⟩

/-- C6 (order preservation), as amended: for every store content built on a
new store by `saveReport`, `deleteReport` and `clearReports` calls whose saved
reports have no `id` property of their own, the snapshot of one run of
`syncReports` is the list of the records saved and not yet deleted, in the
order in which they were saved; the run submits them in that order; and if
record A was saved before record B and both are in the snapshot, then the id
of A is below the id of B and the POST of A is settled before the POST of B is
issued: the two requests appear in that order in the trace of the run. -/
theorem syncReports_enqueue_order (calls : List StoreCall)
    (hfree : ∀ c ∈ calls, c.idFree = true) (env : DrainEnv) (st : AppState)
    (hst : st.store = runCalls calls ObjectStore.empty) (hsnap : env.snapOk = true)
    (i j : Nat) (A B : JsObj) (hij : i < j)
    (hA : (savedNotDeleted calls ObjectStore.empty [])[i]? = some A)
    (hB : (savedNotDeleted calls ObjectStore.empty [])[j]? = some B) :
    getPendingReports true st.store = .ok (savedNotDeleted calls ObjectStore.empty []) ∧
      postedBodies (syncReports env st).trace =
        postedBodies st.trace ++
          (savedNotDeleted calls ObjectStore.empty []).map (objOmit queueFields) ∧
      recLt A B = true ∧
      ∃ pre mid post, (syncReports env st).trace =
        st.trace ++ pre ++ [Effect.posted (objOmit queueFields A) (env.post i)] ++ mid ++
          [Effect.posted (objOmit queueFields B) (env.post j)] ++ post := by
  obtain ⟨hrec, hp⟩ := runCalls_savedNotDeleted calls ObjectStore.empty [] hfree rfl
    (by simp [ObjectStore.empty]) (by simp [ObjectStore.empty])
  rw [← hst] at hrec hp
  rw [← hrec] at hA hB ⊢
  refine ⟨rfl, syncReports_postedBodies env st hsnap, ?_, ?_⟩
  · have hp' := List.pairwise_iff_getElem.mp hp
    obtain ⟨hi', hir⟩ := List.getElem?_eq_some.mp hA
    obtain ⟨hj', hjr⟩ := List.getElem?_eq_some.mp hB
    have := hp' i j hi' hj' hij
    rwa [hir, hjr] at this
  · obtain ⟨pre, mid, post, h⟩ :=
      loopEffects_posted_before env st.store.records 0 i j A B hij hA hB
    rw [syncReports_trace env st hsnap, h]
    refine ⟨[Effect.listed true] ++ pre, mid,
      post ++ (if st.store.records.length = 0 then [] else [Effect.listed env.checkOk]), ?_⟩
    simp

/-- C6 as stated fails for reports that bring their own `id`: a report is
saved with its own id 2 and then one with its own id 1; both are in the
snapshot of the next run, the store is well formed, and the run submits the
report that was saved second (dated 2024-05-05) first and the report that was
saved first (dated 2024-05-04) second. -/
theorem syncReports_not_in_enqueue_order :
    (runCalls saveLaterIdFirst ObjectStore.empty).WF ∧
      savedNotDeleted saveLaterIdFirst ObjectStore.empty [] =
        [storedRecord "2024-05-04T08:00:00.000Z" idPayload (.num 2),
         storedRecord "2024-05-05T08:00:00.000Z" earlyIdPayload (.num 1)] ∧
      (syncReports allSucceed
          (AppState.init (runCalls saveLaterIdFirst ObjectStore.empty) true)).trace =
        [.listed true,
         .posted [("report_date", .str "2024-05-05")] .ack, .deleted (some (.num 1)) true,
         .posted [("report_date", .str "2024-05-04")] .ack, .deleted (some (.num 2)) true,
         .listed true] := by
  decide

/-- C6 (amended) at three saves of form payloads with the first record deleted
in between, the second submission of the run failing: the record saved second
is submitted before the record saved third. -/
theorem syncReports_enqueue_order_witness :
    (∀ c ∈ saveSaveDeleteSave, c.idFree = true) ∧ secondFails.snapOk = true ∧
      postedBodies (syncReports secondFails
          (AppState.init (runCalls saveSaveDeleteSave ObjectStore.empty) true)).trace =
        [samplePayload, samplePayload] ∧
      ∃ pre mid post, (syncReports secondFails
          (AppState.init (runCalls saveSaveDeleteSave ObjectStore.empty) true)).trace =
        [] ++ pre ++
          [Effect.posted (objOmit queueFields
            (storedRecord "2024-05-04T09:00:00.000Z" samplePayload (.num 2)))
            (secondFails.post 0)] ++ mid ++
          [Effect.posted (objOmit queueFields
            (storedRecord "2024-05-04T10:00:00.000Z" samplePayload (.num 3)))
            (secondFails.post 1)] ++ post :=
  have h := syncReports_enqueue_order saveSaveDeleteSave (by decide) secondFails
    (AppState.init (runCalls saveSaveDeleteSave ObjectStore.empty) true) rfl rfl 0 1
    (storedRecord "2024-05-04T09:00:00.000Z" samplePayload (.num 2))
    (storedRecord "2024-05-04T10:00:00.000Z" samplePayload (.num 3)) (by decide)
    (by decide) (by decide)
  ⟨by decide, rfl, h.2.1, h.2.2.2⟩

/-- C10 (amended) at the three-record backlog and a form payload: the save
resolves with the id 4, which was free, and the payload's date is kept. -/
theorem saveReport_postcondition_witness :
    backlog3.WF ∧ backlog3.keyGen ≤ maxGeneratedKey ∧ objGet samplePayload "id" = none ∧
      (∃ s', saveReport true "2024-05-04T08:00:00.000Z" backlog3 samplePayload =
        (.ok (.num 4), s')) ∧
      backlog3.hasKey (.num 4) = false ∧
      ∃ r, recKey r = some (.num 4) ∧
        (saveReport true "2024-05-04T08:00:00.000Z" backlog3 samplePayload).2.records.Perm
          (r :: backlog3.records) ∧
        objGet r "createdAt" = some (.str "2024-05-04T08:00:00.000Z") ∧
        objGet r "status" = some (.str "pending") ∧
        ∀ f, f ∉ queueFields → objGet r f = objGet samplePayload f :=
  ⟨by decide, by decide, rfl,
    (saveReport_postcondition "2024-05-04T08:00:00.000Z" backlog3 samplePayload).2
      (by decide) (by decide) rfl,
    (saveReport_postcondition "2024-05-04T08:00:00.000Z" backlog3 samplePayload).1
      (.num 4) _ rfl⟩

/-- C5 (amended) at a form payload saved after the three-record backlog. -/
theorem saveReport_roundtrip_witness :
    saveReport true "2024-05-04T08:00:00.000Z" backlog3 samplePayload =
        (.ok (.num 4),
          (saveReport true "2024-05-04T08:00:00.000Z" backlog3 samplePayload).2) ∧
      ∃ i r,
        (saveReport true "2024-05-04T08:00:00.000Z" backlog3 samplePayload).2.records[i]? =
          some r ∧
        recKey r = some (.num 4) ∧ objOmit queueFields r = samplePayload ∧
        (postedBodies (syncReports allSucceed (AppState.init
          (saveReport true "2024-05-04T08:00:00.000Z" backlog3 samplePayload).2 true)).trace)[
            (postedBodies (AppState.init
              (saveReport true "2024-05-04T08:00:00.000Z" backlog3 samplePayload).2
              true).trace).length + i]? = some samplePayload :=
  ⟨rfl,
    saveReport_roundtrip true "2024-05-04T08:00:00.000Z" backlog3 _ samplePayload (.num 4)
      allSucceed _ rfl rfl rfl rfl rfl rfl⟩

/-- C2 (amended) at a capture whose POST fails and that finds the browser
offline afterwards: the store becomes what `saveReport` makes of it. -/
theorem handleSubmit_online_failure_witness :
    lostNetwork.onLine = true ∧ lostNetwork.post.isAck = false ∧
      (handleSubmit lostNetwork samplePayload (AppState.init backlog3 true)).store =
        (saveReport true "2024-05-04T08:00:01.000Z" backlog3 samplePayload).2 :=
  ⟨rfl, rfl,
    ((handleSubmit_online_failure lostNetwork samplePayload (AppState.init backlog3 true)
      rfl rfl).2.1 rfl (.num 4) _ rfl).1⟩

/-! ## Stripping and removal at sample inputs -/

/-- C4 at the body posted for the second record of the three-record
backlog. -/
theorem syncReports_strips_queue_fields_witness :
    objOmit queueFields (sampleRecord 2 "2024-05-02") ∈
        (postedBodies (syncReports secondFails (AppState.init backlog3 true)).trace).drop
          (postedBodies (AppState.init backlog3 true).trace).length ∧
      objGet (objOmit queueFields (sampleRecord 2 "2024-05-02")) "id" = none ∧
      objGet (objOmit queueFields (sampleRecord 2 "2024-05-02")) "createdAt" = none ∧
      objGet (objOmit queueFields (sampleRecord 2 "2024-05-02")) "status" = none :=
  ⟨by decide,
    syncReports_strips_queue_fields secondFails (AppState.init backlog3 true) _ (by decide)⟩

/-- C9 at an id that is not in the three-record backlog. -/
theorem deleteReport_idempotent_witness :
    backlog3.hasKey (.num 7) = false ∧
      (deleteReport true backlog3 (some (IDBKey.num 7).toVal)).2 = backlog3 :=
  ⟨by decide, (deleteReport_idempotent backlog3 (.num 7)).2.2 (by decide)⟩

/-! ## No loss -/

/-- C3 (no-loss), as amended: for every finite sequence of captures, drains
and online or offline events, run one after the other from a store in key
order, and at every point of it, each payload whose `handleSubmit` ended with
the status `success` has been acknowledged by the remote service or is held
by a record of the store. -/
theorem no_loss (ops : List Operation) (st : AppState) (hwf : st.store.WF) (n : Nat)
    (p : JsObj) (hp : p ∈ capturedOk (ops.take n) st) :
    accountedFor p (runOps (ops.take n) st) := by
  have all : ∀ (ops : List Operation) (st : AppState), st.store.WF →
      ∀ p ∈ capturedOk ops st, accountedFor p (runOps ops st) := by
    intro ops
    induction ops with
    | nil => intro st _ p hp; simp [capturedOk] at hp
    | cons op ops ih =>
      intro st hwf p hp
      cases op with
      | capture env q =>
        simp only [capturedOk, List.mem_append] at hp
        rcases hp with hp | hp
        · split at hp
          · rename_i hsucc
            rw [List.mem_singleton] at hp
            subst hp
            exact accountedFor_runOps ops p _ (handleSubmit_WF env p st hwf)
              (handleSubmit_success env p st hsucc)
          · simp at hp
        · exact ih _ (handleSubmit_WF env q st hwf) p hp
      | drain env => exact ih _ (syncReports_WF env st hwf) p hp
      | online env => exact ih _ (syncReports_WF env { st with isOnline := true } hwf) p hp
      | offline => exact ih (handleOffline st) hwf p hp
  exact all (ops.take n) st hwf p hp

/-- C3 (amended) at a capture made offline and drained later. -/
theorem no_loss_witness :
    (AppState.init ObjectStore.empty false).store.WF ∧
      samplePayload ∈ capturedOk (captureThenDrain.take 2) (AppState.init .empty false) ∧
      accountedFor samplePayload
        (runOps (captureThenDrain.take 2) (AppState.init .empty false)) :=
  ⟨by decide, by decide,
    no_loss captureThenDrain (AppState.init .empty false) (by decide) 2 samplePayload
      (by decide)⟩

/-- C3 as stated fails for a capture that starts online, whose POST fails and
that still reads `navigator.onLine` as true afterwards: its payload is neither
acknowledged nor in the store. -/
theorem no_loss_fails_when_still_online :
    samplePayload ∈ captured [.capture stillOnline samplePayload] ∧
      ¬ accountedFor samplePayload
        (runOps [.capture stillOnline samplePayload] (AppState.init .empty true)) := by
  decide

/-! ## Mutual exclusion -/

/-- C7 (mutual exclusion) fails on the code: an `online` event that arrives
while a manual sync awaits its POST starts a second run over the same record,
and the record is posted, and acknowledged, twice. -/
theorem online_during_sync_posts_twice :
    postedBodies (EventLoop.run onlineDuringSync (mount true backlog1 true)).app.trace =
        [objOmit queueFields (sampleRecord 1 "2024-05-01"),
         objOmit queueFields (sampleRecord 1 "2024-05-01")] ∧
      ackedBodies (EventLoop.run onlineDuringSync (mount true backlog1 true)).app.trace =
        [objOmit queueFields (sampleRecord 1 "2024-05-01"),
         objOmit queueFields (sampleRecord 1 "2024-05-01")] ∧
      (EventLoop.run onlineDuringSync (mount true backlog1 true)).tasks =
        [.finished, .finished] := by
  decide

/-! ## Ids and the pending list -/

/-- C11 (ids are never reused), as amended: for every sequence of
`saveReport`, `deleteReport` and `clearReports` calls whose saved reports
have no `id` property of their own, from any store state, the ids returned by
`saveReport` are strictly increasing in call order, hence pairwise distinct,
also across deletions and clears. -/
theorem returnedIds_increasing (calls : List StoreCall) (s : ObjectStore)
    (hfree : ∀ c ∈ calls, c.idFree = true) :
    (returnedIds calls s).Pairwise (fun a b => keyLt a b = true) ∧
      (returnedIds calls s).Nodup := by
  have hinc : ∀ (calls : List StoreCall) (s : ObjectStore),
      (∀ c ∈ calls, c.idFree = true) →
      (returnedIds calls s).Pairwise (fun a b => keyLt a b = true) := by
    intro calls
    induction calls with
    | nil => intro s _; simp [returnedIds]
    | cons c cs ih =>
      intro s hfree
      have hc := hfree c (List.mem_cons_self _ _)
      have hcs : ∀ c' ∈ cs, c'.idFree = true :=
        fun c' h => hfree c' (List.mem_cons_of_mem _ h)
      simp only [returnedIds]
      rcases run_idFree c s hc with ⟨h1, _⟩ | ⟨h1, h2⟩
      · simpa [h1] using ih _ hcs
      · simp only [h1, Option.toList, List.singleton_append, List.pairwise_cons]
        refine ⟨?_, ih _ hcs⟩
        intro k hk
        obtain ⟨n, rfl, hle⟩ := returnedIds_ge cs _ hcs k hk
        simp only [keyLt, decide_eq_true_eq]
        omega
  refine ⟨hinc calls s hfree, ?_⟩
  refine (hinc calls s hfree).imp ?_
  intro a b hab heq
  rw [heq, keyLt_irrefl] at hab
  exact absurd hab (by decide)

/-- C11 as stated fails for reports that bring their own `id`: after the
record with id 2 is deleted, a second `saveReport` of such a report returns
the id 2 again. -/
theorem returnedIds_reused_after_delete :
    returnedIds saveDeleteSave ObjectStore.empty = [.num 2, .num 2] := by
  decide

/-- C11 (amended) at three saves of form payloads with a deletion in between:
the ids are 1, 2 and 3. -/
theorem returnedIds_increasing_witness :
    (∀ c ∈ saveSaveDeleteSave, c.idFree = true) ∧
      returnedIds saveSaveDeleteSave ObjectStore.empty = [.num 1, .num 2, .num 3] ∧
      (returnedIds saveSaveDeleteSave ObjectStore.empty).Pairwise
        (fun a b => keyLt a b = true) :=
  ⟨by decide, by decide,
    (returnedIds_increasing saveSaveDeleteSave ObjectStore.empty (by decide)).1⟩

/-- C12 (listPending is complete and ordered), as amended: for every sequence
of `saveReport`, `deleteReport` and `clearReports` calls on a new store whose
saved reports have no `id` property of their own, `getPendingReports` returns
exactly the records that were saved and not yet deleted, in the order in which
they were saved, each once (their ids ascend). -/
theorem getPendingReports_saved_not_deleted (calls : List StoreCall)
    (hfree : ∀ c ∈ calls, c.idFree = true) :
    getPendingReports true (runCalls calls ObjectStore.empty) =
        .ok (savedNotDeleted calls ObjectStore.empty []) ∧
      (savedNotDeleted calls ObjectStore.empty []).Pairwise (fun a b => recLt a b = true) ∧
      (savedNotDeleted calls ObjectStore.empty []).Nodup := by
  obtain ⟨hrec, hp⟩ := runCalls_savedNotDeleted calls ObjectStore.empty [] hfree rfl
    (by simp [ObjectStore.empty]) (by simp [ObjectStore.empty])
  rw [hrec] at hp
  refine ⟨by simp [getPendingReports, ObjectStore.getAll, hrec], hp, ?_⟩
  refine hp.imp ?_
  intro a b hab heq
  exact recLt_ne hab (by rw [heq])

/-- C12 as stated fails for reports that bring their own `id`: a report saved
with id 2 and then one saved with id 1 come back in the order 1, 2, which is
not the order in which they were saved. -/
theorem getPendingReports_not_in_save_order :
    getPendingReports true (runCalls saveLaterIdFirst ObjectStore.empty) =
        .ok [storedRecord "2024-05-05T08:00:00.000Z" earlyIdPayload (.num 1),
             storedRecord "2024-05-04T08:00:00.000Z" idPayload (.num 2)] ∧
      savedNotDeleted saveLaterIdFirst ObjectStore.empty [] =
        [storedRecord "2024-05-04T08:00:00.000Z" idPayload (.num 2),
         storedRecord "2024-05-05T08:00:00.000Z" earlyIdPayload (.num 1)] :=
  ⟨rfl, by decide⟩

/-- C12 (amended) at three saves of form payloads with the first record
deleted in between: the second and the third record, in that order. -/
theorem getPendingReports_saved_not_deleted_witness :
    (∀ c ∈ saveSaveDeleteSave, c.idFree = true) ∧
      getPendingReports true (runCalls saveSaveDeleteSave ObjectStore.empty) =
        .ok [storedRecord "2024-05-04T09:00:00.000Z" samplePayload (.num 2),
             storedRecord "2024-05-04T10:00:00.000Z" samplePayload (.num 3)] :=
  ⟨by decide,
    (getPendingReports_saved_not_deleted saveSaveDeleteSave (by decide)).1⟩

/-! ## Capture paths -/

/-- C13 (capture while offline). When `handleSubmit` runs with
`navigator.onLine` reading false and the store available (in key order, key
generator not exhausted), it makes no POST and calls `saveReport` once, which
adds exactly one record to the store; the record holds the payload built from
the form. -/
theorem handleSubmit_offline_enqueues (env : CaptureEnv) (reportDate : String)
    (formData : FormData) (st : AppState) (hoff : env.onLine = false)
    (havail : env.saveAvail = true) (hwf : st.store.WF)
    (hgen : st.store.keyGen ≤ maxGeneratedKey) :
    postedBodies (handleSubmit env (buildPayload reportDate formData) st).trace =
        postedBodies st.trace ∧
      (handleSubmit env (buildPayload reportDate formData) st).trace =
        st.trace ++ [.saved (buildPayload reportDate formData) (some (.num st.store.keyGen))] ∧
      st.store.hasKey (.num st.store.keyGen) = false ∧
      (handleSubmit env (buildPayload reportDate formData) st).store.records.Perm
        (storedRecord env.now (buildPayload reportDate formData) (.num st.store.keyGen) ::
          st.store.records) ∧
      objOmit queueFields
          (storedRecord env.now (buildPayload reportDate formData) (.num st.store.keyGen)) =
        buildPayload reportDate formData ∧
      (handleSubmit env (buildPayload reportDate formData) st).submitStatus =
        ⟨"success", "Report saved offline. Will sync when online."⟩ := by
  have hsave := saveReport_idFree_ok env.now st.store (buildPayload reportDate formData) hwf
    hgen (buildPayload_no_id reportDate formData)
  rw [← havail] at hsave
  rw [handleSubmit_offline_saved env _ st _ _ hoff hsave]
  refine ⟨?_, rfl, hasKey_keyGen_of_WF st.store hwf hgen, insertRecord_perm _ _ _, ?_, rfl⟩
  · simp [postedBodies_append, postedBodies]
  · rw [objOmit_storedRecord, buildPayload_omit]

/-- C13 at the sample form captured offline over the three-record backlog. -/
theorem handleSubmit_offline_enqueues_witness :
    offlineCapture.onLine = false ∧ offlineCapture.saveAvail = true ∧ backlog3.WF ∧
      backlog3.keyGen ≤ maxGeneratedKey ∧
      postedBodies (handleSubmit offlineCapture (buildPayload "2024-05-04" sampleForm)
        (AppState.init backlog3 false)).trace = [] ∧
      (handleSubmit offlineCapture (buildPayload "2024-05-04" sampleForm)
        (AppState.init backlog3 false)).trace =
        [.saved (buildPayload "2024-05-04" sampleForm) (some (.num 4))] :=
  ⟨rfl, rfl, by decide, by decide,
    (handleSubmit_offline_enqueues offlineCapture "2024-05-04" sampleForm
      (AppState.init backlog3 false) rfl rfl (by decide) (by decide)).1,
    (handleSubmit_offline_enqueues offlineCapture "2024-05-04" sampleForm
      (AppState.init backlog3 false) rfl rfl (by decide) (by decide)).2.1⟩

/-- C14 (capture while online with success). When `handleSubmit` runs with
`navigator.onLine` reading true and the POST is acknowledged, the store is
left exactly as it was, and the status says the report was submitted. -/
theorem handleSubmit_online_success_keeps_store (env : CaptureEnv) (p : JsObj)
    (st : AppState) (hon : env.onLine = true) (hack : env.post.isAck = true) :
    (handleSubmit env p st).store = st.store ∧
      (handleSubmit env p st).submitStatus = ⟨"success", "Report submitted successfully!"⟩ := by
  simp [handleSubmit, hon, hack]

/-- C14 at a payload submitted online over the three-record backlog. -/
theorem handleSubmit_online_success_keeps_store_witness :
    onlineSuccess.onLine = true ∧ onlineSuccess.post.isAck = true ∧
      (handleSubmit onlineSuccess samplePayload (AppState.init backlog3 true)).store =
        backlog3 :=
  ⟨rfl, rfl,
    (handleSubmit_online_success_keeps_store onlineSuccess samplePayload
      (AppState.init backlog3 true) rfl rfl).1⟩

/-- C20 (a successful capture drains the backlog), as amended: when
`handleSubmit` submits a report successfully while online, it starts no
drain. Its only requests are its own POST and the feedback request; it reads
and deletes no stored record, and it leaves `syncing` and `pendingCount` as
they were. The backlog waits for an `online` event or the Sync Now button. -/
theorem handleSubmit_success_starts_no_drain (env : CaptureEnv) (p : JsObj) (st : AppState)
    (hon : env.onLine = true) (hack : env.post.isAck = true) :
    (handleSubmit env p st).trace = st.trace ++ [.posted p .ack, .feedbackRequested] ∧
      (handleSubmit env p st).store.records = st.store.records ∧
      (handleSubmit env p st).syncing = st.syncing ∧
      (handleSubmit env p st).pendingCount = st.pendingCount := by
  have hout : env.post = .ack := by
    cases h : env.post <;> simp [h, PostOutcome.isAck] at hack ⊢
  simp [handleSubmit, hon, hout, PostOutcome.isAck]

/-- C20 as stated fails: after a successful online capture over the
three-record backlog, the only POST is the new report's, the store was not
read, and the three records are still there. -/
theorem handleSubmit_success_leaves_backlog :
    (handleSubmit onlineSuccess samplePayload (AppState.init backlog3 true)).trace =
        [.posted samplePayload .ack, .feedbackRequested] ∧
      (handleSubmit onlineSuccess samplePayload (AppState.init backlog3 true)).store.records =
        backlog3.records ∧
      backlog3.records.length = 3 := by
  decide

/-- C20 (amended) at a payload submitted online over the three-record
backlog. -/
theorem handleSubmit_success_starts_no_drain_witness :
    onlineSuccess.onLine = true ∧ onlineSuccess.post.isAck = true ∧
      (handleSubmit onlineSuccess samplePayload (AppState.init backlog3 true)).pendingCount =
        0 :=
  ⟨rfl, rfl,
    (handleSubmit_success_starts_no_drain onlineSuccess samplePayload
      (AppState.init backlog3 true) rfl rfl).2.2.2⟩

/-- C15 (capture reports the path taken). For every run of `handleSubmit`,
the final status says the report was submitted if and only if the POST of the
payload was acknowledged, and says it was saved offline if and only if the
store gained a record. -/
theorem handleSubmit_status_tells_path (env : CaptureEnv) (p : JsObj) (st : AppState) :
    ((handleSubmit env p st).submitStatus.saysSubmitted = true ↔
        ackedBodies (handleSubmit env p st).trace = ackedBodies st.trace ++ [p]) ∧
      ((handleSubmit env p st).submitStatus.saysSavedOffline = true ↔
        (handleSubmit env p st).store.records.length = st.store.records.length + 1) := by
  have hne : ackedBodies st.trace ≠ ackedBodies st.trace ++ [p] := by
    intro h
    have := congrArg List.length h
    simp at this
  rcases handleSubmit_paths env p st with ⟨h1, h2, h3, h4⟩ | ⟨h1, h2, h3, h4⟩ |
    ⟨h1, h2, _, h3, h4⟩
  · refine ⟨⟨fun _ => h3, fun _ => h1⟩, ?_⟩
    rw [h2, h4]
    simp
  · refine ⟨?_, ⟨fun _ => h4, fun _ => h2⟩⟩
    rw [h1, h3]
    simp [hne]
  · rw [h1, h2, h3, h4]
    simp [hne]

/-- C18 (storage failure is never silent). `saveReport` rejects when the
store cannot be opened and when the insert fails, leaving the store as it
was; and a run of `handleSubmit` that starts offline and in which every
`saveReport` it attempts rejects ends with an error status and an unchanged
store. -/
theorem saveReport_failure_surfaces (now : String) (s : ObjectStore) (p : JsObj)
    (env : CaptureEnv) (st : AppState) :
    saveReport false now s p = (.error .unavailable, s) ∧
      (∀ e, s.add (objSet (objSet p "createdAt" (.str now)) "status" (.str "pending")) =
          .error e → saveReport true now s p = (.error e, s)) ∧
      (env.onLine = false →
        (∃ e, (saveReport env.saveAvail env.now st.store p).1 = .error e) →
        (env.onLineCatch = false →
          ∃ e, (saveReport env.saveAvailCatch env.nowCatch st.store p).1 = .error e) →
        (handleSubmit env p st).submitStatus.type = "error" ∧
          (handleSubmit env p st).store = st.store) := by
  refine ⟨rfl, ?_, ?_⟩
  · intro e he
    simp [saveReport, he]
  · intro hoff ⟨e, he⟩ hcatch
    have hstore := saveReport_error_store _ _ _ _ _ he
    cases hres : saveReport env.saveAvail env.now st.store p with
    | mk res store' =>
      rw [hres] at he hstore
      simp only at he hstore
      subst he hstore
      cases hc : env.onLineCatch with
      | true => simp [handleSubmit, handleSubmitCatch, hoff, hres, hc]
      | false =>
        obtain ⟨e', he'⟩ := hcatch hc
        have hstore' := saveReport_error_store _ _ _ _ _ he'
        cases hres' : saveReport env.saveAvailCatch env.nowCatch st.store p with
        | mk res' store'' =>
          rw [hres'] at he' hstore'
          simp only at he' hstore'
          subst he' hstore'
          simp [handleSubmit, handleSubmitCatch, hoff, hres, hc, hres']

/-- C18 at a capture made offline while the store cannot be opened. -/
theorem saveReport_failure_surfaces_witness :
    offlineNoStore.onLine = false ∧
      (handleSubmit offlineNoStore samplePayload (AppState.init backlog3 false)).submitStatus =
        ⟨"error", "Failed to save offline."⟩ ∧
      (handleSubmit offlineNoStore samplePayload (AppState.init backlog3 false)).store =
        backlog3 :=
  ⟨rfl, by decide,
    ((saveReport_failure_surfaces "" backlog3 samplePayload offlineNoStore
      (AppState.init backlog3 false)).2.2 rfl ⟨.unavailable, rfl⟩
      (fun _ => ⟨.unavailable, rfl⟩)).2⟩

/-! ## Drains: retention and reports -/

/-- C19 (no duplicate retention). For two consecutive runs of `syncReports`
over a store in key order, the first with its snapshot read and its deletes
succeeding, the second run submits exactly the records the first run left in
the store (or nothing, when its snapshot read fails); a record whose
submission was acknowledged in the first run is not among them, and when
every submission of the first run was acknowledged the second run makes no
POST at all. -/
theorem syncReports_twice (env₁ env₂ : DrainEnv) (st : AppState) (hwf : st.store.WF)
    (hsnap : env₁.snapOk = true) (hdel : ∀ i, env₁.delOk i = true) :
    postedBodies (syncReports env₂ (syncReports env₁ st)).trace =
        postedBodies (syncReports env₁ st).trace ++
          (if env₂.snapOk then (syncReports env₁ st).store.records else []).map
            (objOmit queueFields) ∧
      (∀ i r, st.store.records[i]? = some r → (env₁.post i).isAck = true →
        r ∉ (syncReports env₁ st).store.records) ∧
      ((∀ i, i < st.store.records.length → (env₁.post i).isAck = true) →
        postedBodies (syncReports env₂ (syncReports env₁ st)).trace =
          postedBodies (syncReports env₁ st).trace) := by
  have hrec := syncReports_store_records env₁ st hwf hsnap hdel
  refine ⟨syncReports_postedBodies_any env₂ _, ?_, ?_⟩
  · intro i r hi hack hmem
    rw [hrec] at hmem
    simp only [List.mem_map, List.mem_filter] at hmem
    obtain ⟨⟨j, r'⟩, ⟨hjr, hnack⟩, rfl⟩ := hmem
    have hj := List.mk_mem_enum_iff_getElem?.mp hjr
    have := pairwise_recLt_unique hwf.1 hi hj
    subst this
    simp [hack] at hnack
  · intro hall
    have hempty : (syncReports env₁ st).store.records = [] := by
      rw [hrec, List.map_eq_nil_iff, List.filter_eq_nil_iff]
      intro ir hir
      obtain ⟨i, r⟩ := ir
      have hi := List.mk_mem_enum_iff_getElem?.mp hir
      have hlt : i < st.store.records.length := (List.getElem?_eq_some.mp hi).1
      simp [hall i hlt]
    rw [syncReports_postedBodies_any env₂, hempty]
    simp

/-- C19 at the three-record backlog: after a run in which only the second
submission fails, a second run posts the second record only. -/
theorem syncReports_twice_witness :
    backlog3.WF ∧ secondFails.snapOk = true ∧
      postedBodies (syncReports allSucceed
        (syncReports secondFails (AppState.init backlog3 true))).trace =
        postedBodies (syncReports secondFails (AppState.init backlog3 true)).trace ++
          [objOmit queueFields (sampleRecord 2 "2024-05-02")] :=
  ⟨by decide, rfl,
    (syncReports_twice secondFails allSucceed (AppState.init backlog3 true) (by decide) rfl
      (fun _ => rfl)).1⟩

/-- C16 (drain summary), as amended: `syncReports` returns no summary. After
iterating a non-empty snapshot of a store in key order, with the reads and
the deletes succeeding, it sets `syncing` to false and `pendingCount` to the
number of snapshot records whose submission was not acknowledged; the number
of acknowledged submissions plus `pendingCount` is the snapshot length. -/
theorem syncReports_reports_pending_count (env : DrainEnv) (st : AppState) (hwf : st.store.WF)
    (hsnap : env.snapOk = true) (hdel : ∀ i, env.delOk i = true)
    (hcheck : env.checkOk = true) (hne : st.store.records ≠ []) :
    drainReport (syncReports env st) =
        ((st.store.records.enum.filter (fun ir => !(env.post ir.1).isAck)).length, false) ∧
      (ackedBodies (syncReports env st).trace).length =
        (ackedBodies st.trace).length +
          (st.store.records.enum.filter (fun ir => (env.post ir.1).isAck)).length ∧
      (st.store.records.enum.filter (fun ir => (env.post ir.1).isAck)).length +
          (syncReports env st).pendingCount = st.store.records.length := by
  have hrep := syncReports_drainReport env st hsnap hcheck hne
  rw [syncReports_store_records env st hwf hsnap hdel, List.length_map] at hrep
  refine ⟨hrep, ackedBodies_syncReports_length env st hsnap, ?_⟩
  have hpc : (syncReports env st).pendingCount =
      (st.store.records.enum.filter (fun ir => !(env.post ir.1).isAck)).length := by
    have := congrArg Prod.fst hrep
    simpa [drainReport] using this
  rw [hpc]
  have := List.length_eq_length_filter_add (l := st.store.records.enum)
    (fun ir => (env.post ir.1).isAck)
  simp only [List.enum_length] at this
  omega

/-- C16 as stated fails: a run over three records with two acknowledged and
one failing without a response, and a run over one record that the service
rejects, leave the same report (`pendingCount = 1`, `syncing = false`), though
the counts of succeeded, retried-later and failed records all differ. -/
theorem syncReports_report_hides_counts :
    drainReport (syncReports secondFails (AppState.init backlog3 true)) = (1, false) ∧
      drainReport (syncReports allRejected (AppState.init backlog1 true)) = (1, false) ∧
      (ackedBodies (syncReports secondFails (AppState.init backlog3 true)).trace).length = 2 ∧
      (ackedBodies (syncReports allRejected (AppState.init backlog1 true)).trace).length = 0 := by
  decide

/-- C16 (amended) at the three-record backlog where only the second
submission fails: `pendingCount` is set to 1. -/
theorem syncReports_reports_pending_count_witness :
    backlog3.WF ∧ secondFails.snapOk = true ∧ secondFails.checkOk = true ∧
      backlog3.records ≠ [] ∧
      drainReport (syncReports secondFails (AppState.init backlog3 true)) = (1, false) :=
  ⟨by decide, rfl, rfl, by decide,
    (syncReports_reports_pending_count secondFails (AppState.init backlog3 true) (by decide)
      rfl (fun _ => rfl) rfl (by decide)).1⟩

/-- C17 (non-retryable failures), as amended: a record whose submission fails
stays in the store, whatever the failure; and `syncReports` does not tell a
validation or authentication failure from a network failure: two runs that
differ only in how the failed submissions failed leave the same store and the
same component state. -/
theorem syncReports_failure_kind_ignored (env env' : DrainEnv) (st : AppState)
    (hack : ∀ i, (env.post i).isAck = (env'.post i).isAck)
    (hsnap : env.snapOk = env'.snapOk) (hdel : ∀ i, env.delOk i = env'.delOk i)
    (hcheck : env.checkOk = env'.checkOk) :
    forgetTrace (syncReports env st) = forgetTrace (syncReports env' st) ∧
      (st.store.WF → ∀ i r, st.store.records[i]? = some r → (env.post i).isAck = false →
        r ∈ (syncReports env st).store.records) := by
  refine ⟨syncReports_forgetTrace env env' st hack hsnap hdel hcheck, ?_⟩
  intro hwf i r hi hfail
  have hr : r ∈ st.store.records := List.mem_iff_getElem?.mpr ⟨i, hi⟩
  unfold syncReports
  cases hs : env.snapOk with
  | false => simpa [getPendingReports, hs] using hr
  | true =>
    simp only [getPendingReports, if_true, ObjectStore.getAll]
    split
    · exact hr
    · have hloop := syncLoop_unacked_stays env r st.store.records 0
        { st with trace := st.trace ++ [.listed true], syncing := true } hr
        (by
          intro j x hj hackj heq
          have hx : x ∈ st.store.records := List.mem_iff_getElem?.mpr ⟨j, hj⟩
          have hxr := pairwise_recLt_inj hwf.1 hx hr heq
          subst hxr
          have := pairwise_recLt_unique hwf.1 hi hj
          subst this
          simp [hfail] at hackj)
      unfold checkPending getPendingReports
      cases env.checkOk <;> simpa using hloop

/-- C17 as stated fails: the run in which the second submission is rejected
by the service (status 422) and the run in which it fails without a response
leave the same store and the same component state, so the caller cannot tell
them apart. -/
theorem syncReports_rejection_not_flagged :
    forgetTrace (syncReports secondRejected (AppState.init backlog3 true)) =
        forgetTrace (syncReports secondFails (AppState.init backlog3 true)) ∧
      secondRejected.post 1 = .httpError 422 ∧ secondFails.post 1 = .networkError := by
  decide

/-- C17 (amended) at the three-record backlog with the second submission
rejected by the service: the second record stays in the store. -/
theorem syncReports_failure_kind_ignored_witness :
    backlog3.WF ∧ (secondRejected.post 1).isAck = false ∧
      sampleRecord 2 "2024-05-02" ∈
        (syncReports secondRejected (AppState.init backlog3 true)).store.records :=
  ⟨by decide, rfl,
    (syncReports_failure_kind_ignored secondRejected secondFails (AppState.init backlog3 true)
      (fun i => by by_cases h : i = 1 <;> simp [secondRejected, secondFails, h, PostOutcome.isAck])
      rfl (fun _ => rfl) rfl).2 (by decide) 1 _ rfl rfl⟩

/-! ## Clear, frames and the syncing flag -/

/-- C22 (clear empties the store). For every store state, `clearReports`
resolves, the store then holds no record, and `getPendingReports` returns the
empty list; the key generator keeps its number. -/
theorem clearReports_empties (s : ObjectStore) :
    (clearReports true s).1 = .ok () ∧
      (clearReports true s).2.records = [] ∧
      getPendingReports true (clearReports true s).2 = .ok [] ∧
      (clearReports true s).2.keyGen = s.keyGen :=
  ⟨rfl, rfl, rfl, rfl⟩

/-- C26 (records are never mutated in place). For every store state, the
records left by `deleteReport(id)` and by a run of `syncReports` are records
that were in the store before, with the same fields and values and in the
same order; and after `saveReport` every earlier record is still in the
store as it was. -/
theorem records_never_mutated (s : ObjectStore) (avail : Bool) (id : Option JsVal)
    (now : String) (p : JsObj) (env : DrainEnv) (st : AppState) :
    (deleteReport avail s id).2.records.Sublist s.records ∧
      (syncReports env st).store.records.Sublist st.store.records ∧
      s.records.Sublist (saveReport avail now s p).2.records := by
  refine ⟨?_, syncReports_sublist env st, saveReport_sublist avail now s p⟩
  rcases deleteReport_store avail s id with h | ⟨k, _, h⟩
  · rw [h]
  · rw [h]; exact List.filter_sublist _

/-- C27 (drain of an empty store is a no-op). When the store is empty, a run
of `syncReports` ends at its first `await`: its only request is the read of
the store, it posts and deletes nothing, and it leaves the store, `syncing`,
`pendingCount` and the rest of the component state as they were. -/
theorem syncReports_empty_store (env : DrainEnv) (st : AppState)
    (hempty : st.store.records = []) :
    (syncReports env st).trace = st.trace ++ [.listed env.snapOk] ∧
      forgetTrace (syncReports env st) = forgetTrace st ∧
      (syncReports env st).syncing = st.syncing ∧
      (syncReports env st).pendingCount = st.pendingCount ∧
      (DrainTask.resume env.snapOk .ack .fetching st).1 = .finished := by
  cases hs : env.snapOk <;>
    simp [syncReports, getPendingReports, ObjectStore.getAll, hempty, hs, forgetTrace,
      DrainTask.resume]

/-- C27 at a run over the new, empty store. -/
theorem syncReports_empty_store_witness :
    (AppState.init ObjectStore.empty true).store.records = [] ∧
      (syncReports allSucceed (AppState.init ObjectStore.empty true)).trace = [.listed true] ∧
      (syncReports allSucceed (AppState.init ObjectStore.empty true)).syncing = false :=
  ⟨rfl,
    (syncReports_empty_store allSucceed (AppState.init ObjectStore.empty true) rfl).1,
    (syncReports_empty_store allSucceed (AppState.init ObjectStore.empty true) rfl).2.2.1⟩

/-- C25 (drain completion releases the lock). For every snapshot and all
outcomes of the submissions and deletes, a run of `syncReports` that
completes (the read of line 62 resolves) and that started with `syncing`
false ends with `syncing` false; after a non-empty snapshot it ends with
`syncing` false whatever the flag was. A click on Sync Now is then accepted
when the component is online with records pending. -/
theorem syncReports_releases_syncing (env : DrainEnv) (st : AppState)
    (hcheck : env.checkOk = true) :
    (st.syncing = false → (syncReports env st).syncing = false) ∧
      (env.snapOk = true → st.store.records ≠ [] → (syncReports env st).syncing = false) ∧
      ((syncReports env st).syncing = false → (syncReports env st).isOnline = true →
        0 < (syncReports env st).pendingCount → ∀ tasks,
        (EventLoop.step ⟨syncReports env st, tasks⟩ .clickSync).tasks =
          tasks ++ [.fetching]) := by
  refine ⟨?_, ?_, ?_⟩
  · intro hidle
    unfold syncReports
    cases hs : getPendingReports env.snapOk st.store with
    | error e => exact hidle
    | ok reports =>
      simp only
      split
      · exact hidle
      · simp [checkPending, getPendingReports, hcheck]
  · intro hsnap hne
    have := syncReports_drainReport env st hsnap hcheck hne
    exact (congrArg Prod.snd this)
  · intro hs ho hp tasks
    simp [EventLoop.step, hs, ho, hp]

/-- C25 at the three-record backlog with the second submission failing. -/
theorem syncReports_releases_syncing_witness :
    secondFails.checkOk = true ∧ (AppState.init backlog3 true).syncing = false ∧
      (syncReports secondFails (AppState.init backlog3 true)).syncing = false ∧
      (EventLoop.step ⟨syncReports secondFails (AppState.init backlog3 true), []⟩
        .clickSync).tasks = [.fetching] :=
  ⟨rfl, rfl,
    (syncReports_releases_syncing secondFails (AppState.init backlog3 true) rfl).1 rfl,
    (syncReports_releases_syncing secondFails (AppState.init backlog3 true) rfl).2.2
      (by decide) (by decide) (by decide) []⟩

/-! ## Deletes during a drain -/

/-- C23 (removal is immediate). In every run of `syncReports` whose snapshot
read resolved, the acknowledged POST of a snapshot record is directly
followed by the `deleteReport` of that record's id, which has settled before
any later request of the run: the POST of the next snapshot record, if there
is one, comes right after it. -/
theorem syncReports_deletes_before_next (env : DrainEnv) (st : AppState)
    (hsnap : env.snapOk = true) (i : Nat) (A : JsObj)
    (hA : st.store.records[i]? = some A) (hack : (env.post i).isAck = true) :
    (syncReports env st).trace =
        st.trace ++ [.listed true] ++ loopEffects env 0 (st.store.records.take i) ++
          [.posted (objOmit queueFields A) (env.post i),
           .deleted (objGet A "id") (env.delOk i && ((objGet A "id").bind toKey).isSome)] ++
          loopEffects env (i + 1) (st.store.records.drop (i + 1)) ++
          [.listed env.checkOk] ∧
      (∀ B, st.store.records[i + 1]? = some B →
        ∃ later, loopEffects env (i + 1) (st.store.records.drop (i + 1)) =
          .posted (objOmit queueFields B) (env.post (i + 1)) :: later) ∧
      (st.store.WF → ((objGet A "id").bind toKey).isSome = true) := by
  have hne : ¬ st.store.records.length = 0 := by
    intro h
    rw [List.length_eq_zero.mp h] at hA
    simp at hA
  refine ⟨?_, ?_, ?_⟩
  · rw [syncReports_trace env st hsnap, loopEffects_split env _ i A hA]
    simp [recordEffects, hack, hne]
  · intro B hB
    have hdrop : st.store.records.drop (i + 1) = B :: st.store.records.drop (i + 2) := by
      obtain ⟨hlt, hget⟩ := List.getElem?_eq_some.mp hB
      rw [← hget]
      exact List.drop_eq_getElem_cons hlt
    rw [hdrop]
    exact ⟨(recordEffects env (i + 1) B).tail ++
      loopEffects env (i + 1 + 1) (st.store.records.drop (i + 2)),
      by simp [loopEffects, recordEffects]⟩
  · intro hwf
    obtain ⟨k, hk⟩ := belowGen_isSome (hwf.2.1 A (List.getElem?_mem hA))
    have : (objGet A "id").bind toKey = some k := hk
    simp [this]

/-- C23 at the three-record backlog: the delete of the first record comes
between the POST of the first and the POST of the second record. -/
theorem syncReports_deletes_before_next_witness :
    secondFails.snapOk = true ∧ (secondFails.post 0).isAck = true ∧
      (syncReports secondFails (AppState.init backlog3 true)).trace =
        [.listed true,
         .posted (objOmit queueFields (sampleRecord 1 "2024-05-01")) .ack,
         .deleted (some (.num 1)) true,
         .posted (objOmit queueFields (sampleRecord 2 "2024-05-02")) .networkError,
         .posted (objOmit queueFields (sampleRecord 3 "2024-05-03")) .ack,
         .deleted (some (.num 3)) true,
         .listed true] :=
  ⟨rfl, rfl,
    (syncReports_deletes_before_next secondFails (AppState.init backlog3 true) rfl 0
      (sampleRecord 1 "2024-05-01") rfl rfl).1⟩

/-- C24 (at-least-once window). If in a run of `syncReports` over a store in
key order the POST of a record is acknowledged but its `deleteReport`
rejects, the record stays in the store (the rejected delete is in the trace), the run goes on to submit every
snapshot record, and the next run of `syncReports` (its snapshot read
resolving) submits that record again. -/
theorem syncReports_delete_failure_resubmits (env₁ env₂ : DrainEnv) (st : AppState)
    (hwf : st.store.WF) (hsnap₁ : env₁.snapOk = true) (hsnap₂ : env₂.snapOk = true)
    (i : Nat) (r : JsObj) (hr : st.store.records[i]? = some r)
    (hack : (env₁.post i).isAck = true) (hdel : env₁.delOk i = false) :
    Effect.deleted (objGet r "id") false ∈ (syncReports env₁ st).trace ∧
      r ∈ (syncReports env₁ st).store.records ∧
      postedBodies (syncReports env₁ st).trace =
        postedBodies st.trace ++ st.store.records.map (objOmit queueFields) ∧
      ∃ j, (syncReports env₁ st).store.records[j]? = some r ∧
        (postedBodies (syncReports env₂ (syncReports env₁ st)).trace)[
          (postedBodies (syncReports env₁ st).trace).length + j]? =
            some (objOmit queueFields r) := by
  have hmem : r ∈ st.store.records := List.getElem?_mem hr
  have hstay : r ∈ (syncReports env₁ st).store.records := by
    unfold syncReports
    simp only [getPendingReports, hsnap₁, if_true, ObjectStore.getAll]
    split
    · exact hmem
    · have hloop := syncLoop_stays_unless_deleted env₁ r st.store.records 0
        { st with trace := st.trace ++ [.listed true], syncing := true } hmem
        (by
          intro j x hj _ hdelj heq
          have hx : x ∈ st.store.records := List.getElem?_mem hj
          have hxr := pairwise_recLt_inj hwf.1 hx hmem heq
          subst hxr
          have := pairwise_recLt_unique hwf.1 hr hj
          subst this
          simp [hdel] at hdelj)
      unfold checkPending getPendingReports
      cases env₁.checkOk <;> simpa using hloop
  have hdeleted : Effect.deleted (objGet r "id") false ∈ (syncReports env₁ st).trace := by
    rw [syncReports_trace env₁ st hsnap₁, loopEffects_split env₁ _ i r hr]
    simp [recordEffects, hack, hdel]
  refine ⟨hdeleted, hstay, syncReports_postedBodies env₁ st hsnap₁, ?_⟩
  obtain ⟨j, hj⟩ := List.mem_iff_getElem?.mp hstay
  refine ⟨j, hj, ?_⟩
  rw [syncReports_postedBodies env₂ _ hsnap₂,
    List.getElem?_append_right (Nat.le_add_right _ _), Nat.add_sub_cancel_left,
    List.getElem?_map, hj]
  rfl

/-- C24 at the three-record backlog when the delete of the first record
rejects: the record is still stored after the run. -/
theorem syncReports_delete_failure_resubmits_witness :
    backlog3.WF ∧ (firstDeleteFails.post 0).isAck = true ∧ firstDeleteFails.delOk 0 = false ∧
      sampleRecord 1 "2024-05-01" ∈
        (syncReports firstDeleteFails (AppState.init backlog3 true)).store.records :=
  ⟨by decide, rfl, rfl,
    (syncReports_delete_failure_resubmits firstDeleteFails allSucceed
      (AppState.init backlog3 true) (by decide) rfl rfl 0 (sampleRecord 1 "2024-05-01") rfl
      rfl rfl).2.1⟩

/-! ## Online events and exclusive outcomes -/

/-- C21 (became-online triggers a drain). An `online` event sets `isOnline`
to true and starts exactly one run of `syncReports`, and nothing else; that
run, left alone, ends in the state `handleOnline` computes, still online. An
`offline` event sets `isOnline` to false, starts no run and makes no
request. -/
theorem online_event_starts_one_drain (w : EventLoop) (env : DrainEnv) (st : AppState) :
    (w.step .online).app = { w.app with isOnline := true } ∧
      (w.step .online).tasks = w.tasks ++ [.fetching] ∧
      resumeAll ((env.snapOk, .ack) :: (loopSettlements env 0 st.store.records ++
          [(env.checkOk, .ack)])) (.fetching, { st with isOnline := true }) =
        (.finished, handleOnline env st) ∧
      (handleOnline env st).isOnline = true ∧
      (w.step .offline).app = { w.app with isOnline := false } ∧
      (w.step .offline).tasks = w.tasks ∧
      handleOffline st = { st with isOnline := false } := by
  refine ⟨rfl, rfl, ?_, ?_, rfl, rfl, rfl⟩
  · exact resumeAll_alone env { st with isOnline := true }
  · unfold handleOnline
    rw [syncReports_isOnline]

/-- C29 (capture outcomes are exclusive). For every run of `handleSubmit`: if
the final status is `success`, then either the remote service acknowledged
the payload and the store is as it was, or nothing was acknowledged and the
store gained exactly one record, holding the payload, under a key that was
free; if the final status is `error`, the store is exactly as it was and
nothing was acknowledged. -/
theorem handleSubmit_outcomes_exclusive (env : CaptureEnv) (p : JsObj) (st : AppState) :
    ((handleSubmit env p st).submitStatus.type = "success" →
        (ackedBodies (handleSubmit env p st).trace = ackedBodies st.trace ++ [p] ∧
          (handleSubmit env p st).store = st.store) ∨
        (ackedBodies (handleSubmit env p st).trace = ackedBodies st.trace ∧
          ∃ r k, recKey r = some k ∧ st.store.hasKey k = false ∧
            (handleSubmit env p st).store.records.Perm (r :: st.store.records) ∧
            objOmit queueFields r = objOmit queueFields p)) ∧
      ((handleSubmit env p st).submitStatus.type = "error" →
        (handleSubmit env p st).store = st.store ∧
          ackedBodies (handleSubmit env p st).trace = ackedBodies st.trace) := by
  rcases handleSubmit_paths env p st with ⟨h1, _, h3, h4⟩ | ⟨_, h2, h3, h4⟩ |
    ⟨_, _, h2, h3, h4⟩
  · have htype : (handleSubmit env p st).submitStatus.type = "success" := by
      have h := h1
      simp only [SubmitStatus.saysSubmitted, Bool.and_eq_true, beq_iff_eq] at h
      exact h.1
    exact ⟨fun _ => Or.inl ⟨h3, h4⟩, fun herr => by rw [htype] at herr; exact absurd herr (by decide)⟩
  · have htype : (handleSubmit env p st).submitStatus.type = "success" := by
      have h := h2
      simp only [SubmitStatus.saysSavedOffline, Bool.and_eq_true, beq_iff_eq] at h
      exact h.1
    refine ⟨fun _ => Or.inr ⟨h3, ?_⟩, fun herr => by rw [htype] at herr; exact absurd herr (by decide)⟩
    rcases handleSubmit_store env p st with hsame | ⟨avail, now, k, hsave⟩
    · rw [hsame] at h4
      omega
    · obtain ⟨hfree, r, hkey, hrec, _, _, homit, _⟩ := saveReport_ok_spec _ _ _ _ _ _ hsave
      exact ⟨r, k, hkey, hfree, hrec ▸ insertRecord_perm _ _ _, homit⟩
  · exact ⟨fun hs => by rw [h2] at hs; exact absurd hs (by decide), fun _ => ⟨h4, h3⟩⟩

/-- C29 at a capture that is acknowledged online and at one that fails
offline with the store closed. -/
theorem handleSubmit_outcomes_exclusive_witness :
    (handleSubmit onlineSuccess samplePayload (AppState.init backlog3 true)).submitStatus.type =
        "success" ∧
      (handleSubmit offlineNoStore samplePayload (AppState.init backlog3 false)).submitStatus.type
        = "error" ∧
      (handleSubmit offlineNoStore samplePayload (AppState.init backlog3 false)).store =
        backlog3 :=
  ⟨by decide, by decide,
    ((handleSubmit_outcomes_exclusive offlineNoStore samplePayload
      (AppState.init backlog3 false)).2 (by decide)).1⟩

/-! ## Snapshot isolation -/

/-- C28 (a drain works on its snapshot only). Take a run of `syncReports`
over a store in key order whose snapshot read has settled, and any number of
its later requests; let `saveReport` then add a record. However the
remaining requests of the run settle, and however far the run gets, the new
record is in the store, as it was saved; from then on the run posts only
snapshot records it had still to post, in their order, and never deletes the
new record's id. -/
theorem syncReports_snapshot_only (st₀ : AppState) (hwf : st₀.store.WF)
    (first : Bool × PostOutcome) (before later : List (Bool × PostOutcome)) (avail : Bool)
    (now : String) (p : JsObj) (k : IDBKey) (s' : ObjectStore)
    (hsave : saveReport avail now (resumeAll (first :: before) (.fetching, st₀)).2.store p =
      (.ok k, s')) :
    ∃ r, recKey r = some k ∧ r ∈ s'.records ∧
      objGet r "createdAt" = some (.str now) ∧
      objOmit queueFields r = objOmit queueFields p ∧
      r ∉ (resumeAll (first :: before) (.fetching, st₀)).1.held ∧
      r ∈ (resumeAll later ((resumeAll (first :: before) (.fetching, st₀)).1,
        { (resumeAll (first :: before) (.fetching, st₀)).2 with store := s' })).2.store.records ∧
      ∃ ext, (resumeAll later ((resumeAll (first :: before) (.fetching, st₀)).1,
          { (resumeAll (first :: before) (.fetching, st₀)).2 with store := s' })).2.trace =
            (resumeAll (first :: before) (.fetching, st₀)).2.trace ++ ext ∧
        postedBodies ext ++
            (resumeAll later ((resumeAll (first :: before) (.fetching, st₀)).1,
              { (resumeAll (first :: before) (.fetching, st₀)).2 with
                store := s' })).1.toPost.map (objOmit queueFields) =
          (resumeAll (first :: before) (.fetching, st₀)).1.toPost.map (objOmit queueFields) ∧
        ∀ ok, Effect.deleted (some k.toVal) ok ∉ ext := by
  obtain ⟨hread, hheld⟩ := resumeAll_held (first :: before) .fetching st₀ hwf (Or.inl rfl)
    (by simp [DrainTask.held]) (by simp)
  exact resumeAll_after_save _ _ avail now p k s' later hread hheld hsave

/-- C28 at a run over the one-record backlog: after the snapshot is read a
form payload is saved, then the POST is acknowledged, the delete and the
final read resolve; the store holds the new record. -/
theorem syncReports_snapshot_only_witness :
    backlog1.WF ∧
      saveReport true "2024-05-04T08:00:00.000Z"
          (resumeAll [(true, .ack)] (.fetching, AppState.init backlog1 true)).2.store
          samplePayload =
        (.ok (.num 2), (saveReport true "2024-05-04T08:00:00.000Z" backlog1 samplePayload).2) ∧
      ∃ r, recKey r = some (.num 2) ∧
        r ∈ (resumeAll [(true, .ack), (true, .ack), (true, .ack)]
          ((resumeAll [(true, .ack)] (.fetching, AppState.init backlog1 true)).1,
            { (resumeAll [(true, .ack)] (.fetching, AppState.init backlog1 true)).2 with
              store := (saveReport true "2024-05-04T08:00:00.000Z" backlog1
                samplePayload).2 })).2.store.records := by
  refine ⟨by decide, rfl, ?_⟩
  obtain ⟨r, h1, _, _, _, _, h2, _⟩ := syncReports_snapshot_only
    (AppState.init backlog1 true) (by decide) (true, .ack) []
    [(true, .ack), (true, .ack), (true, .ack)] true
    "2024-05-04T08:00:00.000Z" samplePayload (.num 2)
    (saveReport true "2024-05-04T08:00:00.000Z" backlog1 samplePayload).2 rfl
  exact ⟨r, h1, h2⟩

end PHIP
